import Mathlib

/-!
Verification development for the `isthisyiff` front-end collage core.

The TypeScript sources are shallowly embedded:
* `src/frontend/src/components/collage/types.ts`   → `Axis`, `Side`, `Vec`,
  `BlockContentState`, `Block`, `BlockLifecycleChangeEvent`;
* `src/frontend/src/components/collage/helpers.ts` → namespace `Helpers`;
* the `Collage` grid-engine class                  → structure `Collage` and
  the functions in namespace `Collage` (JS numbers are modelled as `ℚ`,
  grid coordinates and counts as `ℤ`; the two unbounded do/while loops of
  `introduce`/`remove` are modelled with explicit fuel, instantiated with a
  provably sufficient bound);
* the `zoom` function of `Collage.vue`             → namespace `ZoomCtl`;
* the `BlockImageDownloader` class                 → namespace `Downloader`
  (the network is a parameter: a supplier of preview batches, and a fetch
  outcome per block).
-/

/-- `types.ts`: an axis of 2D space (`'x' | 'y'`). -/
inductive Axis where
  | x : Axis
  | y : Axis
deriving DecidableEq, Repr

/-- `types.ts`: the start or end of an axis (`'start' | 'end'`). -/
inductive Side where
  | start : Side
  | end_ : Side
deriving DecidableEq, Repr

/-- `types.ts`: a general 2-vector with one component per axis. -/
structure Vec (α : Type) where
  x : α
  y : α
deriving DecidableEq, Repr

/-- Component access `v[axis]`. -/
def Vec.get {α : Type} (v : Vec α) : Axis → α
  | .x => v.x
  | .y => v.y

/-- Component update `v[axis] = value`. -/
def Vec.set {α : Type} (v : Vec α) : Axis → α → Vec α
  | .x, a => { v with x := a }
  | .y, a => { v with y := a }

/-- `types.ts`: content loading state of a block. -/
inductive BlockContentState where
  | New : BlockContentState
  | Downloading : BlockContentState
  | Ready : BlockContentState
  | Removed : BlockContentState
  | Errored : BlockContentState
deriving DecidableEq, Repr

/-- `types.ts`: a block of the grid.  The downloaded `HTMLImageElement` is
modelled as an opaque numeric handle. -/
structure Block (μ : Type) where
  position : Vec ℤ
  state : BlockContentState
  sourceImage : Option ℕ
  id : ℕ
  metadata : μ
deriving DecidableEq, Repr

/-- `types.ts`: a batched lifecycle change notification. -/
structure BlockLifecycleChangeEvent (μ : Type) where
  blocks : List (Block μ)
  newState : BlockContentState
deriving DecidableEq, Repr

namespace Helpers

/-- `helpers.ts` `oppositeAxis`. -/
def oppositeAxis : Axis → Axis
  | .x => .y
  | .y => .x

/-- `helpers.ts` `add`. -/
def add (a b : Vec ℚ) : Vec ℚ :=
  { x := a.x + b.x, y := a.y + b.y }

/-- `helpers.ts` `subtract`. -/
def subtract (a b : Vec ℚ) : Vec ℚ :=
  { x := a.x - b.x, y := a.y - b.y }

/-- `helpers.ts` `divide`: componentwise quotient, with a guard making a zero
divisor yield `0` in that component. -/
def divide (a b : Vec ℚ) : Vec ℚ :=
  { x := if b.x = 0 then 0 else a.x / b.x,
    y := if b.y = 0 then 0 else a.y / b.y }

/-- `helpers.ts` `multiply`. -/
def multiply (a b : Vec ℚ) : Vec ℚ :=
  { x := a.x * b.x, y := a.y * b.y }

/-- `helpers.ts` `vectorOf`: the given value in both dimensions, or the two
given dimensions (`b = null` in TS is `b = none` here). -/
def vectorOf (a : ℚ) (b : Option ℚ) : Vec ℚ :=
  { x := a, y := match b with | some v => v | none => a }

/-- `helpers.ts` `invert`. -/
def invert (a : Vec ℚ) : Vec ℚ :=
  multiply a (vectorOf (-1) none)

end Helpers

/-- The grid-engine state (the private fields of the `Collage` class).
JS pixel quantities are `ℚ`; grid coordinates and counts are integers. -/
structure Collage (μ : Type) where
  blockSize : ℚ
  blocks : List (Block μ)
  viewportSize : Vec ℚ
  blockOrigin : Vec ℤ
  origin : Vec ℚ
  blockCounts : Vec ℤ
  blockId : ℕ
  preloadDistance : ℚ
  defaultBlockMetadata : μ

namespace Collage

variable {μ : Type}

/-- The `Collage` constructor together with the field initialisers. -/
def new (defaultBlockMetadata : μ) : Collage μ :=
  { blockSize := 150
    blocks := []
    viewportSize := ⟨0, 0⟩
    blockOrigin := ⟨0, 0⟩
    origin := ⟨0, 0⟩
    blockCounts := ⟨0, 0⟩
    blockId := 0
    preloadDistance := 75
    defaultBlockMetadata := defaultBlockMetadata }

/-- `addBlock`: spawn a block at a grid position. -/
def addBlock (s : Collage μ) (position : Vec ℤ) : Collage μ × Block μ :=
  let newBlock : Block μ :=
    { position := position
      id := s.blockId
      state := .New
      sourceImage := none
      metadata := s.defaultBlockMetadata }
  ({ s with blocks := s.blocks ++ [newBlock], blockId := s.blockId + 1 }, newBlock)

/-- The grid-position of the block appended at step `p` of `extend`
(`newBlockPosition` in the source; the loop mutates neither `blockOrigin`
nor `blockCounts`, so reading them from `s` matches the source). -/
def extendPosition (s : Collage μ) (axis : Axis) (side : Side) (p : ℕ) : Vec ℤ :=
  { x := if axis = .x then
           (if side = .start then s.blockOrigin.x - 1 else s.blockOrigin.x + s.blockCounts.x)
         else s.blockOrigin.x + p
    y := if axis = .y then
           (if side = .start then s.blockOrigin.y - 1 else s.blockOrigin.y + s.blockCounts.y)
         else s.blockOrigin.y + p }

/-- The body of `extend`'s for-loop: push one block, collecting it. -/
def extendStep (s : Collage μ) (axis : Axis) (side : Side)
    (acc : Collage μ × List (Block μ)) (p : ℕ) : Collage μ × List (Block μ) :=
  let r := addBlock acc.1 (extendPosition s axis side p)
  (r.1, acc.2 ++ [r.2])

/-- `extend`: add a row or column to the start or end of the grid.  The
source loops `p` from `0` below `blockCounts[oppositeAxis(axis)]`, pushing
one block per step, then bumps `blockCounts[axis]` and, for the start side,
decrements `blockOrigin[axis]`. -/
def extend (s : Collage μ) (axis : Axis) (side : Side) : Collage μ × List (Block μ) :=
  let loopResult :=
    (List.range (s.blockCounts.get (Helpers.oppositeAxis axis)).toNat).foldl
      (extendStep s axis side) (s, [])
  let s1 := loopResult.1
  let s2 := { s1 with blockCounts := s1.blockCounts.set axis (s1.blockCounts.get axis + 1) }
  let s3 := if side = .start then
      { s2 with blockOrigin := s2.blockOrigin.set axis (s2.blockOrigin.get axis - 1) }
    else s2
  (s3, loopResult.2)

/-- `rowOrColumnIndex` in `shrink`. -/
def shrinkIndex (s : Collage μ) (axis : Axis) (side : Side) : ℤ :=
  if side = .start then
    s.blockOrigin.get axis
  else s.blockOrigin.get axis + s.blockCounts.get axis - 1

/-- `shrink`: remove the row or column at the start or end of the grid. -/
def shrink (s : Collage μ) (axis : Axis) (side : Side) : Collage μ × List (Block μ) :=
  let rowOrColumnIndex : ℤ := shrinkIndex s axis side
  let blocksForRemoval := s.blocks.filter (fun b => b.position.get axis = rowOrColumnIndex)
  let s1 := { s with blocks := s.blocks.filter (fun b => ¬ b.position.get axis = rowOrColumnIndex) }
  let s2 := { s1 with blockCounts := s1.blockCounts.set axis (s1.blockCounts.get axis - 1) }
  let s3 := if side = .start then
      { s2 with blockOrigin := s2.blockOrigin.set axis (s2.blockOrigin.get axis + 1) }
    else s2
  (s3, blocksForRemoval)

/-- The grid origin in pixels (`gridPixelOrigin` in the source, also
`getBlockOrigin`). -/
def gridPixelOrigin (s : Collage μ) : Vec ℚ :=
  { x := s.origin.x + (s.blockOrigin.x : ℚ) * s.blockSize
    y := s.origin.y + (s.blockOrigin.y : ℚ) * s.blockSize }

/-- The pixel size of the grid (`gridSize` in the source:
`multiply(blockCounts, vectorOf(blockSize))`). -/
def gridSize (s : Collage μ) : Vec ℚ :=
  Helpers.multiply ⟨(s.blockCounts.x : ℚ), (s.blockCounts.y : ℚ)⟩
    (Helpers.vectorOf s.blockSize none)

/-- One cycle of the do/while loop of `introduce`: snapshot the grid pixel
origin and grid size, then conditionally extend on each of the four edges
(right, left, bottom, top — in source order). -/
def introduceBody (s0 : Collage μ) (acc : List (Block μ)) : Collage μ × List (Block μ) :=
  let g := gridPixelOrigin s0
  let gs := gridSize s0
  let r1 := if g.x + gs.x < s0.viewportSize.x + s0.preloadDistance then
      let e := extend s0 .x .end_
      (e.1, acc ++ e.2)
    else (s0, acc)
  let r2 := if g.x > -s0.preloadDistance then
      let e := extend r1.1 .x .start
      (e.1, r1.2 ++ e.2)
    else r1
  let r3 := if g.y + gs.y < s0.viewportSize.y + s0.preloadDistance then
      let e := extend r2.1 .y .end_
      (e.1, r2.2 ++ e.2)
    else r2
  let r4 := if g.y > -s0.preloadDistance then
      let e := extend r3.1 .y .start
      (e.1, r3.2 ++ e.2)
    else r3
  r4

/-- The do/while loop of `introduce`, with explicit fuel: run the body, and
repeat while the cycle introduced at least one block. -/
def introduceLoop : ℕ → Collage μ → List (Block μ) → Collage μ × List (Block μ)
  | 0, s, acc => (s, acc)
  | fuel + 1, s, acc =>
    let lastCycleIntroducedCount := acc.length
    let r := introduceBody s acc
    if r.2.length = lastCycleIntroducedCount then r
    else introduceLoop fuel r.1 r.2

/-- One cycle of the do/while loop of `remove`: snapshot, then conditionally
shrink on each of the four edges (bottom, top, right, left — in source
order). -/
def removeBody (s0 : Collage μ) (acc : List (Block μ)) : Collage μ × List (Block μ) :=
  let g := gridPixelOrigin s0
  let gs := gridSize s0
  let r1 := if g.y + gs.y > s0.viewportSize.y + s0.blockSize * 2 then
      let e := shrink s0 .y .end_
      (e.1, acc ++ e.2)
    else (s0, acc)
  let r2 := if g.y < -(s0.blockSize * 2) then
      let e := shrink r1.1 .y .start
      (e.1, r1.2 ++ e.2)
    else r1
  let r3 := if g.x + gs.x > s0.viewportSize.x + s0.blockSize * 2 then
      let e := shrink r2.1 .x .end_
      (e.1, r2.2 ++ e.2)
    else r2
  let r4 := if g.x < -(s0.blockSize * 2) then
      let e := shrink r3.1 .x .start
      (e.1, r3.2 ++ e.2)
    else r3
  r4

/-- The do/while loop of `remove`, with explicit fuel. -/
def removeLoop : ℕ → Collage μ → List (Block μ) → Collage μ × List (Block μ)
  | 0, s, acc => (s, acc)
  | fuel + 1, s, acc =>
    let lastCycleRemovedCount := acc.length
    let r := removeBody s acc
    if r.2.length = lastCycleRemovedCount then r
    else removeLoop fuel r.1 r.2

/-- How many extensions the grid still needs on each of the four edges
(`0` when none); each fired `extend` lowers exactly its own term by one. -/
def deficiency (s : Collage μ) : ℤ :=
  max 0 (Int.ceil ((s.viewportSize.x + s.preloadDistance - ((gridPixelOrigin s).x + (gridSize s).x)) / s.blockSize)) +
  max 0 (Int.ceil (((gridPixelOrigin s).x + s.preloadDistance) / s.blockSize)) +
  max 0 (Int.ceil ((s.viewportSize.y + s.preloadDistance - ((gridPixelOrigin s).y + (gridSize s).y)) / s.blockSize)) +
  max 0 (Int.ceil (((gridPixelOrigin s).y + s.preloadDistance) / s.blockSize))

/-- A fuel budget sufficient for `introduceLoop` to reach its fixed point
whenever `0 < blockSize` (proved below). -/
def introduceFuel (s : Collage μ) : ℕ :=
  (deficiency s).toNat + 2

/-- `introduce`: add rows/columns until no more are needed. -/
def introduce (s : Collage μ) : Collage μ × List (Block μ) :=
  introduceLoop (introduceFuel s) s []

/-- How many shrinks the grid still needs on each of the four edges. -/
def excess (s : Collage μ) : ℤ :=
  max 0 (Int.ceil ((((gridPixelOrigin s).y + (gridSize s).y) - (s.viewportSize.y + s.blockSize * 2)) / s.blockSize)) +
  max 0 (Int.ceil ((-(gridPixelOrigin s).y - s.blockSize * 2) / s.blockSize)) +
  max 0 (Int.ceil ((((gridPixelOrigin s).x + (gridSize s).x) - (s.viewportSize.x + s.blockSize * 2)) / s.blockSize)) +
  max 0 (Int.ceil ((-(gridPixelOrigin s).x - s.blockSize * 2) / s.blockSize))

/-- A fuel budget sufficient for `removeLoop` to reach its fixed point
whenever `0 < blockSize` (proved below). -/
def removeFuel (s : Collage μ) : ℕ :=
  (excess s).toNat + 2

/-- `remove`: drop rows/columns until no more need removal. -/
def remove (s : Collage μ) : Collage μ × List (Block μ) :=
  removeLoop (removeFuel s) s []

/-- `checkBounds`: run the extend pass then the shrink pass; blocks that
were added and then immediately removed are announced in neither event;
emit at most one `New` and one `Removed` batch. -/
def checkBounds [DecidableEq μ] (s : Collage μ) :
    Collage μ × List (BlockLifecycleChangeEvent μ) :=
  let intro := introduce s
  let rem := remove intro.1
  let addedBlocks := intro.2
  let removedBlocks := rem.2
  let addedThenRemoved := addedBlocks.filter (fun b => b ∈ removedBlocks)
  let announced :=
    if addedThenRemoved.length > 0 then
      (addedBlocks.filter (fun b => ¬ b ∈ addedThenRemoved),
       removedBlocks.filter (fun b => ¬ b ∈ addedThenRemoved))
    else (addedBlocks, removedBlocks)
  let events :=
    (if announced.1.length > 0 then
       [{ blocks := announced.1, newState := BlockContentState.New }] else []) ++
    (if announced.2.length > 0 then
       [{ blocks := announced.2, newState := BlockContentState.Removed }] else [])
  (rem.1, events)

/-- The initial row-major spawn loop of `init` (`for row … for col …`). -/
def initSpawn (s : Collage μ) : Collage μ :=
  (List.range s.blockCounts.y.toNat).foldl
    (fun srow (row : ℕ) =>
      (List.range s.blockCounts.x.toNat).foldl
        (fun scol (col : ℕ) => (addBlock scol ⟨(col : ℤ), (row : ℤ)⟩).1) srow)
    s

/-- `init`: reset all state, compute the block counts as
`ceil(viewportSize / blockSize)`, spawn the initial rectangle in row-major
order, run `introduce` once, and emit one `New` event carrying every live
block. -/
def init [DecidableEq μ] (s : Collage μ) (blockSize : ℚ) (viewportSize : Vec ℚ) :
    Collage μ × List (BlockLifecycleChangeEvent μ) :=
  let s1 : Collage μ :=
    { s with
      blocks := []
      blockId := 0
      blockOrigin := ⟨0, 0⟩
      origin := ⟨0, 0⟩
      blockSize := blockSize
      viewportSize := viewportSize
      blockCounts := ⟨Int.ceil (viewportSize.x / blockSize), Int.ceil (viewportSize.y / blockSize)⟩ }
  let s2 := initSpawn s1
  let s3 := (introduce s2).1
  (s3, [{ blocks := s3.blocks, newState := BlockContentState.New }])

/-- `setOrigin`: set the origin and, unless inhibited, check bounds. -/
def setOrigin [DecidableEq μ] (s : Collage μ) (position : Vec ℚ)
    (inhibitBoundsCheck : Bool) : Collage μ × List (BlockLifecycleChangeEvent μ) :=
  let s1 := { s with origin := position }
  if inhibitBoundsCheck then (s1, []) else checkBounds s1

/-- `shiftOrigin`: translate the origin by a delta. -/
def shiftOrigin [DecidableEq μ] (s : Collage μ) (size : Vec ℚ)
    (inhibitBoundsCheck : Bool) : Collage μ × List (BlockLifecycleChangeEvent μ) :=
  setOrigin s (Helpers.add s.origin size) inhibitBoundsCheck

/-- `setBlockSize`: change the block size and, unless inhibited, check
bounds.  The engine performs no validation of `size`. -/
def setBlockSize [DecidableEq μ] (s : Collage μ) (size : ℚ)
    (inhibitBoundsCheck : Bool) : Collage μ × List (BlockLifecycleChangeEvent μ) :=
  let s1 := { s with blockSize := size }
  if inhibitBoundsCheck then (s1, []) else checkBounds s1

/-! ### Per-axis geometry and specification predicates -/

/-- The grid pixel origin on one axis. -/
def gpoA (s : Collage μ) (a : Axis) : ℚ :=
  s.origin.get a + (s.blockOrigin.get a : ℚ) * s.blockSize

/-- The grid pixel size on one axis. -/
def szA (s : Collage μ) (a : Axis) : ℚ :=
  (s.blockCounts.get a : ℚ) * s.blockSize

/-- The far pixel edge of the grid on one axis. -/
def edgeA (s : Collage μ) (a : Axis) : ℚ :=
  gpoA s a + szA s a

/-- The `introduce` test for the end side of an axis
(`gridPixelOrigin + gridSize < viewportSize + preloadDistance`). -/
def condIntroEnd (s : Collage μ) (a : Axis) : Prop :=
  edgeA s a < s.viewportSize.get a + s.preloadDistance

/-- The `introduce` test for the start side of an axis
(`gridPixelOrigin > -preloadDistance`). -/
def condIntroStart (s : Collage μ) (a : Axis) : Prop :=
  gpoA s a > -s.preloadDistance

/-- The `remove` test for the end side of an axis
(`gridPixelOrigin + gridSize > viewportSize + blockSize * 2`). -/
def condRemEnd (s : Collage μ) (a : Axis) : Prop :=
  edgeA s a > s.viewportSize.get a + s.blockSize * 2

/-- The `remove` test for the start side of an axis
(`gridPixelOrigin < -(blockSize * 2)`). -/
def condRemStart (s : Collage μ) (a : Axis) : Prop :=
  gpoA s a < -(s.blockSize * 2)

instance (s : Collage μ) (a : Axis) : Decidable (condIntroEnd s a) :=
  inferInstanceAs (Decidable (_ < _))

instance (s : Collage μ) (a : Axis) : Decidable (condIntroStart s a) :=
  inferInstanceAs (Decidable (_ < _))

instance (s : Collage μ) (a : Axis) : Decidable (condRemEnd s a) :=
  inferInstanceAs (Decidable (_ < _))

instance (s : Collage μ) (a : Axis) : Decidable (condRemStart s a) :=
  inferInstanceAs (Decidable (_ < _))

/-- All four `introduce` tests are off: the grid already covers the
viewport plus the preload margin. -/
def IntroExit (s : Collage μ) : Prop :=
  ¬ condIntroEnd s .x ∧ ¬ condIntroStart s .x ∧ ¬ condIntroEnd s .y ∧ ¬ condIntroStart s .y

/-- All four `remove` tests are off. -/
def RemExit (s : Collage μ) : Prop :=
  ¬ condRemEnd s .x ∧ ¬ condRemStart s .x ∧ ¬ condRemEnd s .y ∧ ¬ condRemStart s .y

/-- The coverage invariant of the `remove` pass on one axis: the grid
starts at or left of pixel `0` and ends strictly past the viewport. -/
def covA (s : Collage μ) (a : Axis) : Prop :=
  gpoA s a ≤ 0 ∧ s.viewportSize.get a < edgeA s a

/-- The one-step stability window of the far edge of an axis: either no
extension is wanted there, or extending by one more block would overshoot
the removal threshold.  A full bounds check leaves every axis in this
window (proved below), which is what makes a repeated check emit nothing. -/
def StableEnd (s : Collage μ) (a : Axis) : Prop :=
  ¬ condIntroEnd s a ∨
    s.viewportSize.get a + s.blockSize * 2 < edgeA s a + s.blockSize

/-- The one-step stability window of the near edge of an axis. -/
def StableStart (s : Collage μ) (a : Axis) : Prop :=
  ¬ condIntroStart s a ∨ gpoA s a - s.blockSize < -(s.blockSize * 2)

/-- Membership of a grid coordinate in the rectangle spanned by
`blockOrigin` and `blockCounts`. -/
def inRect (bo cnt : Vec ℤ) (q : Vec ℤ) : Prop :=
  bo.x ≤ q.x ∧ q.x < bo.x + cnt.x ∧ bo.y ≤ q.y ∧ q.y < bo.y + cnt.y

/-- The live blocks are exactly the rectangle described by
`blockOrigin`/`blockCounts`, without duplicate positions. -/
def RectInv (s : Collage μ) : Prop :=
  (∀ q : Vec ℤ, (∃ b ∈ s.blocks, b.position = q) ↔ inRect s.blockOrigin s.blockCounts q) ∧
  (s.blocks.map (fun b => b.position)).Nodup

/-- The structural invariant of the engine: the live blocks are exactly the
rectangle described by `blockOrigin`/`blockCounts`, without duplicate
positions, the counts are nonnegative, the configured sizes are sane, and
all live ids are below the id counter. -/
structure Inv (s : Collage μ) : Prop where
  rect : RectInv s
  cx : 0 ≤ s.blockCounts.x
  cy : 0 ≤ s.blockCounts.y
  bs : 0 < s.blockSize
  vx : 0 ≤ s.viewportSize.x
  vy : 0 ≤ s.viewportSize.y
  pre : 0 < s.preloadDistance
  ids : ∀ b ∈ s.blocks, b.id < s.blockId

/-- Every pixel point of the closed viewport rectangle lies inside the
pixel rectangle of some live block (block pixel rectangle: corner
`origin + position * blockSize`, side `blockSize`). -/
def Coverage (s : Collage μ) : Prop :=
  ∀ p : Vec ℚ, 0 ≤ p.x → p.x ≤ s.viewportSize.x → 0 ≤ p.y → p.y ≤ s.viewportSize.y →
    ∃ b ∈ s.blocks,
      s.origin.x + (b.position.x : ℚ) * s.blockSize ≤ p.x ∧
      p.x ≤ s.origin.x + (b.position.x : ℚ) * s.blockSize + s.blockSize ∧
      s.origin.y + (b.position.y : ℚ) * s.blockSize ≤ p.y ∧
      p.y ≤ s.origin.y + (b.position.y : ℚ) * s.blockSize + s.blockSize

/-- A public mutation of the engine (the argument of each call, plus the
`inhibitBoundsCheck` flag). -/
inductive Op where
  | setOrigin (position : Vec ℚ) (inhibit : Bool) : Op
  | shiftOrigin (size : Vec ℚ) (inhibit : Bool) : Op
  | setBlockSize (size : ℚ) (inhibit : Bool) : Op
deriving DecidableEq, Repr

/-- The block-size precondition of the claims: a mutation is valid when any
block size it installs is strictly positive (the engine itself never
validates this). -/
def ValidOp : Op → Prop
  | .setOrigin _ _ => True
  | .shiftOrigin _ _ => True
  | .setBlockSize size _ => 0 < size

/-- Whether an op runs the bounds check. -/
def opChecksBounds : Op → Bool
  | .setOrigin _ inhibit => ! inhibit
  | .shiftOrigin _ inhibit => ! inhibit
  | .setBlockSize _ inhibit => ! inhibit

/-- Apply one mutation. -/
def applyOp [DecidableEq μ] (s : Collage μ) : Op → Collage μ × List (BlockLifecycleChangeEvent μ)
  | .setOrigin position inhibit => setOrigin s position inhibit
  | .shiftOrigin size inhibit => shiftOrigin s size inhibit
  | .setBlockSize size inhibit => setBlockSize s size inhibit

/-- Run a sequence of mutations, discarding the emitted events. -/
def runOps [DecidableEq μ] (s : Collage μ) (ops : List Op) : Collage μ :=
  ops.foldl (fun t op => (applyOp t op).1) s

/-! ### Closed forms used by the proofs -/

/-- The number of blocks one `extend` appends. -/
def extendCount (s : Collage μ) (axis : Axis) : ℕ :=
  (s.blockCounts.get (Helpers.oppositeAxis axis)).toNat

/-- The `p`-th block appended by `extend`. -/
def extendMk (s : Collage μ) (axis : Axis) (side : Side) (p : ℕ) : Block μ :=
  { position := extendPosition s axis side p
    id := s.blockId + p
    state := .New
    sourceImage := none
    metadata := s.defaultBlockMetadata }

/-- The blocks one `extend` appends, in order. -/
def extendBlocks (s : Collage μ) (axis : Axis) (side : Side) : List (Block μ) :=
  (List.range (extendCount s axis)).map (extendMk s axis side)

/-- A block as spawned by `addBlock` with id `i`. -/
def spawnMk (dm : μ) (i : ℕ) (q : Vec ℤ) : Block μ :=
  { position := q, id := i, state := .New, sourceImage := none, metadata := dm }

/-- The blocks spawned by consecutive `addBlock` calls starting at id `i`. -/
def spawnBlocksFrom (dm : μ) : ℕ → List (Vec ℤ) → List (Block μ)
  | _, [] => []
  | i, q :: qs => spawnMk dm i q :: spawnBlocksFrom dm (i + 1) qs

/-- The row-major positions of the initial `init` rectangle. -/
def spawnPositions (cx cy : ℕ) : List (Vec ℤ) :=
  ((List.range cy).map (fun (row : ℕ) =>
    (List.range cx).map (fun (col : ℕ) => (⟨(col : ℤ), (row : ℤ)⟩ : Vec ℤ)))).flatten

/-- The end-side deficiency term of `deficiency` on one axis. -/
def defTermEnd (s : Collage μ) (a : Axis) : ℤ :=
  max 0 (Int.ceil ((s.viewportSize.get a + s.preloadDistance - edgeA s a) / s.blockSize))

/-- The start-side deficiency term of `deficiency` on one axis. -/
def defTermStart (s : Collage μ) (a : Axis) : ℤ :=
  max 0 (Int.ceil ((gpoA s a + s.preloadDistance) / s.blockSize))

/-- The end-side excess term of `excess` on one axis. -/
def excTermEnd (s : Collage μ) (a : Axis) : ℤ :=
  max 0 (Int.ceil ((edgeA s a - (s.viewportSize.get a + s.blockSize * 2)) / s.blockSize))

/-- The start-side excess term of `excess` on one axis. -/
def excTermStart (s : Collage μ) (a : Axis) : ℤ :=
  max 0 (Int.ceil ((-gpoA s a - s.blockSize * 2) / s.blockSize))

/-- One conditional edge-extension of an `introduce` cycle (the condition
is evaluated on the cycle's snapshot, the extension on the running state). -/
def introStep (c : Prop) [Decidable c] (a : Axis) (sd : Side)
    (r : Collage μ × List (Block μ)) : Collage μ × List (Block μ) :=
  if c then ((extend r.1 a sd).1, r.2 ++ (extend r.1 a sd).2) else r

/-- One conditional edge-shrink of a `remove` cycle. -/
def remStep (c : Prop) [Decidable c] (a : Axis) (sd : Side)
    (r : Collage μ × List (Block μ)) : Collage μ × List (Block μ) :=
  if c then ((shrink r.1 a sd).1, r.2 ++ (shrink r.1 a sd).2) else r

end Collage

/-! ### The zoom handler of the viewport transform controller
(`Collage.vue`, interactive variant). -/

namespace ZoomCtl

def maxZoomLevel : ℚ := 3

def minZoomLevel : ℚ := 1

def defaultBlockSize : ℚ := 150

/-- `viewToCollage`: position of a view coordinate in the whole collage. -/
def viewToCollage {μ : Type} (c : Collage μ) (position : Vec ℚ) : Vec ℚ :=
  Helpers.subtract position c.origin

/-- `zoom(requestedLevel, zoomAtPoint)`: reject out-of-range levels;
otherwise scale the block size and shift the origin so the collage point
under the reference origin stays fixed, with the bounds check suppressed
until both changes are applied.  Returns the new zoom level, the new
collage state and the emitted events. -/
def zoom {μ : Type} [DecidableEq μ] (zoomLevel : ℚ) (c : Collage μ)
    (requestedLevel : ℚ) (zoomAtPoint : Option (Vec ℚ)) :
    ℚ × Collage μ × List (BlockLifecycleChangeEvent μ) :=
  if requestedLevel < minZoomLevel then (zoomLevel, c, [])
  else if requestedLevel > maxZoomLevel then (zoomLevel, c, [])
  else
    let zoomFactor := requestedLevel / zoomLevel
    let newZoomLevel := requestedLevel
    let referenceOrigin := match zoomAtPoint with
      | some p => p
      | none => Helpers.divide c.viewportSize (Helpers.vectorOf 2 none)
    let currentCollagePosition := viewToCollage c referenceOrigin
    let collagePositionAfterScaling :=
      Helpers.multiply currentCollagePosition (Helpers.vectorOf zoomFactor none)
    let collagePositionDifference :=
      Helpers.subtract currentCollagePosition collagePositionAfterScaling
    let newBlockSize := defaultBlockSize * newZoomLevel
    let c1 := (Collage.setBlockSize c newBlockSize true).1
    let r := Collage.shiftOrigin c1 collagePositionDifference false
    (newZoomLevel, r.1, r.2)

end ZoomCtl

/-! ### The asset pool (`BlockImageDownloader`).  The network is a
parameter: `supplier n` is the preview batch returned by the `n`-th
`getPreviews` call, and a `FetchOutcome` per block resolves its image
fetch. -/

namespace Downloader

/-- `ImageRef` from the API model. -/
structure ImageRef where
  url : String
  width : ℚ
  height : ℚ
deriving DecidableEq, Repr

/-- `PreviewItem` from the API model. -/
structure PreviewItem where
  crop : ImageRef
  uuid : String
deriving DecidableEq, Repr

/-- `BasicBlockMetadata`: the URL/UUID block metadata the downloader
assigns. -/
structure BasicBlockMetadata where
  url : Option String
  uuid : Option String
deriving DecidableEq, Repr

/-- The fixed refill batch size. -/
def previewBatchSize : ℕ := 250

/-- The result of the `await fetch` of one block's image: the raw fetch
either fails (a rejected promise) or yields a decodable image, modelled as
an opaque handle. -/
inductive FetchOutcome where
  | failure : FetchOutcome
  | success (image : ℕ) : FetchOutcome
deriving DecidableEq, Repr

/-- The instant `downloadImage` issues its fetch: `none` when the block has
no URL (no fetch at all); otherwise the fetched URL and the block exactly
as it is when the fetch starts (state already set to `Downloading`). -/
def downloadImageFetchRequest (forBlock : Block BasicBlockMetadata) :
    Option (String × Block BasicBlockMetadata) :=
  match forBlock.metadata.url with
  | none => none
  | some u => some (u, { forBlock with state := .Downloading })

/-- The continuation of `downloadImage` after the fetch resolves: on
failure the rejected `await` aborts the function, leaving the block as it
was at fetch time; on success the decoded image is attached and `onload`
sets the state to `Ready`. -/
def downloadImageResume (outcome : FetchOutcome) (b : Block BasicBlockMetadata) :
    Block BasicBlockMetadata :=
  match outcome with
  | .failure => b
  | .success image => { b with sourceImage := some image, state := .Ready }

/-- `downloadImage`: no-op without a URL; otherwise set `Downloading`,
fetch, and resume on the outcome. -/
def downloadImage (outcome : FetchOutcome) (forBlock : Block BasicBlockMetadata) :
    Block BasicBlockMetadata :=
  match downloadImageFetchRequest forBlock with
  | none => forBlock
  | some r => downloadImageResume outcome r.2

/-- Independent per-block downloads of a batch: the source fires
`downloadImage(block)` per block without awaiting, so block `i`'s result
depends only on outcome `i`. -/
def downloadBatch (outcomes : List FetchOutcome) (blocks : List (Block BasicBlockMetadata)) :
    List (Block BasicBlockMetadata) :=
  List.zipWith downloadImage outcomes blocks

/-- The `while (previewPool.length < blocks.length) await refillPool()`
loop, with fuel counting refill requests: each round appends the supplier's
next batch.  `none` means the loop is still running after `fuel` refills
(the call has not returned). -/
def refillLoop (supplier : ℕ → List PreviewItem) :
    ℕ → ℕ → ℕ → List PreviewItem → Option (List PreviewItem × ℕ)
  | 0, need, k, pool => if pool.length < need then none else some (pool, k)
  | fuel + 1, need, k, pool =>
    if pool.length < need then refillLoop supplier fuel need (k + 1) (pool ++ supplier k)
    else some (pool, k)

/-- The result of the assignment `for` loop. -/
structure AssignPass where
  blocks : List (Block BasicBlockMetadata)
  pool : List PreviewItem
  fetches : List String
  threw : Bool
deriving DecidableEq, Repr

/-- The `for (const block of blocks)` loop of `assignBlocks`: shift one
preview per block, write its URL/UUID into the block metadata and start the
download (recorded in `fetches`); an empty pool throws, leaving the
remaining blocks untouched. -/
def assignEach : List (Block BasicBlockMetadata) → List PreviewItem → AssignPass
  | [], pool => { blocks := [], pool := pool, fetches := [], threw := false }
  | b :: bs, [] => { blocks := b :: bs, pool := [], fetches := [], threw := true }
  | b :: bs, p :: rest =>
    let b' := { b with metadata := { url := some p.crop.url, uuid := some p.uuid } }
    let r := assignEach bs rest
    { blocks := b' :: r.blocks, pool := r.pool, fetches := p.crop.url :: r.fetches,
      threw := r.threw }

/-- `assignBlocks`: empty batches return at once; otherwise refill the pool
until it can satisfy the batch (this loop never exits when the supplier
keeps answering with too few previews — `none` models the still-pending
call), then assign one preview per block; the `catch` of a mid-assignment
throw marks every block of the batch `Errored`. -/
def assignBlocks (supplier : ℕ → List PreviewItem) (fuel : ℕ)
    (blocks : List (Block BasicBlockMetadata)) (pool : List PreviewItem) (k : ℕ) :
    Option (List (Block BasicBlockMetadata) × List PreviewItem × List String) :=
  if blocks.length = 0 then some (blocks, pool, [])
  else
    match refillLoop supplier fuel blocks.length k pool with
    | none => none
    | some r =>
      let pass := assignEach blocks r.1
      if pass.threw then
        some (pass.blocks.map (fun b => { b with state := .Errored }), pass.pool, pass.fetches)
      else some (pass.blocks, pass.pool, pass.fetches)

/-- `assignBlocks` terminates on these arguments: some refill budget lets
the call return. -/
def AssignTerminates (supplier : ℕ → List PreviewItem)
    (blocks : List (Block BasicBlockMetadata)) (pool : List PreviewItem) : Prop :=
  ∃ fuel r, assignBlocks supplier fuel blocks pool 0 = some r

end Downloader

/-! ### Concrete scenario states used by the verification witnesses -/

/-- The `init(50, 50x50)` state: block size 50 is below the preload
distance 75, so the grid cannot satisfy the preload margin. -/
def scenarioSmall : Collage Unit := (Collage.init (Collage.new ()) 50 ⟨50, 50⟩).1

/-- The small scenario after `setOrigin((10, 0))`. -/
def scenarioJump : Collage Unit := (Collage.setOrigin scenarioSmall ⟨10, 0⟩ false).1

/-- A block that one bounds check of the jump scenario both introduces and
removes. -/
def scenarioCancelled : Block Unit :=
  { position := ⟨2, -2⟩, state := .New, sourceImage := none, id := 25, metadata := () }

/-- A five-block batch for the starved-pool scenario. -/
def Downloader.starvedBatch : List (Block Downloader.BasicBlockMetadata) :=
  (List.range 5).map (fun (i : ℕ) =>
    { position := ⟨(i : ℤ), 0⟩, state := .New, sourceImage := none, id := i,
      metadata := { url := none, uuid := none } })

/-- A sample image URL. -/
def Downloader.sampleUrl : String := "https://example.test/a.png"

/-- A sample block carrying the sample URL. -/
def Downloader.sampleBlock : Block Downloader.BasicBlockMetadata :=
  { position := ⟨0, 0⟩, state := .New, sourceImage := none, id := 0,
    metadata := { url := some Downloader.sampleUrl, uuid := none } }

/-! ## Theorems -/

/-! ### Vector and axis basics -/

theorem Vec.get_x {α : Type} (v : Vec α) : v.get .x = v.x := rfl

theorem Vec.get_y {α : Type} (v : Vec α) : v.get .y = v.y := rfl

theorem Vec.get_set_same {α : Type} (v : Vec α) (a : Axis) (z : α) :
    (v.set a z).get a = z := by cases a <;> rfl

theorem Vec.get_set_ne {α : Type} (v : Vec α) {a b : Axis} (h : b ≠ a) (z : α) :
    (v.set a z).get b = v.get b := by
  cases a <;> cases b <;> first | rfl | exact absurd rfl h

theorem oppositeAxis_x : Helpers.oppositeAxis .x = .y := rfl

theorem oppositeAxis_y : Helpers.oppositeAxis .y = .x := rfl

theorem oppositeAxis_ne (a : Axis) : Helpers.oppositeAxis a ≠ a := by
  cases a <;> simp [Helpers.oppositeAxis]

theorem eq_oppositeAxis_of_ne {a b : Axis} (h : b ≠ a) : b = Helpers.oppositeAxis a := by
  cases a <;> cases b <;> simp_all [Helpers.oppositeAxis]

namespace Collage

variable {μ : Type}

/-! ### `extend`: closed form and state effects -/

theorem addBlock_eq (s : Collage μ) (q : Vec ℤ) :
    addBlock s q =
      ({ s with blocks := s.blocks ++ [spawnMk s.defaultBlockMetadata s.blockId q],
                blockId := s.blockId + 1 },
       spawnMk s.defaultBlockMetadata s.blockId q) := rfl

theorem extend_foldl (s : Collage μ) (axis : Axis) (side : Side) :
    ∀ (n k : ℕ) (st : Collage μ) (acc : List (Block μ)),
      st.defaultBlockMetadata = s.defaultBlockMetadata →
      st.blockId = s.blockId + k →
      (List.range' k n).foldl (extendStep s axis side) (st, acc) =
        ({ st with blocks := st.blocks ++ (List.range' k n).map (extendMk s axis side),
                   blockId := st.blockId + n },
         acc ++ (List.range' k n).map (extendMk s axis side)) := by
  intro n
  induction n with
  | zero => intro k st acc _ _; simp [List.range']
  | succ n ih =>
    intro k st acc hdm hid
    rw [List.range'_succ]
    have hstep : extendStep s axis side (st, acc) k =
        ({ st with blocks := st.blocks ++ [extendMk s axis side k], blockId := st.blockId + 1 },
         acc ++ [extendMk s axis side k]) := by
      simp only [extendStep, addBlock_eq, extendMk, spawnMk, hdm, hid]
    simp only [List.foldl_cons, hstep]
    rw [ih (k + 1) _ _ (by simpa using hdm) (by simp [hid]; ring)]
    simp [List.append_assoc]
    omega

theorem extend_eq (s : Collage μ) (axis : Axis) (side : Side) :
    extend s axis side =
      ({ s with
          blocks := s.blocks ++ extendBlocks s axis side
          blockId := s.blockId + extendCount s axis
          blockCounts := s.blockCounts.set axis (s.blockCounts.get axis + 1)
          blockOrigin := if side = .start then
              s.blockOrigin.set axis (s.blockOrigin.get axis - 1)
            else s.blockOrigin },
       extendBlocks s axis side) := by
  unfold extend
  rw [List.range_eq_range', extend_foldl s axis side _ 0 s [] rfl rfl]
  simp only [extendBlocks, extendCount, List.range_eq_range']
  split <;> rfl

end Collage

namespace Collage

variable {μ : Type}

theorem shrink_eq (s : Collage μ) (axis : Axis) (side : Side) :
    shrink s axis side =
      ({ s with
          blocks := s.blocks.filter (fun b => ¬ b.position.get axis = shrinkIndex s axis side)
          blockCounts := s.blockCounts.set axis (s.blockCounts.get axis - 1)
          blockOrigin := if side = .start then
              s.blockOrigin.set axis (s.blockOrigin.get axis + 1)
            else s.blockOrigin },
       s.blocks.filter (fun b => b.position.get axis = shrinkIndex s axis side)) := by
  unfold shrink
  split <;> rfl

/-! State-component effects of `extend`. -/

theorem extend_origin (s : Collage μ) (a : Axis) (sd : Side) :
    (extend s a sd).1.origin = s.origin := by
  rw [extend_eq]

theorem extend_blockSize (s : Collage μ) (a : Axis) (sd : Side) :
    (extend s a sd).1.blockSize = s.blockSize := by
  rw [extend_eq]

theorem extend_viewportSize (s : Collage μ) (a : Axis) (sd : Side) :
    (extend s a sd).1.viewportSize = s.viewportSize := by
  rw [extend_eq]

theorem extend_preloadDistance (s : Collage μ) (a : Axis) (sd : Side) :
    (extend s a sd).1.preloadDistance = s.preloadDistance := by
  rw [extend_eq]

theorem extend_defaultBlockMetadata (s : Collage μ) (a : Axis) (sd : Side) :
    (extend s a sd).1.defaultBlockMetadata = s.defaultBlockMetadata := by
  rw [extend_eq]

theorem extend_blockId (s : Collage μ) (a : Axis) (sd : Side) :
    (extend s a sd).1.blockId = s.blockId + extendCount s a := by
  rw [extend_eq]

theorem extend_blocks_eq (s : Collage μ) (a : Axis) (sd : Side) :
    (extend s a sd).1.blocks = s.blocks ++ (extend s a sd).2 := by
  rw [extend_eq]

theorem extend_snd (s : Collage μ) (a : Axis) (sd : Side) :
    (extend s a sd).2 = extendBlocks s a sd := by
  rw [extend_eq]

theorem extend_counts_same (s : Collage μ) (a : Axis) (sd : Side) :
    (extend s a sd).1.blockCounts.get a = s.blockCounts.get a + 1 := by
  rw [extend_eq]; exact Vec.get_set_same _ _ _

theorem extend_counts_ne (s : Collage μ) {a b : Axis} (sd : Side) (h : b ≠ a) :
    (extend s a sd).1.blockCounts.get b = s.blockCounts.get b := by
  rw [extend_eq]; exact Vec.get_set_ne _ h _

theorem extend_bo_end (s : Collage μ) (a : Axis) :
    (extend s a .end_).1.blockOrigin = s.blockOrigin := by
  rw [extend_eq]; simp

theorem extend_bo_start_same (s : Collage μ) (a : Axis) :
    (extend s a .start).1.blockOrigin.get a = s.blockOrigin.get a - 1 := by
  rw [extend_eq]; simp [Vec.get_set_same]

theorem extend_bo_start_ne (s : Collage μ) {a b : Axis} (h : b ≠ a) :
    (extend s a .start).1.blockOrigin.get b = s.blockOrigin.get b := by
  rw [extend_eq]; simp [Vec.get_set_ne _ h]

/-! Per-axis geometry effects of `extend`. -/

theorem gpoA_extend_end (s : Collage μ) (a : Axis) (b : Axis) :
    gpoA (extend s a .end_).1 b = gpoA s b := by
  unfold gpoA
  rw [extend_origin, extend_blockSize, extend_bo_end]

theorem gpoA_extend_start_same (s : Collage μ) (a : Axis) :
    gpoA (extend s a .start).1 a = gpoA s a - s.blockSize := by
  unfold gpoA
  rw [extend_origin, extend_blockSize, extend_bo_start_same]
  push_cast
  ring

theorem gpoA_extend_start_ne (s : Collage μ) {a b : Axis} (h : b ≠ a) :
    gpoA (extend s a .start).1 b = gpoA s b := by
  unfold gpoA
  rw [extend_origin, extend_blockSize, extend_bo_start_ne s h]

theorem edgeA_extend_end_same (s : Collage μ) (a : Axis) :
    edgeA (extend s a .end_).1 a = edgeA s a + s.blockSize := by
  unfold edgeA szA
  rw [gpoA_extend_end, extend_blockSize, extend_counts_same]
  push_cast
  ring

theorem edgeA_extend_start_same (s : Collage μ) (a : Axis) :
    edgeA (extend s a .start).1 a = edgeA s a := by
  unfold edgeA szA
  rw [gpoA_extend_start_same, extend_blockSize, extend_counts_same]
  push_cast
  ring

theorem edgeA_extend_ne (s : Collage μ) {a b : Axis} (sd : Side) (h : b ≠ a) :
    edgeA (extend s a sd).1 b = edgeA s b := by
  unfold edgeA szA
  rw [extend_blockSize, extend_counts_ne s sd h]
  cases sd
  · rw [gpoA_extend_start_ne s h]
  · rw [gpoA_extend_end]

/-! State-component effects of `shrink`. -/

theorem shrink_origin (s : Collage μ) (a : Axis) (sd : Side) :
    (shrink s a sd).1.origin = s.origin := by
  rw [shrink_eq]

theorem shrink_blockSize (s : Collage μ) (a : Axis) (sd : Side) :
    (shrink s a sd).1.blockSize = s.blockSize := by
  rw [shrink_eq]

theorem shrink_viewportSize (s : Collage μ) (a : Axis) (sd : Side) :
    (shrink s a sd).1.viewportSize = s.viewportSize := by
  rw [shrink_eq]

theorem shrink_preloadDistance (s : Collage μ) (a : Axis) (sd : Side) :
    (shrink s a sd).1.preloadDistance = s.preloadDistance := by
  rw [shrink_eq]

theorem shrink_defaultBlockMetadata (s : Collage μ) (a : Axis) (sd : Side) :
    (shrink s a sd).1.defaultBlockMetadata = s.defaultBlockMetadata := by
  rw [shrink_eq]

theorem shrink_blockId (s : Collage μ) (a : Axis) (sd : Side) :
    (shrink s a sd).1.blockId = s.blockId := by
  rw [shrink_eq]

theorem shrink_blocks_eq (s : Collage μ) (a : Axis) (sd : Side) :
    (shrink s a sd).1.blocks =
      s.blocks.filter (fun b => ¬ b.position.get a = shrinkIndex s a sd) := by
  rw [shrink_eq]

theorem shrink_snd (s : Collage μ) (a : Axis) (sd : Side) :
    (shrink s a sd).2 = s.blocks.filter (fun b => b.position.get a = shrinkIndex s a sd) := by
  rw [shrink_eq]

theorem shrink_counts_same (s : Collage μ) (a : Axis) (sd : Side) :
    (shrink s a sd).1.blockCounts.get a = s.blockCounts.get a - 1 := by
  rw [shrink_eq]; exact Vec.get_set_same _ _ _

theorem shrink_counts_ne (s : Collage μ) {a b : Axis} (sd : Side) (h : b ≠ a) :
    (shrink s a sd).1.blockCounts.get b = s.blockCounts.get b := by
  rw [shrink_eq]; exact Vec.get_set_ne _ h _

theorem shrink_bo_end (s : Collage μ) (a : Axis) :
    (shrink s a .end_).1.blockOrigin = s.blockOrigin := by
  rw [shrink_eq]; simp

theorem shrink_bo_start_same (s : Collage μ) (a : Axis) :
    (shrink s a .start).1.blockOrigin.get a = s.blockOrigin.get a + 1 := by
  rw [shrink_eq]; simp [Vec.get_set_same]

theorem shrink_bo_start_ne (s : Collage μ) {a b : Axis} (h : b ≠ a) :
    (shrink s a .start).1.blockOrigin.get b = s.blockOrigin.get b := by
  rw [shrink_eq]; simp [Vec.get_set_ne _ h]

/-! Per-axis geometry effects of `shrink`. -/

theorem gpoA_shrink_end (s : Collage μ) (a b : Axis) :
    gpoA (shrink s a .end_).1 b = gpoA s b := by
  unfold gpoA
  rw [shrink_origin, shrink_blockSize, shrink_bo_end]

theorem gpoA_shrink_start_same (s : Collage μ) (a : Axis) :
    gpoA (shrink s a .start).1 a = gpoA s a + s.blockSize := by
  unfold gpoA
  rw [shrink_origin, shrink_blockSize, shrink_bo_start_same]
  push_cast
  ring

theorem gpoA_shrink_start_ne (s : Collage μ) {a b : Axis} (h : b ≠ a) :
    gpoA (shrink s a .start).1 b = gpoA s b := by
  unfold gpoA
  rw [shrink_origin, shrink_blockSize, shrink_bo_start_ne s h]

theorem edgeA_shrink_end_same (s : Collage μ) (a : Axis) :
    edgeA (shrink s a .end_).1 a = edgeA s a - s.blockSize := by
  unfold edgeA szA
  rw [gpoA_shrink_end, shrink_blockSize, shrink_counts_same]
  push_cast
  ring

theorem edgeA_shrink_start_same (s : Collage μ) (a : Axis) :
    edgeA (shrink s a .start).1 a = edgeA s a := by
  unfold edgeA szA
  rw [gpoA_shrink_start_same, shrink_blockSize, shrink_counts_same]
  push_cast
  ring

theorem edgeA_shrink_ne (s : Collage μ) {a b : Axis} (sd : Side) (h : b ≠ a) :
    edgeA (shrink s a sd).1 b = edgeA s b := by
  unfold edgeA szA
  rw [shrink_blockSize, shrink_counts_ne s sd h]
  cases sd
  · rw [gpoA_shrink_start_ne s h]
  · rw [gpoA_shrink_end]

end Collage

namespace Collage

variable {μ : Type}

/-! ### The `introduce`/`remove` cycle bodies as chains of conditional
edge steps -/

theorem introduceBody_eq (s : Collage μ) (acc : List (Block μ)) :
    introduceBody s acc =
      introStep (condIntroStart s .y) .y .start
        (introStep (condIntroEnd s .y) .y .end_
          (introStep (condIntroStart s .x) .x .start
            (introStep (condIntroEnd s .x) .x .end_ (s, acc)))) := rfl

theorem removeBody_eq (s : Collage μ) (acc : List (Block μ)) :
    removeBody s acc =
      remStep (condRemStart s .x) .x .start
        (remStep (condRemEnd s .x) .x .end_
          (remStep (condRemStart s .y) .y .start
            (remStep (condRemEnd s .y) .y .end_ (s, acc)))) := rfl

end Collage

namespace Collage

variable {μ : Type}

/-! ### Effects of one conditional extension step -/

theorem introStep_fst (c : Prop) [Decidable c] (a : Axis) (sd : Side)
    (r : Collage μ × List (Block μ)) :
    (introStep c a sd r).1 = if c then (extend r.1 a sd).1 else r.1 := by
  unfold introStep; split <;> rfl

theorem introStep_snd (c : Prop) [Decidable c] (a : Axis) (sd : Side)
    (r : Collage μ × List (Block μ)) :
    (introStep c a sd r).2 = if c then r.2 ++ (extend r.1 a sd).2 else r.2 := by
  unfold introStep; split <;> rfl

theorem introStep_origin (c : Prop) [Decidable c] (a : Axis) (sd : Side)
    (r : Collage μ × List (Block μ)) :
    (introStep c a sd r).1.origin = r.1.origin := by
  rw [introStep_fst]; split
  · exact extend_origin _ _ _
  · rfl

theorem introStep_blockSize (c : Prop) [Decidable c] (a : Axis) (sd : Side)
    (r : Collage μ × List (Block μ)) :
    (introStep c a sd r).1.blockSize = r.1.blockSize := by
  rw [introStep_fst]; split
  · exact extend_blockSize _ _ _
  · rfl

theorem introStep_viewportSize (c : Prop) [Decidable c] (a : Axis) (sd : Side)
    (r : Collage μ × List (Block μ)) :
    (introStep c a sd r).1.viewportSize = r.1.viewportSize := by
  rw [introStep_fst]; split
  · exact extend_viewportSize _ _ _
  · rfl

theorem introStep_preloadDistance (c : Prop) [Decidable c] (a : Axis) (sd : Side)
    (r : Collage μ × List (Block μ)) :
    (introStep c a sd r).1.preloadDistance = r.1.preloadDistance := by
  rw [introStep_fst]; split
  · exact extend_preloadDistance _ _ _
  · rfl

theorem introStep_defaultBlockMetadata (c : Prop) [Decidable c] (a : Axis) (sd : Side)
    (r : Collage μ × List (Block μ)) :
    (introStep c a sd r).1.defaultBlockMetadata = r.1.defaultBlockMetadata := by
  rw [introStep_fst]; split
  · exact extend_defaultBlockMetadata _ _ _
  · rfl

theorem introStep_gpoA_end (c : Prop) [Decidable c] (a b : Axis)
    (r : Collage μ × List (Block μ)) :
    gpoA (introStep c a .end_ r).1 b = gpoA r.1 b := by
  rw [introStep_fst]; split
  · exact gpoA_extend_end _ _ _
  · rfl

theorem introStep_gpoA_start_same (c : Prop) [Decidable c] (a : Axis)
    (r : Collage μ × List (Block μ)) :
    gpoA (introStep c a .start r).1 a =
      if c then gpoA r.1 a - r.1.blockSize else gpoA r.1 a := by
  rw [introStep_fst]
  by_cases hc : c
  · simp only [if_pos hc, gpoA_extend_start_same]
  · simp only [if_neg hc]

theorem introStep_gpoA_ne (c : Prop) [Decidable c] {a b : Axis} (sd : Side)
    (r : Collage μ × List (Block μ)) (h : b ≠ a) :
    gpoA (introStep c a sd r).1 b = gpoA r.1 b := by
  rw [introStep_fst]; split
  · cases sd
    · exact gpoA_extend_start_ne _ h
    · exact gpoA_extend_end _ _ _
  · rfl

theorem introStep_edgeA_end_same (c : Prop) [Decidable c] (a : Axis)
    (r : Collage μ × List (Block μ)) :
    edgeA (introStep c a .end_ r).1 a =
      if c then edgeA r.1 a + r.1.blockSize else edgeA r.1 a := by
  rw [introStep_fst]
  by_cases hc : c
  · simp only [if_pos hc, edgeA_extend_end_same]
  · simp only [if_neg hc]

theorem introStep_edgeA_start (c : Prop) [Decidable c] (a b : Axis)
    (r : Collage μ × List (Block μ)) :
    edgeA (introStep c a .start r).1 b = edgeA r.1 b := by
  rw [introStep_fst]; split
  · by_cases hb : b = a
    · subst hb; exact edgeA_extend_start_same _ _
    · exact edgeA_extend_ne _ _ hb
  · rfl

theorem introStep_edgeA_ne (c : Prop) [Decidable c] {a b : Axis} (sd : Side)
    (r : Collage μ × List (Block μ)) (h : b ≠ a) :
    edgeA (introStep c a sd r).1 b = edgeA r.1 b := by
  rw [introStep_fst]; split
  · exact edgeA_extend_ne _ sd h
  · rfl

theorem introStep_counts_same (c : Prop) [Decidable c] (a : Axis) (sd : Side)
    (r : Collage μ × List (Block μ)) :
    (introStep c a sd r).1.blockCounts.get a =
      r.1.blockCounts.get a + (if c then 1 else 0) := by
  rw [introStep_fst]
  by_cases hc : c
  · simp only [if_pos hc, extend_counts_same]
  · simp only [if_neg hc, add_zero]

theorem introStep_counts_ne (c : Prop) [Decidable c] {a b : Axis} (sd : Side)
    (r : Collage μ × List (Block μ)) (h : b ≠ a) :
    (introStep c a sd r).1.blockCounts.get b = r.1.blockCounts.get b := by
  rw [introStep_fst]; split
  · exact extend_counts_ne _ sd h
  · rfl

theorem extendBlocks_length (s : Collage μ) (a : Axis) (sd : Side) :
    (extendBlocks s a sd).length = extendCount s a := by
  simp [extendBlocks]

theorem introStep_snd_len (c : Prop) [Decidable c] (a : Axis) (sd : Side)
    (r : Collage μ × List (Block μ)) :
    (introStep c a sd r).2.length =
      r.2.length + (if c then (r.1.blockCounts.get (Helpers.oppositeAxis a)).toNat else 0) := by
  rw [introStep_snd]
  by_cases hc : c
  · simp [if_pos hc, extend_snd, extendBlocks_length, extendCount]
  · simp [if_neg hc]

theorem introStep_blocks_acc (c : Prop) [Decidable c] (a : Axis) (sd : Side)
    (r : Collage μ × List (Block μ)) (base : List (Block μ))
    (h : r.1.blocks = base ++ r.2) :
    (introStep c a sd r).1.blocks = base ++ (introStep c a sd r).2 := by
  rw [introStep_fst, introStep_snd]
  by_cases hc : c
  · simp only [if_pos hc, extend_blocks_eq, h, List.append_assoc]
  · simp only [if_neg hc, h]

/-! ### Cycle-level formulas for `introduce` -/

theorem introduceBody_origin (s : Collage μ) (acc : List (Block μ)) :
    (introduceBody s acc).1.origin = s.origin := by
  rw [introduceBody_eq]
  simp only [introStep_origin]

theorem introduceBody_blockSize (s : Collage μ) (acc : List (Block μ)) :
    (introduceBody s acc).1.blockSize = s.blockSize := by
  rw [introduceBody_eq]
  simp only [introStep_blockSize]

theorem introduceBody_viewportSize (s : Collage μ) (acc : List (Block μ)) :
    (introduceBody s acc).1.viewportSize = s.viewportSize := by
  rw [introduceBody_eq]
  simp only [introStep_viewportSize]

theorem introduceBody_preloadDistance (s : Collage μ) (acc : List (Block μ)) :
    (introduceBody s acc).1.preloadDistance = s.preloadDistance := by
  rw [introduceBody_eq]
  simp only [introStep_preloadDistance]

theorem introduceBody_defaultBlockMetadata (s : Collage μ) (acc : List (Block μ)) :
    (introduceBody s acc).1.defaultBlockMetadata = s.defaultBlockMetadata := by
  rw [introduceBody_eq]
  simp only [introStep_defaultBlockMetadata]

theorem introduceBody_gpoA (s : Collage μ) (acc : List (Block μ)) (a : Axis) :
    gpoA (introduceBody s acc).1 a =
      if condIntroStart s a then gpoA s a - s.blockSize else gpoA s a := by
  rw [introduceBody_eq]
  cases a
  · rw [introStep_gpoA_ne _ .start _ (by decide : Axis.x ≠ Axis.y),
        introStep_gpoA_ne _ .end_ _ (by decide : Axis.x ≠ Axis.y),
        introStep_gpoA_start_same, introStep_blockSize, introStep_gpoA_end]
  · rw [introStep_gpoA_start_same, introStep_blockSize, introStep_blockSize,
        introStep_blockSize, introStep_gpoA_end,
        introStep_gpoA_ne _ .start _ (by decide : Axis.y ≠ Axis.x),
        introStep_gpoA_ne _ .end_ _ (by decide : Axis.y ≠ Axis.x)]

theorem introduceBody_edgeA (s : Collage μ) (acc : List (Block μ)) (a : Axis) :
    edgeA (introduceBody s acc).1 a =
      if condIntroEnd s a then edgeA s a + s.blockSize else edgeA s a := by
  rw [introduceBody_eq]
  cases a
  · rw [introStep_edgeA_start, introStep_edgeA_ne _ .end_ _ (by decide : Axis.x ≠ Axis.y),
        introStep_edgeA_start, introStep_edgeA_end_same]
  · rw [introStep_edgeA_start, introStep_edgeA_end_same,
        introStep_blockSize, introStep_blockSize,
        introStep_edgeA_start, introStep_edgeA_ne _ .end_ _ (by decide : Axis.y ≠ Axis.x)]

theorem introduceBody_counts (s : Collage μ) (acc : List (Block μ)) (a : Axis) :
    (introduceBody s acc).1.blockCounts.get a =
      s.blockCounts.get a + (if condIntroEnd s a then 1 else 0)
        + (if condIntroStart s a then 1 else 0) := by
  rw [introduceBody_eq]
  cases a
  · rw [introStep_counts_ne _ .start _ (by decide : Axis.x ≠ Axis.y),
        introStep_counts_ne _ .end_ _ (by decide : Axis.x ≠ Axis.y),
        introStep_counts_same, introStep_counts_same]
  · rw [introStep_counts_same, introStep_counts_same,
        introStep_counts_ne _ .start _ (by decide : Axis.y ≠ Axis.x),
        introStep_counts_ne _ .end_ _ (by decide : Axis.y ≠ Axis.x)]

theorem introduceBody_snd_len (s : Collage μ) (acc : List (Block μ)) :
    (introduceBody s acc).2.length = acc.length
      + (if condIntroEnd s .x then (s.blockCounts.get .y).toNat else 0)
      + (if condIntroStart s .x then (s.blockCounts.get .y).toNat else 0)
      + (if condIntroEnd s .y then
          (s.blockCounts.get .x + (if condIntroEnd s .x then 1 else 0)
            + (if condIntroStart s .x then 1 else 0)).toNat else 0)
      + (if condIntroStart s .y then
          (s.blockCounts.get .x + (if condIntroEnd s .x then 1 else 0)
            + (if condIntroStart s .x then 1 else 0)).toNat else 0) := by
  rw [introduceBody_eq]
  rw [introStep_snd_len, introStep_snd_len, introStep_snd_len, introStep_snd_len]
  simp only [oppositeAxis_x, oppositeAxis_y]
  rw [introStep_counts_ne _ .end_ _ (by decide : Axis.y ≠ Axis.x),
      introStep_counts_ne _ .end_ _ (by decide : Axis.x ≠ Axis.y),
      introStep_counts_same, introStep_counts_same]

theorem introduceBody_id_of_exit (s : Collage μ) (acc : List (Block μ))
    (h : IntroExit s) : introduceBody s acc = (s, acc) := by
  obtain ⟨h1, h2, h3, h4⟩ := h
  rw [introduceBody_eq]
  unfold introStep
  simp [h1, h2, h3, h4]

end Collage

/-! ### Ceiling-division helpers -/

theorem one_le_ceil_div_iff (q bs : ℚ) (hbs : 0 < bs) :
    1 ≤ Int.ceil (q / bs) ↔ 0 < q := by
  rw [show (1 ≤ Int.ceil (q / bs)) ↔ (0 < Int.ceil (q / bs)) by omega, Int.ceil_pos,
    lt_div_iff₀ hbs, zero_mul]

theorem ceil_sub_div (q bs : ℚ) (hbs : bs ≠ 0) :
    Int.ceil ((q - bs) / bs) = Int.ceil (q / bs) - 1 := by
  rw [show (q - bs) / bs = q / bs - 1 by field_simp, Int.ceil_sub_one]

namespace Collage

variable {μ : Type}

/-! ### The deficiency measure of an `introduce` cycle -/

theorem deficiency_eq (s : Collage μ) :
    deficiency s = defTermEnd s .x + defTermStart s .x + defTermEnd s .y + defTermStart s .y :=
  rfl

theorem deficiency_nonneg (s : Collage μ) : 0 ≤ deficiency s := by
  rw [deficiency_eq]
  unfold defTermEnd defTermStart
  have h1 := le_max_left (0 : ℤ)
    (Int.ceil ((s.viewportSize.get .x + s.preloadDistance - edgeA s .x) / s.blockSize))
  have h2 := le_max_left (0 : ℤ)
    (Int.ceil ((gpoA s .x + s.preloadDistance) / s.blockSize))
  have h3 := le_max_left (0 : ℤ)
    (Int.ceil ((s.viewportSize.get .y + s.preloadDistance - edgeA s .y) / s.blockSize))
  have h4 := le_max_left (0 : ℤ)
    (Int.ceil ((gpoA s .y + s.preloadDistance) / s.blockSize))
  omega

theorem defTermEnd_body (s : Collage μ) (acc : List (Block μ)) (a : Axis)
    (hbs : 0 < s.blockSize) :
    defTermEnd (introduceBody s acc).1 a =
      if condIntroEnd s a then defTermEnd s a - 1 else defTermEnd s a := by
  unfold defTermEnd
  rw [introduceBody_blockSize, introduceBody_preloadDistance, introduceBody_viewportSize,
    introduceBody_edgeA]
  by_cases hc : condIntroEnd s a
  · rw [if_pos hc, if_pos hc,
      show s.viewportSize.get a + s.preloadDistance - (edgeA s a + s.blockSize) =
        (s.viewportSize.get a + s.preloadDistance - edgeA s a) - s.blockSize by ring,
      ceil_sub_div _ _ (ne_of_gt hbs)]
    have h1 : 1 ≤ Int.ceil ((s.viewportSize.get a + s.preloadDistance - edgeA s a) / s.blockSize) := by
      rw [one_le_ceil_div_iff _ _ hbs]
      unfold condIntroEnd at hc
      linarith
    omega
  · rw [if_neg hc, if_neg hc]

theorem defTermStart_body (s : Collage μ) (acc : List (Block μ)) (a : Axis)
    (hbs : 0 < s.blockSize) :
    defTermStart (introduceBody s acc).1 a =
      if condIntroStart s a then defTermStart s a - 1 else defTermStart s a := by
  unfold defTermStart
  rw [introduceBody_blockSize, introduceBody_preloadDistance, introduceBody_gpoA]
  by_cases hc : condIntroStart s a
  · rw [if_pos hc, if_pos hc,
      show gpoA s a - s.blockSize + s.preloadDistance =
        (gpoA s a + s.preloadDistance) - s.blockSize by ring,
      ceil_sub_div _ _ (ne_of_gt hbs)]
    have h1 : 1 ≤ Int.ceil ((gpoA s a + s.preloadDistance) / s.blockSize) := by
      rw [one_le_ceil_div_iff _ _ hbs]
      unfold condIntroStart at hc
      linarith
    omega
  · rw [if_neg hc, if_neg hc]

theorem introduceBody_deficiency (s : Collage μ) (acc : List (Block μ))
    (hbs : 0 < s.blockSize) (h : (introduceBody s acc).2.length ≠ acc.length) :
    deficiency (introduceBody s acc).1 < deficiency s := by
  have hfire : condIntroEnd s .x ∨ condIntroStart s .x ∨ condIntroEnd s .y ∨
      condIntroStart s .y := by
    by_contra hall
    push_neg at hall
    exact h (by rw [introduceBody_id_of_exit s acc ⟨hall.1, hall.2.1, hall.2.2.1, hall.2.2.2⟩])
  rw [deficiency_eq, deficiency_eq,
    defTermEnd_body s acc .x hbs, defTermStart_body s acc .x hbs,
    defTermEnd_body s acc .y hbs, defTermStart_body s acc .y hbs]
  by_cases hXE : condIntroEnd s .x <;> by_cases hXS : condIntroStart s .x <;>
    by_cases hYE : condIntroEnd s .y <;> by_cases hYS : condIntroStart s .y <;>
    simp only [hXE, hXS, hYE, hYS, if_true, if_false, false_or, or_false] at hfire ⊢ <;>
    omega

/-! ### Exit analysis of an `introduce` cycle -/

theorem no_axis_gap (s : Collage μ) (a : Axis) (hv : 0 ≤ s.viewportSize.get a)
    (hpre : 0 < s.preloadDistance) (hc : s.blockCounts.get a = 0)
    (hE : ¬ condIntroEnd s a) (hS : ¬ condIntroStart s a) : False := by
  simp only [condIntroEnd, condIntroStart, edgeA, szA, not_lt, hc] at hE hS
  push_cast at hE
  linarith

theorem introduceBody_exit (s : Collage μ) (acc : List (Block μ))
    (hvx : 0 ≤ s.viewportSize.x) (hvy : 0 ≤ s.viewportSize.y)
    (hpre : 0 < s.preloadDistance)
    (hcx : 0 ≤ s.blockCounts.x) (hcy : 0 ≤ s.blockCounts.y)
    (hlen : (introduceBody s acc).2.length = acc.length) : IntroExit s := by
  rw [introduceBody_snd_len] at hlen
  have hgx : s.blockCounts.get .x = s.blockCounts.x := rfl
  have hgy : s.blockCounts.get .y = s.blockCounts.y := rfl
  rw [hgx, hgy] at hlen
  suffices hn : ¬ (condIntroEnd s .x ∨ condIntroStart s .x ∨ condIntroEnd s .y ∨
      condIntroStart s .y) by
    push_neg at hn
    exact ⟨hn.1, hn.2.1, hn.2.2.1, hn.2.2.2⟩
  intro hfire
  by_cases hXE : condIntroEnd s .x <;> by_cases hXS : condIntroStart s .x <;>
    by_cases hYE : condIntroEnd s .y <;> by_cases hYS : condIntroStart s .y <;>
    simp only [hXE, hXS, hYE, hYS, if_true, if_false, false_or, or_false,
      or_self] at hlen hfire
  all_goals first
    | exact hfire
    | omega
    | exact no_axis_gap s .x hvx hpre (by omega) hXE hXS
    | exact no_axis_gap s .y hvy hpre (by omega) hYE hYS

end Collage

namespace Collage

variable {μ : Type}

/-! ### `introduceLoop`: preservation, exit facts, termination -/

theorem introduceLoop_pres (P : Collage μ → Prop)
    (hP : ∀ s acc, P s → P (introduceBody s acc).1) :
    ∀ (fuel : ℕ) (s : Collage μ) (acc : List (Block μ)), P s →
      P (introduceLoop fuel s acc).1 := by
  intro fuel
  induction fuel with
  | zero => intro s acc hs; exact hs
  | succ f ih =>
    intro s acc hs
    rw [introduceLoop]
    split
    · exact hP s acc hs
    · exact ih _ _ (hP s acc hs)

theorem introduceLoop_origin (fuel : ℕ) (s : Collage μ) (acc : List (Block μ)) :
    (introduceLoop fuel s acc).1.origin = s.origin := by
  exact introduceLoop_pres (fun t => t.origin = s.origin)
    (fun t a ht => by show (introduceBody t a).1.origin = s.origin; rw [introduceBody_origin]; exact ht) fuel s acc rfl

theorem introduceLoop_blockSize (fuel : ℕ) (s : Collage μ) (acc : List (Block μ)) :
    (introduceLoop fuel s acc).1.blockSize = s.blockSize := by
  exact introduceLoop_pres (fun t => t.blockSize = s.blockSize)
    (fun t a ht => by show (introduceBody t a).1.blockSize = s.blockSize; rw [introduceBody_blockSize]; exact ht) fuel s acc rfl

theorem introduceLoop_viewportSize (fuel : ℕ) (s : Collage μ) (acc : List (Block μ)) :
    (introduceLoop fuel s acc).1.viewportSize = s.viewportSize := by
  exact introduceLoop_pres (fun t => t.viewportSize = s.viewportSize)
    (fun t a ht => by show (introduceBody t a).1.viewportSize = s.viewportSize; rw [introduceBody_viewportSize]; exact ht) fuel s acc rfl

theorem introduceLoop_preloadDistance (fuel : ℕ) (s : Collage μ) (acc : List (Block μ)) :
    (introduceLoop fuel s acc).1.preloadDistance = s.preloadDistance := by
  exact introduceLoop_pres (fun t => t.preloadDistance = s.preloadDistance)
    (fun t a ht => by show (introduceBody t a).1.preloadDistance = s.preloadDistance; rw [introduceBody_preloadDistance]; exact ht) fuel s acc rfl

theorem introduceLoop_defaultBlockMetadata (fuel : ℕ) (s : Collage μ) (acc : List (Block μ)) :
    (introduceLoop fuel s acc).1.defaultBlockMetadata = s.defaultBlockMetadata := by
  exact introduceLoop_pres (fun t => t.defaultBlockMetadata = s.defaultBlockMetadata)
    (fun t a ht => by show (introduceBody t a).1.defaultBlockMetadata = s.defaultBlockMetadata; rw [introduceBody_defaultBlockMetadata]; exact ht) fuel s acc rfl

theorem introduceBody_counts_nonneg (s : Collage μ) (acc : List (Block μ))
    (hcx : 0 ≤ s.blockCounts.x) (hcy : 0 ≤ s.blockCounts.y) :
    0 ≤ (introduceBody s acc).1.blockCounts.x ∧ 0 ≤ (introduceBody s acc).1.blockCounts.y := by
  have hx := introduceBody_counts s acc .x
  have hy := introduceBody_counts s acc .y
  have e1 : (introduceBody s acc).1.blockCounts.get .x = (introduceBody s acc).1.blockCounts.x := rfl
  have e2 : (introduceBody s acc).1.blockCounts.get .y = (introduceBody s acc).1.blockCounts.y := rfl
  have e3 : s.blockCounts.get .x = s.blockCounts.x := rfl
  have e4 : s.blockCounts.get .y = s.blockCounts.y := rfl
  rw [e1, e3] at hx
  rw [e2, e4] at hy
  constructor
  · rw [hx]
    have : (0:ℤ) ≤ if condIntroEnd s .x then 1 else 0 := by split <;> omega
    have : (0:ℤ) ≤ if condIntroStart s .x then 1 else 0 := by split <;> omega
    omega
  · rw [hy]
    have : (0:ℤ) ≤ if condIntroEnd s .y then 1 else 0 := by split <;> omega
    have : (0:ℤ) ≤ if condIntroStart s .y then 1 else 0 := by split <;> omega
    omega

/-- With enough fuel, the `introduce` loop reaches a state where all four
extension tests are off. -/
theorem introduceLoop_exit : ∀ (fuel : ℕ) (s : Collage μ) (acc : List (Block μ)),
    0 < s.blockSize → 0 ≤ s.viewportSize.x → 0 ≤ s.viewportSize.y →
    0 < s.preloadDistance → 0 ≤ s.blockCounts.x → 0 ≤ s.blockCounts.y →
    (deficiency s).toNat < fuel →
    IntroExit (introduceLoop fuel s acc).1 := by
  intro fuel
  induction fuel with
  | zero => intro s acc _ _ _ _ _ _ hf; omega
  | succ f ih =>
    intro s acc hbs hvx hvy hpre hcx hcy hf
    rw [introduceLoop]
    split
    · next hstop =>
      have hexit : IntroExit s := introduceBody_exit s acc hvx hvy hpre hcx hcy hstop
      rw [introduceBody_id_of_exit s acc hexit]
      exact hexit
    · next hmore =>
      have hd := introduceBody_deficiency s acc hbs hmore
      have hd0 := deficiency_nonneg (introduceBody s acc).1
      have hc := introduceBody_counts_nonneg s acc hcx hcy
      refine ih _ _ ?_ ?_ ?_ ?_ hc.1 hc.2 (by omega)
      · rw [introduceBody_blockSize]; exact hbs
      · rw [introduceBody_viewportSize]; exact hvx
      · rw [introduceBody_viewportSize]; exact hvy
      · rw [introduceBody_preloadDistance]; exact hpre

/-- The `introduce` loop's result does not depend on the fuel, once the
fuel exceeds the deficiency of the start state: the loop terminates. -/
theorem introduceLoop_fuel_irrel : ∀ (f f' : ℕ) (s : Collage μ) (acc : List (Block μ)),
    0 < s.blockSize →
    (deficiency s).toNat < f → (deficiency s).toNat < f' →
    introduceLoop f s acc = introduceLoop f' s acc := by
  intro f
  induction f with
  | zero => intro f' s acc _ hf _; omega
  | succ f ih =>
    intro f' s acc hbs hf hf'
    match f' with
    | 0 => omega
    | f'' + 1 =>
      rw [introduceLoop, introduceLoop]
      split
      · rfl
      · next hmore =>
        have hd := introduceBody_deficiency s acc hbs hmore
        have hd0 := deficiency_nonneg (introduceBody s acc).1
        exact ih f'' _ _ (by rw [introduceBody_blockSize]; exact hbs) (by omega) (by omega)

theorem introduceBody_blocks_acc (s : Collage μ) (acc base : List (Block μ))
    (h : s.blocks = base ++ acc) :
    (introduceBody s acc).1.blocks = base ++ (introduceBody s acc).2 := by
  rw [introduceBody_eq]
  apply introStep_blocks_acc
  apply introStep_blocks_acc
  apply introStep_blocks_acc
  apply introStep_blocks_acc
  exact h

theorem introduceLoop_blocks_acc : ∀ (fuel : ℕ) (s : Collage μ) (acc base : List (Block μ)),
    s.blocks = base ++ acc →
    (introduceLoop fuel s acc).1.blocks = base ++ (introduceLoop fuel s acc).2 := by
  intro fuel
  induction fuel with
  | zero => intro s acc base h; exact h
  | succ f ih =>
    intro s acc base h
    rw [introduceLoop]
    split
    · exact introduceBody_blocks_acc s acc base h
    · exact ih _ _ _ (introduceBody_blocks_acc s acc base h)

/-! ### `introduce` -/

theorem introduce_exit (s : Collage μ)
    (hbs : 0 < s.blockSize) (hvx : 0 ≤ s.viewportSize.x) (hvy : 0 ≤ s.viewportSize.y)
    (hpre : 0 < s.preloadDistance) (hcx : 0 ≤ s.blockCounts.x) (hcy : 0 ≤ s.blockCounts.y) :
    IntroExit (introduce s).1 :=
  introduceLoop_exit _ s [] hbs hvx hvy hpre hcx hcy
    (by unfold introduceFuel; omega)

theorem introduce_blocks (s : Collage μ) :
    (introduce s).1.blocks = s.blocks ++ (introduce s).2 :=
  introduceLoop_blocks_acc _ s [] s.blocks (by simp)

theorem introduce_origin (s : Collage μ) : (introduce s).1.origin = s.origin :=
  introduceLoop_origin _ s []

theorem introduce_blockSize (s : Collage μ) : (introduce s).1.blockSize = s.blockSize :=
  introduceLoop_blockSize _ s []

theorem introduce_viewportSize (s : Collage μ) :
    (introduce s).1.viewportSize = s.viewportSize :=
  introduceLoop_viewportSize _ s []

theorem introduce_preloadDistance (s : Collage μ) :
    (introduce s).1.preloadDistance = s.preloadDistance :=
  introduceLoop_preloadDistance _ s []

theorem introduce_defaultBlockMetadata (s : Collage μ) :
    (introduce s).1.defaultBlockMetadata = s.defaultBlockMetadata :=
  introduceLoop_defaultBlockMetadata _ s []

end Collage

namespace Collage

variable {μ : Type}

/-! ### Effects of one conditional shrink step -/

theorem remStep_fst (c : Prop) [Decidable c] (a : Axis) (sd : Side)
    (r : Collage μ × List (Block μ)) :
    (remStep c a sd r).1 = if c then (shrink r.1 a sd).1 else r.1 := by
  unfold remStep; split <;> rfl

theorem remStep_snd (c : Prop) [Decidable c] (a : Axis) (sd : Side)
    (r : Collage μ × List (Block μ)) :
    (remStep c a sd r).2 = if c then r.2 ++ (shrink r.1 a sd).2 else r.2 := by
  unfold remStep; split <;> rfl

theorem remStep_id_of_false (c : Prop) [Decidable c] (a : Axis) (sd : Side)
    (r : Collage μ × List (Block μ)) (hc : ¬ c) : remStep c a sd r = r := by
  unfold remStep; rw [if_neg hc]

theorem remStep_origin (c : Prop) [Decidable c] (a : Axis) (sd : Side)
    (r : Collage μ × List (Block μ)) :
    (remStep c a sd r).1.origin = r.1.origin := by
  rw [remStep_fst]; split
  · exact shrink_origin _ _ _
  · rfl

theorem remStep_blockSize (c : Prop) [Decidable c] (a : Axis) (sd : Side)
    (r : Collage μ × List (Block μ)) :
    (remStep c a sd r).1.blockSize = r.1.blockSize := by
  rw [remStep_fst]; split
  · exact shrink_blockSize _ _ _
  · rfl

theorem remStep_viewportSize (c : Prop) [Decidable c] (a : Axis) (sd : Side)
    (r : Collage μ × List (Block μ)) :
    (remStep c a sd r).1.viewportSize = r.1.viewportSize := by
  rw [remStep_fst]; split
  · exact shrink_viewportSize _ _ _
  · rfl

theorem remStep_preloadDistance (c : Prop) [Decidable c] (a : Axis) (sd : Side)
    (r : Collage μ × List (Block μ)) :
    (remStep c a sd r).1.preloadDistance = r.1.preloadDistance := by
  rw [remStep_fst]; split
  · exact shrink_preloadDistance _ _ _
  · rfl

theorem remStep_defaultBlockMetadata (c : Prop) [Decidable c] (a : Axis) (sd : Side)
    (r : Collage μ × List (Block μ)) :
    (remStep c a sd r).1.defaultBlockMetadata = r.1.defaultBlockMetadata := by
  rw [remStep_fst]; split
  · exact shrink_defaultBlockMetadata _ _ _
  · rfl

theorem remStep_blockId (c : Prop) [Decidable c] (a : Axis) (sd : Side)
    (r : Collage μ × List (Block μ)) :
    (remStep c a sd r).1.blockId = r.1.blockId := by
  rw [remStep_fst]; split
  · exact shrink_blockId _ _ _
  · rfl

theorem remStep_gpoA_end (c : Prop) [Decidable c] (a b : Axis)
    (r : Collage μ × List (Block μ)) :
    gpoA (remStep c a .end_ r).1 b = gpoA r.1 b := by
  rw [remStep_fst]; split
  · exact gpoA_shrink_end _ _ _
  · rfl

theorem remStep_gpoA_start_same (c : Prop) [Decidable c] (a : Axis)
    (r : Collage μ × List (Block μ)) :
    gpoA (remStep c a .start r).1 a =
      if c then gpoA r.1 a + r.1.blockSize else gpoA r.1 a := by
  rw [remStep_fst]
  by_cases hc : c
  · simp only [if_pos hc, gpoA_shrink_start_same]
  · simp only [if_neg hc]

theorem remStep_gpoA_ne (c : Prop) [Decidable c] {a b : Axis} (sd : Side)
    (r : Collage μ × List (Block μ)) (h : b ≠ a) :
    gpoA (remStep c a sd r).1 b = gpoA r.1 b := by
  rw [remStep_fst]; split
  · cases sd
    · exact gpoA_shrink_start_ne _ h
    · exact gpoA_shrink_end _ _ _
  · rfl

theorem remStep_edgeA_end_same (c : Prop) [Decidable c] (a : Axis)
    (r : Collage μ × List (Block μ)) :
    edgeA (remStep c a .end_ r).1 a =
      if c then edgeA r.1 a - r.1.blockSize else edgeA r.1 a := by
  rw [remStep_fst]
  by_cases hc : c
  · simp only [if_pos hc, edgeA_shrink_end_same]
  · simp only [if_neg hc]

theorem remStep_edgeA_start (c : Prop) [Decidable c] (a b : Axis)
    (r : Collage μ × List (Block μ)) :
    edgeA (remStep c a .start r).1 b = edgeA r.1 b := by
  rw [remStep_fst]; split
  · by_cases hb : b = a
    · subst hb; exact edgeA_shrink_start_same _ _
    · exact edgeA_shrink_ne _ _ hb
  · rfl

theorem remStep_edgeA_ne (c : Prop) [Decidable c] {a b : Axis} (sd : Side)
    (r : Collage μ × List (Block μ)) (h : b ≠ a) :
    edgeA (remStep c a sd r).1 b = edgeA r.1 b := by
  rw [remStep_fst]; split
  · exact edgeA_shrink_ne _ sd h
  · rfl

theorem remStep_counts_same (c : Prop) [Decidable c] (a : Axis) (sd : Side)
    (r : Collage μ × List (Block μ)) :
    (remStep c a sd r).1.blockCounts.get a =
      r.1.blockCounts.get a - (if c then 1 else 0) := by
  rw [remStep_fst]
  by_cases hc : c
  · simp only [if_pos hc, shrink_counts_same]
  · simp only [if_neg hc, sub_zero]

theorem remStep_counts_ne (c : Prop) [Decidable c] {a b : Axis} (sd : Side)
    (r : Collage μ × List (Block μ)) (h : b ≠ a) :
    (remStep c a sd r).1.blockCounts.get b = r.1.blockCounts.get b := by
  rw [remStep_fst]; split
  · exact shrink_counts_ne _ sd h
  · rfl

theorem remStep_snd_len_ge (c : Prop) [Decidable c] (a : Axis) (sd : Side)
    (r : Collage μ × List (Block μ)) :
    r.2.length ≤ (remStep c a sd r).2.length := by
  rw [remStep_snd]; split
  · simp
  · exact le_refl _

/-! ### Cycle-level formulas for `remove` -/

theorem removeBody_origin (s : Collage μ) (acc : List (Block μ)) :
    (removeBody s acc).1.origin = s.origin := by
  rw [removeBody_eq]
  simp only [remStep_origin]

theorem removeBody_blockSize (s : Collage μ) (acc : List (Block μ)) :
    (removeBody s acc).1.blockSize = s.blockSize := by
  rw [removeBody_eq]
  simp only [remStep_blockSize]

theorem removeBody_viewportSize (s : Collage μ) (acc : List (Block μ)) :
    (removeBody s acc).1.viewportSize = s.viewportSize := by
  rw [removeBody_eq]
  simp only [remStep_viewportSize]

theorem removeBody_preloadDistance (s : Collage μ) (acc : List (Block μ)) :
    (removeBody s acc).1.preloadDistance = s.preloadDistance := by
  rw [removeBody_eq]
  simp only [remStep_preloadDistance]

theorem removeBody_defaultBlockMetadata (s : Collage μ) (acc : List (Block μ)) :
    (removeBody s acc).1.defaultBlockMetadata = s.defaultBlockMetadata := by
  rw [removeBody_eq]
  simp only [remStep_defaultBlockMetadata]

theorem removeBody_blockId (s : Collage μ) (acc : List (Block μ)) :
    (removeBody s acc).1.blockId = s.blockId := by
  rw [removeBody_eq]
  simp only [remStep_blockId]

theorem removeBody_gpoA (s : Collage μ) (acc : List (Block μ)) (a : Axis) :
    gpoA (removeBody s acc).1 a =
      if condRemStart s a then gpoA s a + s.blockSize else gpoA s a := by
  rw [removeBody_eq]
  cases a
  · rw [remStep_gpoA_start_same, remStep_blockSize, remStep_blockSize, remStep_blockSize,
        remStep_gpoA_end, remStep_gpoA_ne _ .start _ (by decide : Axis.x ≠ Axis.y),
        remStep_gpoA_ne _ .end_ _ (by decide : Axis.x ≠ Axis.y)]
  · rw [remStep_gpoA_ne _ .start _ (by decide : Axis.y ≠ Axis.x),
        remStep_gpoA_ne _ .end_ _ (by decide : Axis.y ≠ Axis.x),
        remStep_gpoA_start_same, remStep_blockSize, remStep_gpoA_end]

theorem removeBody_edgeA (s : Collage μ) (acc : List (Block μ)) (a : Axis) :
    edgeA (removeBody s acc).1 a =
      if condRemEnd s a then edgeA s a - s.blockSize else edgeA s a := by
  rw [removeBody_eq]
  cases a
  · rw [remStep_edgeA_start, remStep_edgeA_end_same,
        remStep_blockSize, remStep_blockSize,
        remStep_edgeA_start, remStep_edgeA_ne _ .end_ _ (by decide : Axis.x ≠ Axis.y)]
  · rw [remStep_edgeA_start, remStep_edgeA_ne _ .end_ _ (by decide : Axis.y ≠ Axis.x),
        remStep_edgeA_start, remStep_edgeA_end_same]

theorem removeBody_counts (s : Collage μ) (acc : List (Block μ)) (a : Axis) :
    (removeBody s acc).1.blockCounts.get a =
      s.blockCounts.get a - (if condRemEnd s a then 1 else 0)
        - (if condRemStart s a then 1 else 0) := by
  rw [removeBody_eq]
  cases a
  · rw [remStep_counts_same, remStep_counts_same,
        remStep_counts_ne _ .start _ (by decide : Axis.x ≠ Axis.y),
        remStep_counts_ne _ .end_ _ (by decide : Axis.x ≠ Axis.y)]
  · rw [remStep_counts_ne _ .start _ (by decide : Axis.y ≠ Axis.x),
        remStep_counts_ne _ .end_ _ (by decide : Axis.y ≠ Axis.x),
        remStep_counts_same, remStep_counts_same]

theorem removeBody_id_of_exit (s : Collage μ) (acc : List (Block μ))
    (h : RemExit s) : removeBody s acc = (s, acc) := by
  obtain ⟨h1, h2, h3, h4⟩ := h
  rw [removeBody_eq]
  unfold remStep
  simp [h1, h2, h3, h4]

end Collage

namespace Collage

variable {μ : Type}

/-! ### Nonemptiness of a fired shrink, and the `remove` exit analysis -/

theorem counts_pos_of_covA (s : Collage μ) (a : Axis) (hbs : 0 < s.blockSize)
    (hv : 0 ≤ s.viewportSize.get a) (hJ : covA s a) : 1 ≤ s.blockCounts.get a := by
  obtain ⟨h1, h2⟩ := hJ
  unfold edgeA szA at h2
  have hpos : (0:ℚ) < (s.blockCounts.get a : ℚ) * s.blockSize := by linarith
  by_contra hc
  push_neg at hc
  have hle : s.blockCounts.get a ≤ 0 := by omega
  have : (s.blockCounts.get a : ℚ) ≤ 0 := by exact_mod_cast hle
  nlinarith

theorem inRect_get (bo cnt q : Vec ℤ) :
    inRect bo cnt q ↔ ((bo.get .x ≤ q.get .x ∧ q.get .x < bo.get .x + cnt.get .x) ∧
      (bo.get .y ≤ q.get .y ∧ q.get .y < bo.get .y + cnt.get .y)) := by
  unfold inRect Vec.get
  tauto

theorem shrink_snd_ne (s : Collage μ) (a : Axis) (sd : Side) (hR : RectInv s)
    (h1 : 1 ≤ s.blockCounts.get a)
    (h2 : 1 ≤ s.blockCounts.get (Helpers.oppositeAxis a)) :
    (shrink s a sd).2 ≠ [] := by
  rw [shrink_snd]
  have hget_same : (s.blockOrigin.set a (shrinkIndex s a sd)).get a = shrinkIndex s a sd :=
    Vec.get_set_same _ _ _
  have hget_opp : (s.blockOrigin.set a (shrinkIndex s a sd)).get (Helpers.oppositeAxis a) =
      s.blockOrigin.get (Helpers.oppositeAxis a) :=
    Vec.get_set_ne _ (oppositeAxis_ne a) _
  have hqrect : inRect s.blockOrigin s.blockCounts (s.blockOrigin.set a (shrinkIndex s a sd)) := by
    rw [inRect_get]
    cases a
    · simp only [oppositeAxis_x] at h2 hget_opp
      rw [hget_same, hget_opp]
      unfold shrinkIndex
      split <;> omega
    · simp only [oppositeAxis_y] at h2 hget_opp
      rw [hget_same, hget_opp]
      unfold shrinkIndex
      split <;> omega
  obtain ⟨b, hb, hbq⟩ := (hR.1 _).2 hqrect
  intro hnil
  have hmemf : b ∈ s.blocks.filter (fun b => b.position.get a = shrinkIndex s a sd) := by
    rw [List.mem_filter]
    refine ⟨hb, ?_⟩
    rw [hbq, hget_same]
    simp
  rw [hnil] at hmemf
  exact absurd hmemf (List.not_mem_nil b)

theorem removeBody_exit (s : Collage μ) (acc : List (Block μ)) (hbs : 0 < s.blockSize)
    (hvx : 0 ≤ s.viewportSize.x) (hvy : 0 ≤ s.viewportSize.y)
    (hR : RectInv s) (hJx : covA s .x) (hJy : covA s .y)
    (hlen : (removeBody s acc).2.length = acc.length) : RemExit s := by
  have c1x : 1 ≤ s.blockCounts.get .x := counts_pos_of_covA s .x hbs hvx hJx
  have c1y : 1 ≤ s.blockCounts.get .y := counts_pos_of_covA s .y hbs hvy hJy
  have grow : ∀ (c : Prop) [Decidable c] (a : Axis) (sd : Side)
      (r : Collage μ × List (Block μ)), c → r.1 = s →
      r.2.length < (remStep c a sd r).2.length := by
    intro c _ a sd r hc hr
    rw [remStep_snd, if_pos hc, List.length_append, hr]
    have hne : (shrink s a sd).2 ≠ [] := by
      cases a
      · exact shrink_snd_ne s .x sd hR c1x (by rw [oppositeAxis_x]; exact c1y)
      · exact shrink_snd_ne s .y sd hR c1y (by rw [oppositeAxis_y]; exact c1x)
    have := List.length_pos.2 hne
    omega
  have hYE : ¬ condRemEnd s .y := by
    intro hc
    apply absurd hlen
    apply ne_of_gt
    rw [removeBody_eq]
    have l1 := grow _ .y .end_ (s, acc) hc rfl
    have l2 := remStep_snd_len_ge (condRemStart s .y) .y .start
      (remStep (condRemEnd s .y) .y .end_ (s, acc))
    have l3 := remStep_snd_len_ge (condRemEnd s .x) .x .end_
      (remStep (condRemStart s .y) .y .start (remStep (condRemEnd s .y) .y .end_ (s, acc)))
    have l4 := remStep_snd_len_ge (condRemStart s .x) .x .start
      (remStep (condRemEnd s .x) .x .end_
        (remStep (condRemStart s .y) .y .start (remStep (condRemEnd s .y) .y .end_ (s, acc))))
    have e0 : ((s, acc) : Collage μ × List (Block μ)).2.length = acc.length := rfl
    omega
  have hYS : ¬ condRemStart s .y := by
    intro hc
    apply absurd hlen
    apply ne_of_gt
    rw [removeBody_eq, remStep_id_of_false _ _ _ _ hYE]
    have l1 := grow _ .y .start (s, acc) hc rfl
    have l2 := remStep_snd_len_ge (condRemEnd s .x) .x .end_
      (remStep (condRemStart s .y) .y .start (s, acc))
    have l3 := remStep_snd_len_ge (condRemStart s .x) .x .start
      (remStep (condRemEnd s .x) .x .end_ (remStep (condRemStart s .y) .y .start (s, acc)))
    have e0 : ((s, acc) : Collage μ × List (Block μ)).2.length = acc.length := rfl
    omega
  have hXE : ¬ condRemEnd s .x := by
    intro hc
    apply absurd hlen
    apply ne_of_gt
    rw [removeBody_eq, remStep_id_of_false _ _ _ _ hYE, remStep_id_of_false _ _ _ _ hYS]
    have l1 := grow _ .x .end_ (s, acc) hc rfl
    have l2 := remStep_snd_len_ge (condRemStart s .x) .x .start
      (remStep (condRemEnd s .x) .x .end_ (s, acc))
    have e0 : ((s, acc) : Collage μ × List (Block μ)).2.length = acc.length := rfl
    omega
  have hXS : ¬ condRemStart s .x := by
    intro hc
    apply absurd hlen
    apply ne_of_gt
    rw [removeBody_eq, remStep_id_of_false _ _ _ _ hYE, remStep_id_of_false _ _ _ _ hYS,
      remStep_id_of_false _ _ _ _ hXE]
    exact grow _ .x .start (s, acc) hc rfl
  exact ⟨hXE, hXS, hYE, hYS⟩

end Collage

namespace Collage

variable {μ : Type}

/-! ### The excess measure of a `remove` cycle -/

theorem excess_eq (s : Collage μ) :
    excess s = excTermEnd s .y + excTermStart s .y + excTermEnd s .x + excTermStart s .x :=
  rfl

theorem excess_nonneg (s : Collage μ) : 0 ≤ excess s := by
  rw [excess_eq]
  unfold excTermEnd excTermStart
  have h1 := le_max_left (0 : ℤ)
    (Int.ceil ((edgeA s .y - (s.viewportSize.get .y + s.blockSize * 2)) / s.blockSize))
  have h2 := le_max_left (0 : ℤ)
    (Int.ceil ((-gpoA s .y - s.blockSize * 2) / s.blockSize))
  have h3 := le_max_left (0 : ℤ)
    (Int.ceil ((edgeA s .x - (s.viewportSize.get .x + s.blockSize * 2)) / s.blockSize))
  have h4 := le_max_left (0 : ℤ)
    (Int.ceil ((-gpoA s .x - s.blockSize * 2) / s.blockSize))
  omega

theorem excTermEnd_body (s : Collage μ) (acc : List (Block μ)) (a : Axis)
    (hbs : 0 < s.blockSize) :
    excTermEnd (removeBody s acc).1 a =
      if condRemEnd s a then excTermEnd s a - 1 else excTermEnd s a := by
  unfold excTermEnd
  rw [removeBody_blockSize, removeBody_viewportSize, removeBody_edgeA]
  by_cases hc : condRemEnd s a
  · rw [if_pos hc, if_pos hc,
      show edgeA s a - s.blockSize - (s.viewportSize.get a + s.blockSize * 2) =
        (edgeA s a - (s.viewportSize.get a + s.blockSize * 2)) - s.blockSize by ring,
      ceil_sub_div _ _ (ne_of_gt hbs)]
    have h1 : 1 ≤ Int.ceil ((edgeA s a - (s.viewportSize.get a + s.blockSize * 2)) / s.blockSize) := by
      rw [one_le_ceil_div_iff _ _ hbs]
      unfold condRemEnd at hc
      linarith
    omega
  · rw [if_neg hc, if_neg hc]

theorem excTermStart_body (s : Collage μ) (acc : List (Block μ)) (a : Axis)
    (hbs : 0 < s.blockSize) :
    excTermStart (removeBody s acc).1 a =
      if condRemStart s a then excTermStart s a - 1 else excTermStart s a := by
  unfold excTermStart
  rw [removeBody_blockSize, removeBody_gpoA]
  by_cases hc : condRemStart s a
  · rw [if_pos hc, if_pos hc,
      show -(gpoA s a + s.blockSize) - s.blockSize * 2 =
        (-gpoA s a - s.blockSize * 2) - s.blockSize by ring,
      ceil_sub_div _ _ (ne_of_gt hbs)]
    have h1 : 1 ≤ Int.ceil ((-gpoA s a - s.blockSize * 2) / s.blockSize) := by
      rw [one_le_ceil_div_iff _ _ hbs]
      unfold condRemStart at hc
      linarith
    omega
  · rw [if_neg hc, if_neg hc]

theorem removeBody_excess (s : Collage μ) (acc : List (Block μ))
    (hbs : 0 < s.blockSize) (h : (removeBody s acc).2.length ≠ acc.length) :
    excess (removeBody s acc).1 < excess s := by
  have hfire : condRemEnd s .y ∨ condRemStart s .y ∨ condRemEnd s .x ∨
      condRemStart s .x := by
    by_contra hall
    push_neg at hall
    exact h (by rw [removeBody_id_of_exit s acc ⟨hall.2.2.1, hall.2.2.2, hall.1, hall.2.1⟩])
  rw [excess_eq, excess_eq,
    excTermEnd_body s acc .y hbs, excTermStart_body s acc .y hbs,
    excTermEnd_body s acc .x hbs, excTermStart_body s acc .x hbs]
  by_cases hYE : condRemEnd s .y <;> by_cases hYS : condRemStart s .y <;>
    by_cases hXE : condRemEnd s .x <;> by_cases hXS : condRemStart s .x <;>
    simp only [hYE, hYS, hXE, hXS, if_true, if_false, false_or, or_false] at hfire ⊢ <;>
    omega

/-! ### `removeLoop`: preservation, exit facts, termination -/

theorem removeLoop_pres (P : Collage μ → Prop)
    (hP : ∀ s acc, P s → P (removeBody s acc).1) :
    ∀ (fuel : ℕ) (s : Collage μ) (acc : List (Block μ)), P s →
      P (removeLoop fuel s acc).1 := by
  intro fuel
  induction fuel with
  | zero => intro s acc hs; exact hs
  | succ f ih =>
    intro s acc hs
    rw [removeLoop]
    split
    · exact hP s acc hs
    · exact ih _ _ (hP s acc hs)

theorem removeLoop_origin (fuel : ℕ) (s : Collage μ) (acc : List (Block μ)) :
    (removeLoop fuel s acc).1.origin = s.origin := by
  refine removeLoop_pres (fun t => t.origin = s.origin) ?_ fuel s acc rfl
  intro t a ht
  show (removeBody t a).1.origin = s.origin
  rw [removeBody_origin]
  exact ht

theorem removeLoop_blockSize (fuel : ℕ) (s : Collage μ) (acc : List (Block μ)) :
    (removeLoop fuel s acc).1.blockSize = s.blockSize := by
  refine removeLoop_pres (fun t => t.blockSize = s.blockSize) ?_ fuel s acc rfl
  intro t a ht
  show (removeBody t a).1.blockSize = s.blockSize
  rw [removeBody_blockSize]
  exact ht

theorem removeLoop_viewportSize (fuel : ℕ) (s : Collage μ) (acc : List (Block μ)) :
    (removeLoop fuel s acc).1.viewportSize = s.viewportSize := by
  refine removeLoop_pres (fun t => t.viewportSize = s.viewportSize) ?_ fuel s acc rfl
  intro t a ht
  show (removeBody t a).1.viewportSize = s.viewportSize
  rw [removeBody_viewportSize]
  exact ht

theorem removeLoop_preloadDistance (fuel : ℕ) (s : Collage μ) (acc : List (Block μ)) :
    (removeLoop fuel s acc).1.preloadDistance = s.preloadDistance := by
  refine removeLoop_pres (fun t => t.preloadDistance = s.preloadDistance) ?_ fuel s acc rfl
  intro t a ht
  show (removeBody t a).1.preloadDistance = s.preloadDistance
  rw [removeBody_preloadDistance]
  exact ht

theorem removeLoop_defaultBlockMetadata (fuel : ℕ) (s : Collage μ) (acc : List (Block μ)) :
    (removeLoop fuel s acc).1.defaultBlockMetadata = s.defaultBlockMetadata := by
  refine removeLoop_pres (fun t => t.defaultBlockMetadata = s.defaultBlockMetadata) ?_ fuel s acc rfl
  intro t a ht
  show (removeBody t a).1.defaultBlockMetadata = s.defaultBlockMetadata
  rw [removeBody_defaultBlockMetadata]
  exact ht

theorem removeLoop_blockId (fuel : ℕ) (s : Collage μ) (acc : List (Block μ)) :
    (removeLoop fuel s acc).1.blockId = s.blockId := by
  refine removeLoop_pres (fun t => t.blockId = s.blockId) ?_ fuel s acc rfl
  intro t a ht
  show (removeBody t a).1.blockId = s.blockId
  rw [removeBody_blockId]
  exact ht

theorem removeBody_covA (s : Collage μ) (acc : List (Block μ)) (a : Axis)
    (hbs : 0 < s.blockSize) (hJ : covA s a) : covA (removeBody s acc).1 a := by
  obtain ⟨h1, h2⟩ := hJ
  constructor
  · rw [removeBody_gpoA]
    split
    · next hc => unfold condRemStart at hc; linarith
    · exact h1
  · rw [removeBody_viewportSize, removeBody_edgeA]
    split
    · next hc => unfold condRemEnd at hc; linarith
    · exact h2

end Collage

theorem Vec.ext_get {α : Type} (q r : Vec α) (a : Axis)
    (h1 : q.get a = r.get a)
    (h2 : q.get (Helpers.oppositeAxis a) = r.get (Helpers.oppositeAxis a)) : q = r := by
  cases a <;> cases q <;> cases r <;> simp_all [Vec.get, Helpers.oppositeAxis]

namespace Collage

variable {μ : Type}

/-! ### `shrink` preserves the rectangle invariant -/

theorem inRect_shrink_iff (s : Collage μ) (a : Axis) (sd : Side) (q : Vec ℤ) :
    inRect (shrink s a sd).1.blockOrigin (shrink s a sd).1.blockCounts q ↔
      (inRect s.blockOrigin s.blockCounts q ∧ ¬ q.get a = shrinkIndex s a sd) := by
  rw [shrink_eq]
  cases a <;> cases sd <;>
    simp [inRect, shrinkIndex, Vec.set, Vec.get, Side.start, Side.end_] <;>
    omega

theorem shrink_rectInv (s : Collage μ) (a : Axis) (sd : Side) (hR : RectInv s) :
    RectInv (shrink s a sd).1 := by
  obtain ⟨hmem, hnd⟩ := hR
  constructor
  · intro q
    rw [shrink_blocks_eq, inRect_shrink_iff]
    constructor
    · rintro ⟨b, hb, rfl⟩
      rw [List.mem_filter] at hb
      refine ⟨(hmem b.position).1 ⟨b, hb.1, rfl⟩, ?_⟩
      simpa using hb.2
    · rintro ⟨hold, hne⟩
      obtain ⟨b, hb, rfl⟩ := (hmem q).2 hold
      refine ⟨b, ?_, rfl⟩
      rw [List.mem_filter]
      exact ⟨hb, by simpa using hne⟩
  · rw [shrink_blocks_eq]
    exact hnd.sublist (List.Sublist.map _ (List.filter_sublist _))

/-! ### `extend` preserves the rectangle invariant -/

theorem extendPosition_get_same (s : Collage μ) (a : Axis) (sd : Side) (p : ℕ) :
    (extendPosition s a sd p).get a =
      (if sd = .start then s.blockOrigin.get a - 1
        else s.blockOrigin.get a + s.blockCounts.get a) := by
  cases a <;> cases sd <;> simp [extendPosition, Vec.get]

theorem extendPosition_get_opp (s : Collage μ) (a : Axis) (sd : Side) (p : ℕ) :
    (extendPosition s a sd p).get (Helpers.oppositeAxis a) =
      s.blockOrigin.get (Helpers.oppositeAxis a) + p := by
  cases a <;> cases sd <;> simp [extendPosition, Vec.get, Helpers.oppositeAxis]

theorem extendPosition_injective (s : Collage μ) (a : Axis) (sd : Side) :
    Function.Injective (extendPosition s a sd) := by
  intro p p' h
  have h2 := congrArg (fun q => Vec.get q (Helpers.oppositeAxis a)) h
  simp only [extendPosition_get_opp] at h2
  omega

theorem exists_mem_extendBlocks_position_iff (s : Collage μ) (a : Axis) (sd : Side)
    (q : Vec ℤ) (h0 : 0 ≤ s.blockCounts.get (Helpers.oppositeAxis a)) :
    (∃ b ∈ extendBlocks s a sd, b.position = q) ↔
      (q.get a = (if sd = .start then s.blockOrigin.get a - 1
          else s.blockOrigin.get a + s.blockCounts.get a) ∧
        s.blockOrigin.get (Helpers.oppositeAxis a) ≤ q.get (Helpers.oppositeAxis a) ∧
        q.get (Helpers.oppositeAxis a) <
          s.blockOrigin.get (Helpers.oppositeAxis a) +
            s.blockCounts.get (Helpers.oppositeAxis a)) := by
  constructor
  · rintro ⟨b, hb, rfl⟩
    rw [extendBlocks, List.mem_map] at hb
    obtain ⟨p, hp, rfl⟩ := hb
    rw [List.mem_range] at hp
    unfold extendCount at hp
    refine ⟨extendPosition_get_same s a sd p, ?_, ?_⟩ <;>
      rw [extendMk] <;> simp only [extendPosition_get_opp] <;> omega
  · rintro ⟨hsame, hlo, hhi⟩
    refine ⟨extendMk s a sd (q.get (Helpers.oppositeAxis a) -
      s.blockOrigin.get (Helpers.oppositeAxis a)).toNat, ?_, ?_⟩
    · rw [extendBlocks, List.mem_map]
      refine ⟨_, ?_, rfl⟩
      rw [List.mem_range]
      unfold extendCount
      omega
    · show extendPosition s a sd _ = q
      refine (Vec.ext_get _ q a ?_ ?_).symm.symm
      · rw [extendPosition_get_same, hsame]
      · rw [extendPosition_get_opp]
        omega

theorem inRect_extend_iff (s : Collage μ) (a : Axis) (sd : Side) (q : Vec ℤ)
    (hca : 0 ≤ s.blockCounts.get a) :
    inRect (extend s a sd).1.blockOrigin (extend s a sd).1.blockCounts q ↔
      (inRect s.blockOrigin s.blockCounts q ∨
        (q.get a = (if sd = .start then s.blockOrigin.get a - 1
            else s.blockOrigin.get a + s.blockCounts.get a) ∧
          s.blockOrigin.get (Helpers.oppositeAxis a) ≤ q.get (Helpers.oppositeAxis a) ∧
          q.get (Helpers.oppositeAxis a) <
            s.blockOrigin.get (Helpers.oppositeAxis a) +
              s.blockCounts.get (Helpers.oppositeAxis a))) := by
  rw [extend_eq]
  cases a <;> cases sd <;>
    simp [inRect, Vec.set, Vec.get, Helpers.oppositeAxis, Side.start, Side.end_] at hca ⊢ <;>
    omega

theorem position_in_range_of_mem (s : Collage μ) (hR : RectInv s) (a : Axis)
    {b : Block μ} (hb : b ∈ s.blocks) :
    s.blockOrigin.get a ≤ b.position.get a ∧
      b.position.get a < s.blockOrigin.get a + s.blockCounts.get a := by
  have h := (hR.1 b.position).1 ⟨b, hb, rfl⟩
  rw [inRect_get] at h
  cases a
  · exact h.1
  · exact h.2

theorem extend_rectInv (s : Collage μ) (a : Axis) (sd : Side)
    (hcx : 0 ≤ s.blockCounts.x) (hcy : 0 ≤ s.blockCounts.y) (hR : RectInv s) :
    RectInv (extend s a sd).1 := by
  have hca : 0 ≤ s.blockCounts.get a := by cases a <;> assumption
  have hco : 0 ≤ s.blockCounts.get (Helpers.oppositeAxis a) := by
    cases a <;> simp only [oppositeAxis_x, oppositeAxis_y] <;> assumption
  constructor
  · intro q
    rw [extend_blocks_eq, extend_snd, inRect_extend_iff s a sd q hca]
    constructor
    · rintro ⟨b, hb, rfl⟩
      rw [List.mem_append] at hb
      rcases hb with hb | hb
      · exact Or.inl ((hR.1 b.position).1 ⟨b, hb, rfl⟩)
      · exact Or.inr ((exists_mem_extendBlocks_position_iff s a sd b.position hco).1
          ⟨b, hb, rfl⟩)
    · rintro (hold | hnew)
      · obtain ⟨b, hb, rfl⟩ := (hR.1 q).2 hold
        exact ⟨b, List.mem_append.2 (Or.inl hb), rfl⟩
      · obtain ⟨b, hb, rfl⟩ := (exists_mem_extendBlocks_position_iff s a sd q hco).2 hnew
        exact ⟨b, List.mem_append.2 (Or.inr hb), rfl⟩
  · rw [extend_blocks_eq, extend_snd, List.map_append]
    apply List.Nodup.append hR.2
    · rw [extendBlocks, List.map_map]
      have : (fun b => Block.position b) ∘ extendMk s a sd = extendPosition s a sd := by
        funext p
        rfl
      rw [this]
      exact (List.nodup_range _).map (extendPosition_injective s a sd)
    · intro q hq1 hq2
      rw [List.mem_map] at hq1 hq2
      obtain ⟨b1, hb1, rfl⟩ := hq1
      obtain ⟨b2, hb2, hpos⟩ := hq2
      have hr := position_in_range_of_mem s hR a hb1
      have hn := (exists_mem_extendBlocks_position_iff s a sd b1.position hco).1
        ⟨b2, hb2, hpos⟩
      rcases hn with ⟨hsame, _, _⟩
      revert hsame
      split <;> omega

end Collage

namespace Collage

variable {μ : Type}

/-! ### Id-bound and counts preservation -/

theorem extend_counts_nonneg (s : Collage μ) (a : Axis) (sd : Side)
    (hcx : 0 ≤ s.blockCounts.x) (hcy : 0 ≤ s.blockCounts.y) :
    0 ≤ (extend s a sd).1.blockCounts.x ∧ 0 ≤ (extend s a sd).1.blockCounts.y := by
  have ex : (extend s a sd).1.blockCounts.x = (extend s a sd).1.blockCounts.get .x := rfl
  have ey : (extend s a sd).1.blockCounts.y = (extend s a sd).1.blockCounts.get .y := rfl
  have gx : s.blockCounts.get .x = s.blockCounts.x := rfl
  have gy : s.blockCounts.get .y = s.blockCounts.y := rfl
  cases a
  · rw [ex, ey, extend_counts_same, extend_counts_ne s sd (by decide : Axis.y ≠ Axis.x),
      gx, gy]
    constructor <;> omega
  · rw [ex, ey, extend_counts_same, extend_counts_ne s sd (by decide : Axis.x ≠ Axis.y),
      gx, gy]
    constructor <;> omega

theorem extend_ids (s : Collage μ) (a : Axis) (sd : Side)
    (h : ∀ b ∈ s.blocks, b.id < s.blockId) :
    ∀ b ∈ (extend s a sd).1.blocks, b.id < (extend s a sd).1.blockId := by
  rw [extend_blocks_eq, extend_snd, extend_blockId]
  intro b hb
  rw [List.mem_append] at hb
  rcases hb with hb | hb
  · have := h b hb
    omega
  · rw [extendBlocks, List.mem_map] at hb
    obtain ⟨p, hp, rfl⟩ := hb
    rw [List.mem_range] at hp
    show s.blockId + p < s.blockId + extendCount s a
    omega

theorem shrink_ids (s : Collage μ) (a : Axis) (sd : Side)
    (h : ∀ b ∈ s.blocks, b.id < s.blockId) :
    ∀ b ∈ (shrink s a sd).1.blocks, b.id < (shrink s a sd).1.blockId := by
  rw [shrink_blocks_eq, shrink_blockId]
  intro b hb
  exact h b (List.mem_filter.1 hb).1

theorem shrink_blocks_subset (s : Collage μ) (a : Axis) (sd : Side) :
    ∀ b ∈ (shrink s a sd).1.blocks, b ∈ s.blocks := by
  rw [shrink_blocks_eq]
  intro b hb
  exact (List.mem_filter.1 hb).1

/-- The packaged structural invariant carried through the `introduce` loop:
exact rectangle, nonnegative counts, and the id bound. -/
theorem introStep_pack (c : Prop) [Decidable c] (a : Axis) (sd : Side)
    (r : Collage μ × List (Block μ))
    (h : RectInv r.1 ∧ 0 ≤ r.1.blockCounts.x ∧ 0 ≤ r.1.blockCounts.y ∧
      (∀ b ∈ r.1.blocks, b.id < r.1.blockId)) :
    RectInv (introStep c a sd r).1 ∧ 0 ≤ (introStep c a sd r).1.blockCounts.x ∧
      0 ≤ (introStep c a sd r).1.blockCounts.y ∧
      (∀ b ∈ (introStep c a sd r).1.blocks, b.id < (introStep c a sd r).1.blockId) := by
  obtain ⟨hR, hcx, hcy, hid⟩ := h
  rw [introStep_fst]
  split
  · have hc := extend_counts_nonneg r.1 a sd hcx hcy
    exact ⟨extend_rectInv r.1 a sd hcx hcy hR, hc.1, hc.2, extend_ids r.1 a sd hid⟩
  · exact ⟨hR, hcx, hcy, hid⟩

theorem introduceBody_pack (s : Collage μ) (acc : List (Block μ))
    (h : RectInv s ∧ 0 ≤ s.blockCounts.x ∧ 0 ≤ s.blockCounts.y ∧
      (∀ b ∈ s.blocks, b.id < s.blockId)) :
    RectInv (introduceBody s acc).1 ∧ 0 ≤ (introduceBody s acc).1.blockCounts.x ∧
      0 ≤ (introduceBody s acc).1.blockCounts.y ∧
      (∀ b ∈ (introduceBody s acc).1.blocks, b.id < (introduceBody s acc).1.blockId) := by
  rw [introduceBody_eq]
  exact introStep_pack _ _ _ _ (introStep_pack _ _ _ _ (introStep_pack _ _ _ _
    (introStep_pack _ _ _ _ ⟨h.1, h.2.1, h.2.2.1, h.2.2.2⟩)))

theorem introduceLoop_pack (fuel : ℕ) (s : Collage μ) (acc : List (Block μ))
    (h : RectInv s ∧ 0 ≤ s.blockCounts.x ∧ 0 ≤ s.blockCounts.y ∧
      (∀ b ∈ s.blocks, b.id < s.blockId)) :
    RectInv (introduceLoop fuel s acc).1 ∧
      0 ≤ (introduceLoop fuel s acc).1.blockCounts.x ∧
      0 ≤ (introduceLoop fuel s acc).1.blockCounts.y ∧
      (∀ b ∈ (introduceLoop fuel s acc).1.blocks,
        b.id < (introduceLoop fuel s acc).1.blockId) := by
  exact introduceLoop_pres
    (fun t => RectInv t ∧ 0 ≤ t.blockCounts.x ∧ 0 ≤ t.blockCounts.y ∧
      (∀ b ∈ t.blocks, b.id < t.blockId))
    (fun t a ht => introduceBody_pack t a ht) fuel s acc h

theorem introduce_pack (s : Collage μ)
    (h : RectInv s ∧ 0 ≤ s.blockCounts.x ∧ 0 ≤ s.blockCounts.y ∧
      (∀ b ∈ s.blocks, b.id < s.blockId)) :
    RectInv (introduce s).1 ∧ 0 ≤ (introduce s).1.blockCounts.x ∧
      0 ≤ (introduce s).1.blockCounts.y ∧
      (∀ b ∈ (introduce s).1.blocks, b.id < (introduce s).1.blockId) :=
  introduceLoop_pack _ s [] h

/-! ### `remove` side invariants -/

theorem remStep_rectInv (c : Prop) [Decidable c] (a : Axis) (sd : Side)
    (r : Collage μ × List (Block μ)) (hR : RectInv r.1) :
    RectInv (remStep c a sd r).1 := by
  rw [remStep_fst]
  split
  · exact shrink_rectInv r.1 a sd hR
  · exact hR

theorem removeBody_rectInv (s : Collage μ) (acc : List (Block μ)) (hR : RectInv s) :
    RectInv (removeBody s acc).1 := by
  rw [removeBody_eq]
  exact remStep_rectInv _ _ _ _ (remStep_rectInv _ _ _ _ (remStep_rectInv _ _ _ _
    (remStep_rectInv _ _ _ _ hR)))

theorem remStep_blocks_subset (c : Prop) [Decidable c] (a : Axis) (sd : Side)
    (r : Collage μ × List (Block μ)) :
    ∀ b ∈ (remStep c a sd r).1.blocks, b ∈ r.1.blocks := by
  rw [remStep_fst]
  split
  · exact shrink_blocks_subset r.1 a sd
  · exact fun b hb => hb

theorem removeBody_blocks_subset (s : Collage μ) (acc : List (Block μ)) :
    ∀ b ∈ (removeBody s acc).1.blocks, b ∈ s.blocks := by
  rw [removeBody_eq]
  intro b hb
  exact remStep_blocks_subset _ _ _ _ _ (remStep_blocks_subset _ _ _ _ _
    (remStep_blocks_subset _ _ _ _ _ (remStep_blocks_subset _ _ _ _ _ hb)))

theorem removeLoop_blocks_subset (fuel : ℕ) (s : Collage μ) (acc : List (Block μ)) :
    ∀ b ∈ (removeLoop fuel s acc).1.blocks, b ∈ s.blocks := by
  refine removeLoop_pres (fun t => ∀ b ∈ t.blocks, b ∈ s.blocks) ?_ fuel s acc
    (fun b hb => hb)
  intro t a ht b hb
  exact ht b (removeBody_blocks_subset t a b hb)

theorem removeLoop_rectInv (fuel : ℕ) (s : Collage μ) (acc : List (Block μ))
    (hR : RectInv s) : RectInv (removeLoop fuel s acc).1 :=
  removeLoop_pres (fun t => RectInv t) (fun t a ht => removeBody_rectInv t a ht)
    fuel s acc hR

theorem removeLoop_covA (fuel : ℕ) (s : Collage μ) (acc : List (Block μ))
    (hbs : 0 < s.blockSize) (hx : covA s .x) (hy : covA s .y) :
    covA (removeLoop fuel s acc).1 .x ∧ covA (removeLoop fuel s acc).1 .y := by
  have h := removeLoop_pres
    (fun t => t.blockSize = s.blockSize ∧ covA t .x ∧ covA t .y)
    (fun t a ht => by
      refine ⟨?_, ?_, ?_⟩
      · show (removeBody t a).1.blockSize = s.blockSize
        rw [removeBody_blockSize]; exact ht.1
      · exact removeBody_covA t a .x (ht.1 ▸ hbs) ht.2.1
      · exact removeBody_covA t a .y (ht.1 ▸ hbs) ht.2.2)
    fuel s acc ⟨rfl, hx, hy⟩
  exact ⟨h.2.1, h.2.2⟩

/-- With enough fuel, the `remove` loop reaches a state where all four
shrink tests are off. -/
theorem removeLoop_exit : ∀ (fuel : ℕ) (s : Collage μ) (acc : List (Block μ)),
    0 < s.blockSize → 0 ≤ s.viewportSize.x → 0 ≤ s.viewportSize.y →
    RectInv s → covA s .x → covA s .y →
    (excess s).toNat < fuel →
    RemExit (removeLoop fuel s acc).1 := by
  intro fuel
  induction fuel with
  | zero => intro s acc _ _ _ _ _ _ hf; omega
  | succ f ih =>
    intro s acc hbs hvx hvy hR hJx hJy hf
    rw [removeLoop]
    split
    · next hstop =>
      have hexit : RemExit s := removeBody_exit s acc hbs hvx hvy hR hJx hJy hstop
      rw [removeBody_id_of_exit s acc hexit]
      exact hexit
    · next hmore =>
      have hd := removeBody_excess s acc hbs hmore
      have hd0 := excess_nonneg (removeBody s acc).1
      refine ih _ _ ?_ ?_ ?_ ?_ ?_ ?_ (by omega)
      · rw [removeBody_blockSize]; exact hbs
      · rw [removeBody_viewportSize]; exact hvx
      · rw [removeBody_viewportSize]; exact hvy
      · exact removeBody_rectInv s acc hR
      · exact removeBody_covA s acc .x hbs hJx
      · exact removeBody_covA s acc .y hbs hJy

theorem removeLoop_fuel_irrel : ∀ (f f' : ℕ) (s : Collage μ) (acc : List (Block μ)),
    0 < s.blockSize →
    (excess s).toNat < f → (excess s).toNat < f' →
    removeLoop f s acc = removeLoop f' s acc := by
  intro f
  induction f with
  | zero => intro f' s acc _ hf _; omega
  | succ f ih =>
    intro f' s acc hbs hf hf'
    match f' with
    | 0 => omega
    | f'' + 1 =>
      rw [removeLoop, removeLoop]
      split
      · rfl
      · next hmore =>
        have hd := removeBody_excess s acc hbs hmore
        have hd0 := excess_nonneg (removeBody s acc).1
        exact ih f'' _ _ (by rw [removeBody_blockSize]; exact hbs) (by omega) (by omega)

theorem removeLoop_ids (fuel : ℕ) (s : Collage μ) (acc : List (Block μ))
    (h : ∀ b ∈ s.blocks, b.id < s.blockId) :
    ∀ b ∈ (removeLoop fuel s acc).1.blocks, b.id < (removeLoop fuel s acc).1.blockId := by
  have hub := removeLoop_blockId fuel s acc
  rw [hub]
  intro b hb
  exact h b (removeLoop_blocks_subset fuel s acc b hb)

/-! ### `remove` wrappers -/

theorem remove_exit (s : Collage μ) (hbs : 0 < s.blockSize)
    (hvx : 0 ≤ s.viewportSize.x) (hvy : 0 ≤ s.viewportSize.y)
    (hR : RectInv s) (hJx : covA s .x) (hJy : covA s .y) :
    RemExit (remove s).1 :=
  removeLoop_exit _ s [] hbs hvx hvy hR hJx hJy (by unfold removeFuel; omega)

theorem remove_rectInv (s : Collage μ) (hR : RectInv s) : RectInv (remove s).1 :=
  removeLoop_rectInv _ s [] hR

theorem remove_covA (s : Collage μ) (hbs : 0 < s.blockSize)
    (hx : covA s .x) (hy : covA s .y) :
    covA (remove s).1 .x ∧ covA (remove s).1 .y :=
  removeLoop_covA _ s [] hbs hx hy

theorem remove_origin (s : Collage μ) : (remove s).1.origin = s.origin :=
  removeLoop_origin _ s []

theorem remove_blockSize (s : Collage μ) : (remove s).1.blockSize = s.blockSize :=
  removeLoop_blockSize _ s []

theorem remove_viewportSize (s : Collage μ) : (remove s).1.viewportSize = s.viewportSize :=
  removeLoop_viewportSize _ s []

theorem remove_preloadDistance (s : Collage μ) :
    (remove s).1.preloadDistance = s.preloadDistance :=
  removeLoop_preloadDistance _ s []

theorem remove_defaultBlockMetadata (s : Collage μ) :
    (remove s).1.defaultBlockMetadata = s.defaultBlockMetadata :=
  removeLoop_defaultBlockMetadata _ s []

theorem remove_blockId (s : Collage μ) : (remove s).1.blockId = s.blockId :=
  removeLoop_blockId _ s []

theorem remove_ids (s : Collage μ) (h : ∀ b ∈ s.blocks, b.id < s.blockId) :
    ∀ b ∈ (remove s).1.blocks, b.id < (remove s).1.blockId :=
  removeLoop_ids _ s [] h

theorem remove_blocks_subset (s : Collage μ) :
    ∀ b ∈ (remove s).1.blocks, b ∈ s.blocks :=
  removeLoop_blocks_subset _ s []

end Collage

namespace Collage

variable {μ : Type}

/-! ### Coverage -/

theorem covA_of_introExit (t : Collage μ) (hpre : 0 < t.preloadDistance)
    (hIE : IntroExit t) : covA t .x ∧ covA t .y := by
  obtain ⟨h1, h2, h3, h4⟩ := hIE
  unfold condIntroEnd at h1 h3
  unfold condIntroStart at h2 h4
  push_neg at h1 h2 h3 h4
  exact ⟨⟨by linarith, by linarith⟩, ⟨by linarith, by linarith⟩⟩

theorem exists_index_cover (bo cnt : ℤ) (origin bs vp p : ℚ) (hbs : 0 < bs)
    (hgpo : origin + (bo : ℚ) * bs ≤ 0)
    (hedge : vp < origin + (bo : ℚ) * bs + (cnt : ℚ) * bs)
    (hp0 : 0 ≤ p) (hpv : p ≤ vp) :
    ∃ i : ℤ, bo ≤ i ∧ i < bo + cnt ∧
      origin + (i : ℚ) * bs ≤ p ∧ p ≤ origin + (i : ℚ) * bs + bs := by
  refine ⟨Int.floor ((p - origin) / bs), ?_, ?_, ?_, ?_⟩
  · rw [Int.le_floor, le_div_iff₀ hbs]
    linarith
  · rw [show Int.floor ((p - origin) / bs) < bo + cnt ↔
        ((p - origin) / bs) < ((bo + cnt : ℤ) : ℚ) from Int.floor_lt,
      div_lt_iff₀ hbs]
    push_cast
    linarith
  · have h := Int.floor_le ((p - origin) / bs)
    rw [le_div_iff₀ hbs] at h
    linarith
  · have h := Int.lt_floor_add_one ((p - origin) / bs)
    rw [div_lt_iff₀ hbs] at h
    linarith [h]

theorem coverage_of (s : Collage μ) (hbs : 0 < s.blockSize) (hR : RectInv s)
    (hJx : covA s .x) (hJy : covA s .y) : Coverage s := by
  intro p hx0 hxv hy0 hyv
  obtain ⟨hgx, hex⟩ := hJx
  obtain ⟨hgy, hey⟩ := hJy
  simp only [gpoA, edgeA, szA, Vec.get_x, Vec.get_y] at hgx hex hgy hey
  obtain ⟨i, hi1, hi2, hi3, hi4⟩ :=
    exists_index_cover s.blockOrigin.x s.blockCounts.x s.origin.x s.blockSize
      s.viewportSize.x p.x hbs hgx (by linarith [hex]) hx0 hxv
  obtain ⟨j, hj1, hj2, hj3, hj4⟩ :=
    exists_index_cover s.blockOrigin.y s.blockCounts.y s.origin.y s.blockSize
      s.viewportSize.y p.y hbs hgy (by linarith [hey]) hy0 hyv
  have hq : inRect s.blockOrigin s.blockCounts ⟨i, j⟩ :=
    ⟨hi1, hi2, hj1, hj2⟩
  obtain ⟨b, hb, hbpos⟩ := (hR.1 ⟨i, j⟩).2 hq
  refine ⟨b, hb, ?_, ?_, ?_, ?_⟩ <;> rw [hbpos] <;> assumption

/-! ### Loops are no-ops at their fixed points -/

theorem introduceLoop_of_exit (fuel : ℕ) (s : Collage μ) (acc : List (Block μ))
    (h : IntroExit s) : introduceLoop fuel s acc = (s, acc) := by
  cases fuel with
  | zero => rfl
  | succ f =>
    rw [introduceLoop, introduceBody_id_of_exit s acc h]
    simp

theorem introduce_of_exit (s : Collage μ) (h : IntroExit s) : introduce s = (s, []) :=
  introduceLoop_of_exit _ s [] h

theorem removeLoop_of_exit (fuel : ℕ) (s : Collage μ) (acc : List (Block μ))
    (h : RemExit s) : removeLoop fuel s acc = (s, acc) := by
  cases fuel with
  | zero => rfl
  | succ f =>
    rw [removeLoop, removeBody_id_of_exit s acc h]
    simp

theorem remove_of_exit (s : Collage μ) (h : RemExit s) : remove s = (s, []) :=
  removeLoop_of_exit _ s [] h

theorem checkBounds_of_exit [DecidableEq μ] (s : Collage μ)
    (hIE : IntroExit s) (hRE : RemExit s) : checkBounds s = (s, []) := by
  unfold checkBounds
  rw [introduce_of_exit s hIE]
  simp only []
  rw [remove_of_exit s hRE]
  simp

end Collage

namespace Collage

variable {μ : Type}

/-! ### With `preloadDistance ≤ blockSize`, the shrink pass cannot re-open
an extension need -/

theorem removeBody_introExit (s : Collage μ) (acc : List (Block μ))
    (hple : s.preloadDistance ≤ s.blockSize) (hIE : IntroExit s) :
    IntroExit (removeBody s acc).1 := by
  obtain ⟨h1, h2, h3, h4⟩ := hIE
  refine ⟨?_, ?_, ?_, ?_⟩
  · unfold condIntroEnd at h1 ⊢
    rw [removeBody_edgeA, removeBody_viewportSize, removeBody_preloadDistance]
    split
    · next hc => unfold condRemEnd at hc; intro habs; linarith
    · exact h1
  · unfold condIntroStart at h2 ⊢
    rw [removeBody_gpoA, removeBody_preloadDistance]
    split
    · next hc => unfold condRemStart at hc; intro habs; linarith
    · exact h2
  · unfold condIntroEnd at h3 ⊢
    rw [removeBody_edgeA, removeBody_viewportSize, removeBody_preloadDistance]
    split
    · next hc => unfold condRemEnd at hc; intro habs; linarith
    · exact h3
  · unfold condIntroStart at h4 ⊢
    rw [removeBody_gpoA, removeBody_preloadDistance]
    split
    · next hc => unfold condRemStart at hc; intro habs; linarith
    · exact h4

theorem removeLoop_introExit (fuel : ℕ) (s : Collage μ) (acc : List (Block μ))
    (hple : s.preloadDistance ≤ s.blockSize) (hIE : IntroExit s) :
    IntroExit (removeLoop fuel s acc).1 := by
  have h := removeLoop_pres
    (fun t => t.preloadDistance = s.preloadDistance ∧ t.blockSize = s.blockSize ∧
      IntroExit t)
    (fun t a ht => by
      refine ⟨?_, ?_, ?_⟩
      · show (removeBody t a).1.preloadDistance = s.preloadDistance
        rw [removeBody_preloadDistance]; exact ht.1
      · show (removeBody t a).1.blockSize = s.blockSize
        rw [removeBody_blockSize]; exact ht.2.1
      · exact removeBody_introExit t a (by rw [ht.1, ht.2.1]; exact hple) ht.2.2)
    fuel s acc ⟨rfl, rfl, hIE⟩
  exact h.2.2

theorem remove_introExit (s : Collage μ) (hple : s.preloadDistance ≤ s.blockSize)
    (hIE : IntroExit s) : IntroExit (remove s).1 :=
  removeLoop_introExit _ s [] hple hIE

/-! ### `checkBounds`: state, invariants, coverage -/

theorem checkBounds_fst [DecidableEq μ] (s : Collage μ) :
    (checkBounds s).1 = (remove (introduce s).1).1 := rfl

theorem checkBounds_spec [DecidableEq μ] (s : Collage μ) (hI : Inv s) :
    Inv (checkBounds s).1 ∧ Coverage (checkBounds s).1 ∧ RemExit (checkBounds s).1 ∧
      (s.preloadDistance ≤ s.blockSize → IntroExit (checkBounds s).1) := by
  have hpack := introduce_pack s ⟨hI.rect, hI.cx, hI.cy, hI.ids⟩
  have hIE := introduce_exit s hI.bs hI.vx hI.vy hI.pre hI.cx hI.cy
  have hbs1 : (introduce s).1.blockSize = s.blockSize := introduce_blockSize s
  have hvs1 : (introduce s).1.viewportSize = s.viewportSize := introduce_viewportSize s
  have hpre1 : (introduce s).1.preloadDistance = s.preloadDistance :=
    introduce_preloadDistance s
  have hJ := covA_of_introExit (introduce s).1 (by rw [hpre1]; exact hI.pre) hIE
  have hbs1' : 0 < (introduce s).1.blockSize := by rw [hbs1]; exact hI.bs
  have hvx1 : 0 ≤ (introduce s).1.viewportSize.x := by rw [hvs1]; exact hI.vx
  have hvy1 : 0 ≤ (introduce s).1.viewportSize.y := by rw [hvs1]; exact hI.vy
  have hRE := remove_exit (introduce s).1 hbs1' hvx1 hvy1 hpack.1 hJ.1 hJ.2
  have hR2 := remove_rectInv (introduce s).1 hpack.1
  have hJ2 := remove_covA (introduce s).1 hbs1' hJ.1 hJ.2
  have hbs2 : (checkBounds s).1.blockSize = s.blockSize := by
    rw [checkBounds_fst, remove_blockSize, hbs1]
  have hvs2 : (checkBounds s).1.viewportSize = s.viewportSize := by
    rw [checkBounds_fst, remove_viewportSize, hvs1]
  have hpre2 : (checkBounds s).1.preloadDistance = s.preloadDistance := by
    rw [checkBounds_fst, remove_preloadDistance, hpre1]
  have hbs2' : 0 < (checkBounds s).1.blockSize := by rw [hbs2]; exact hI.bs
  have hcx2 : 1 ≤ (checkBounds s).1.blockCounts.get .x := by
    rw [checkBounds_fst]
    exact counts_pos_of_covA _ .x (by rw [remove_blockSize, hbs1]; exact hI.bs)
      (by rw [remove_viewportSize, hvs1]; exact hI.vx) hJ2.1
  have hcy2 : 1 ≤ (checkBounds s).1.blockCounts.get .y := by
    rw [checkBounds_fst]
    exact counts_pos_of_covA _ .y (by rw [remove_blockSize, hbs1]; exact hI.bs)
      (by rw [remove_viewportSize, hvs1]; exact hI.vy) hJ2.2
  refine ⟨?_, ?_, ?_, ?_⟩
  · refine ⟨?_, ?_, ?_, ?_, ?_, ?_, ?_, ?_⟩
    · rw [checkBounds_fst]; exact hR2
    · have : (checkBounds s).1.blockCounts.get .x = (checkBounds s).1.blockCounts.x := rfl
      rw [this] at hcx2; omega
    · have : (checkBounds s).1.blockCounts.get .y = (checkBounds s).1.blockCounts.y := rfl
      rw [this] at hcy2; omega
    · exact hbs2'
    · rw [hvs2]; exact hI.vx
    · rw [hvs2]; exact hI.vy
    · rw [hpre2]; exact hI.pre
    · rw [checkBounds_fst]; exact remove_ids (introduce s).1 hpack.2.2.2
  · rw [checkBounds_fst]
    exact coverage_of _ (by rw [remove_blockSize, hbs1]; exact hI.bs) hR2 hJ2.1 hJ2.2
  · exact hRE
  · intro hple
    rw [checkBounds_fst]
    exact remove_introExit (introduce s).1
      (by rw [hpre1, hbs1]; exact hple) hIE

end Collage

namespace Collage

variable {μ : Type}

/-! ### The initial spawn loop of `init` -/

theorem addBlock_st_foldl : ∀ (qs : List (Vec ℤ)) (st : Collage μ),
    qs.foldl (fun t q => (addBlock t q).1) st =
      { st with
        blocks := st.blocks ++ spawnBlocksFrom st.defaultBlockMetadata st.blockId qs
        blockId := st.blockId + qs.length } := by
  intro qs
  induction qs with
  | nil => intro st; simp [spawnBlocksFrom]
  | cons q qs ih =>
    intro st
    rw [List.foldl_cons, ih]
    simp only [addBlock_eq, spawnBlocksFrom, List.length_cons]
    simp [List.append_assoc]
    omega

theorem spawnBlocksFrom_append (dm : μ) : ∀ (l1 l2 : List (Vec ℤ)) (i : ℕ),
    spawnBlocksFrom dm i (l1 ++ l2) =
      spawnBlocksFrom dm i l1 ++ spawnBlocksFrom dm (i + l1.length) l2 := by
  intro l1
  induction l1 with
  | nil => intro l2 i; simp [spawnBlocksFrom]
  | cons q qs ih =>
    intro l2 i
    simp only [List.cons_append, spawnBlocksFrom, List.length_cons, List.append_eq]
    rw [ih l2 (i + 1), show i + (qs.length + 1) = i + 1 + qs.length by omega]

theorem initSpawn_outer (cx : ℕ) : ∀ (rows : List ℕ) (st : Collage μ),
    rows.foldl (fun (srow : Collage μ) (row : ℕ) => (List.range cx).foldl
      (fun (scol : Collage μ) (col : ℕ) =>
        (addBlock scol (⟨(col : ℤ), (row : ℤ)⟩ : Vec ℤ)).1) srow) st
      = { st with
          blocks := st.blocks ++ spawnBlocksFrom st.defaultBlockMetadata st.blockId
            ((rows.map (fun (row : ℕ) => (List.range cx).map
              (fun (col : ℕ) => (⟨(col : ℤ), (row : ℤ)⟩ : Vec ℤ)))).flatten)
          blockId := st.blockId + cx * rows.length } := by
  intro rows
  induction rows with
  | nil => intro st; simp [spawnBlocksFrom]
  | cons r rows ih =>
    intro st
    rw [List.foldl_cons]
    have hinner : (List.range cx).foldl
        (fun (scol : Collage μ) (col : ℕ) =>
          (addBlock scol (⟨(col : ℤ), (r : ℤ)⟩ : Vec ℤ)).1) st =
        { st with
          blocks := st.blocks ++ spawnBlocksFrom st.defaultBlockMetadata st.blockId
            ((List.range cx).map (fun (col : ℕ) => (⟨(col : ℤ), (r : ℤ)⟩ : Vec ℤ)))
          blockId := st.blockId + cx } := by
      rw [← List.foldl_map (fun (col : ℕ) => (⟨(col : ℤ), (r : ℤ)⟩ : Vec ℤ))
        (fun t q => (addBlock t q).1), addBlock_st_foldl]
      simp
    rw [hinner, ih]
    simp only [List.map_cons, List.flatten_cons, spawnBlocksFrom_append, List.length_map,
      List.length_range, List.length_cons]
    simp [List.append_assoc]
    ring

theorem initSpawn_eq (s : Collage μ) :
    initSpawn s = { s with
      blocks := s.blocks ++ spawnBlocksFrom s.defaultBlockMetadata s.blockId
        (spawnPositions s.blockCounts.x.toNat s.blockCounts.y.toNat)
      blockId := s.blockId + s.blockCounts.x.toNat * s.blockCounts.y.toNat } := by
  unfold initSpawn spawnPositions
  rw [initSpawn_outer]
  simp [List.length_range]

/-! ### Facts about the spawned blocks -/

theorem spawnBlocksFrom_map_position (dm : μ) : ∀ (qs : List (Vec ℤ)) (i : ℕ),
    (spawnBlocksFrom dm i qs).map (fun b => b.position) = qs := by
  intro qs
  induction qs with
  | nil => intro i; rfl
  | cons q qs ih => intro i; simp [spawnBlocksFrom, spawnMk, ih]

theorem spawnBlocksFrom_ids (dm : μ) : ∀ (qs : List (Vec ℤ)) (i : ℕ),
    ∀ b ∈ spawnBlocksFrom dm i qs, i ≤ b.id ∧ b.id < i + qs.length := by
  intro qs
  induction qs with
  | nil => intro i b hb; cases hb
  | cons q qs ih =>
    intro i b hb
    rcases List.mem_cons.mp hb with rfl | hb
    · simp only [spawnMk, List.length_cons]
      omega
    · have := ih (i + 1) b hb
      simp only [List.length_cons]
      omega

theorem exists_spawn_position_iff (dm : μ) (qs : List (Vec ℤ)) (i : ℕ) (q : Vec ℤ) :
    (∃ b ∈ spawnBlocksFrom dm i qs, b.position = q) ↔ q ∈ qs := by
  rw [show (q ∈ qs) = (q ∈ (spawnBlocksFrom dm i qs).map (fun b => b.position)) by
    rw [spawnBlocksFrom_map_position]]
  rw [List.mem_map]

theorem mem_spawnPositions (cx cy : ℕ) (q : Vec ℤ) :
    q ∈ spawnPositions cx cy ↔ (0 ≤ q.x ∧ q.x < cx ∧ 0 ≤ q.y ∧ q.y < cy) := by
  unfold spawnPositions
  rw [List.mem_flatten]
  constructor
  · rintro ⟨l, hl, hql⟩
    rw [List.mem_map] at hl
    obtain ⟨row, hrow, rfl⟩ := hl
    rw [List.mem_range] at hrow
    rw [List.mem_map] at hql
    obtain ⟨col, hcol, rfl⟩ := hql
    rw [List.mem_range] at hcol
    refine ⟨Int.ofNat_nonneg col, ?_, Int.ofNat_nonneg row, ?_⟩
    · show (col : ℤ) < (cx : ℤ)
      exact_mod_cast hcol
    · show (row : ℤ) < (cy : ℤ)
      exact_mod_cast hrow
  · rintro ⟨h1, h2, h3, h4⟩
    refine ⟨(List.range cx).map (fun (col : ℕ) => (⟨(col : ℤ), (q.y.toNat : ℤ)⟩ : Vec ℤ)),
      ?_, ?_⟩
    · rw [List.mem_map]
      refine ⟨q.y.toNat, ?_, ?_⟩
      · rw [List.mem_range]; omega
      · rfl
    · rw [List.mem_map]
      refine ⟨q.x.toNat, ?_, ?_⟩
      · rw [List.mem_range]; omega
      · have ex : ((q.x.toNat : ℤ)) = q.x := Int.toNat_of_nonneg h1
        have ey : ((q.y.toNat : ℤ)) = q.y := Int.toNat_of_nonneg h3
        rw [show ((⟨(q.x.toNat : ℤ), (q.y.toNat : ℤ)⟩ : Vec ℤ)) = ⟨q.x, q.y⟩ by rw [ex, ey]]

theorem spawnPositions_succ (cx cy : ℕ) :
    spawnPositions cx (cy + 1) = spawnPositions cx cy ++
      (List.range cx).map (fun (col : ℕ) => (⟨(col : ℤ), (cy : ℤ)⟩ : Vec ℤ)) := by
  unfold spawnPositions
  rw [List.range_succ]
  simp

theorem spawnPositions_nodup (cx : ℕ) : ∀ (cy : ℕ), (spawnPositions cx cy).Nodup := by
  intro cy
  induction cy with
  | zero => simp [spawnPositions]
  | succ cy ih =>
    rw [spawnPositions_succ]
    apply List.Nodup.append ih
    · apply List.Nodup.map ?_ (List.nodup_range cx)
      intro p p' h
      have := congrArg Vec.x h
      simpa using this
    · intro q hq1 hq2
      rw [mem_spawnPositions] at hq1
      rw [List.mem_map] at hq2
      obtain ⟨col, _, rfl⟩ := hq2
      have h4 : (cy : ℤ) < (cy : ℤ) := hq1.2.2.2
      exact absurd h4 (lt_irrefl _)

theorem spawnBlocksFrom_nodup_positions (dm : μ) (qs : List (Vec ℤ)) (i : ℕ)
    (h : qs.Nodup) : ((spawnBlocksFrom dm i qs).map (fun b => b.position)).Nodup := by
  rw [spawnBlocksFrom_map_position]
  exact h

end Collage

namespace Collage

variable {μ : Type}

/-! ### `init` establishes the invariant -/

theorem spawnPositions_length (cx cy : ℕ) : (spawnPositions cx cy).length = cy * cx := by
  simp [spawnPositions, Function.comp_def]

theorem inRect_zero (cnt q : Vec ℤ) :
    inRect ⟨0, 0⟩ cnt q ↔ (0 ≤ q.x ∧ q.x < cnt.x ∧ 0 ≤ q.y ∧ q.y < cnt.y) := by
  simp only [inRect]
  omega

theorem initSpawn_rectInv (s : Collage μ) (hb : s.blocks = [])
    (hbo : s.blockOrigin = ⟨0, 0⟩) (hcx : 0 ≤ s.blockCounts.x)
    (hcy : 0 ≤ s.blockCounts.y) : RectInv (initSpawn s) := by
  rw [initSpawn_eq]
  have ecx : ((s.blockCounts.x.toNat : ℤ)) = s.blockCounts.x := Int.toNat_of_nonneg hcx
  have ecy : ((s.blockCounts.y.toNat : ℤ)) = s.blockCounts.y := Int.toNat_of_nonneg hcy
  constructor
  · intro q
    simp only [hb, List.nil_append, hbo]
    rw [exists_spawn_position_iff, mem_spawnPositions, inRect_zero, ecx, ecy]
  · simp only [hb, List.nil_append]
    exact spawnBlocksFrom_nodup_positions _ _ _ (spawnPositions_nodup _ _)

theorem initSpawn_ids (s : Collage μ) (hb : s.blocks = []) :
    ∀ b ∈ (initSpawn s).blocks, b.id < (initSpawn s).blockId := by
  rw [initSpawn_eq]
  simp only [hb, List.nil_append]
  intro b hbmem
  have h := (spawnBlocksFrom_ids s.defaultBlockMetadata _ s.blockId b hbmem).2
  rw [spawnPositions_length, Nat.mul_comm] at h
  exact h

theorem initSpawn_fields (s : Collage μ) :
    (initSpawn s).blockSize = s.blockSize ∧ (initSpawn s).viewportSize = s.viewportSize ∧
      (initSpawn s).blockOrigin = s.blockOrigin ∧ (initSpawn s).origin = s.origin ∧
      (initSpawn s).blockCounts = s.blockCounts ∧
      (initSpawn s).preloadDistance = s.preloadDistance := by
  rw [initSpawn_eq]
  exact ⟨rfl, rfl, rfl, rfl, rfl, rfl⟩

theorem init_core [DecidableEq μ] (s1 : Collage μ)
    (hb : s1.blocks = []) (hbo : s1.blockOrigin = ⟨0, 0⟩)
    (hcx : 0 ≤ s1.blockCounts.x) (hcy : 0 ≤ s1.blockCounts.y)
    (hbs : 0 < s1.blockSize) (hvx : 0 ≤ s1.viewportSize.x) (hvy : 0 ≤ s1.viewportSize.y)
    (hpre : 0 < s1.preloadDistance) :
    Inv (introduce (initSpawn s1)).1 ∧ Coverage (introduce (initSpawn s1)).1 ∧
      IntroExit (introduce (initSpawn s1)).1 ∧
      (introduce (initSpawn s1)).1.blockSize = s1.blockSize ∧
      (introduce (initSpawn s1)).1.viewportSize = s1.viewportSize ∧
      (introduce (initSpawn s1)).1.preloadDistance = s1.preloadDistance := by
  obtain ⟨hfbs, hfvs, hfbo, hfo, hfc, hfp⟩ := initSpawn_fields s1
  have hR2 : RectInv (initSpawn s1) := initSpawn_rectInv s1 hb hbo hcx hcy
  have hcx2 : 0 ≤ (initSpawn s1).blockCounts.x := by rw [hfc]; exact hcx
  have hcy2 : 0 ≤ (initSpawn s1).blockCounts.y := by rw [hfc]; exact hcy
  have hids2 : ∀ b ∈ (initSpawn s1).blocks, b.id < (initSpawn s1).blockId :=
    initSpawn_ids s1 hb
  have hbs2 : 0 < (initSpawn s1).blockSize := by rw [hfbs]; exact hbs
  have hvx2 : 0 ≤ (initSpawn s1).viewportSize.x := by rw [hfvs]; exact hvx
  have hvy2 : 0 ≤ (initSpawn s1).viewportSize.y := by rw [hfvs]; exact hvy
  have hpre2 : 0 < (initSpawn s1).preloadDistance := by rw [hfp]; exact hpre
  have hpack := introduce_pack (initSpawn s1) ⟨hR2, hcx2, hcy2, hids2⟩
  have hIE := introduce_exit (initSpawn s1) hbs2 hvx2 hvy2 hpre2 hcx2 hcy2
  have hbs3 : (introduce (initSpawn s1)).1.blockSize = s1.blockSize := by
    rw [introduce_blockSize, hfbs]
  have hvs3 : (introduce (initSpawn s1)).1.viewportSize = s1.viewportSize := by
    rw [introduce_viewportSize, hfvs]
  have hpre3 : (introduce (initSpawn s1)).1.preloadDistance = s1.preloadDistance := by
    rw [introduce_preloadDistance, hfp]
  have hJ := covA_of_introExit (introduce (initSpawn s1)).1 (by rw [hpre3]; exact hpre) hIE
  refine ⟨⟨hpack.1, hpack.2.1, hpack.2.2.1, by rw [hbs3]; exact hbs,
    by rw [hvs3]; exact hvx, by rw [hvs3]; exact hvy, by rw [hpre3]; exact hpre,
    hpack.2.2.2⟩, ?_, hIE, hbs3, hvs3, hpre3⟩
  exact coverage_of _ (by rw [hbs3]; exact hbs) hpack.1 hJ.1 hJ.2

theorem init_spec [DecidableEq μ] (s : Collage μ) (bs : ℚ) (vs : Vec ℚ)
    (hbs : 0 < bs) (hvx : 0 ≤ vs.x) (hvy : 0 ≤ vs.y) (hpre : 0 < s.preloadDistance) :
    Inv (init s bs vs).1 ∧ Coverage (init s bs vs).1 ∧ IntroExit (init s bs vs).1 ∧
      (init s bs vs).1.blockSize = bs ∧ (init s bs vs).1.viewportSize = vs ∧
      (init s bs vs).1.preloadDistance = s.preloadDistance := by
  have h := init_core (μ := μ)
    { s with
      blocks := []
      blockId := 0
      blockOrigin := ⟨0, 0⟩
      origin := ⟨0, 0⟩
      blockSize := bs
      viewportSize := vs
      blockCounts := ⟨Int.ceil (vs.x / bs), Int.ceil (vs.y / bs)⟩ }
    rfl rfl
    (Int.ceil_nonneg (div_nonneg hvx hbs.le))
    (Int.ceil_nonneg (div_nonneg hvy hbs.le))
    hbs hvx hvy hpre
  exact h

end Collage

namespace Collage

variable {μ : Type}

/-! ### The invariant is preserved by every public mutation -/

theorem inv_setOrigin_state (s : Collage μ) (p : Vec ℚ) (hI : Inv s) :
    Inv { s with origin := p } :=
  ⟨hI.rect, hI.cx, hI.cy, hI.bs, hI.vx, hI.vy, hI.pre, hI.ids⟩

theorem inv_setBlockSize_state (s : Collage μ) (sz : ℚ) (hsz : 0 < sz) (hI : Inv s) :
    Inv { s with blockSize := sz } :=
  ⟨hI.rect, hI.cx, hI.cy, hsz, hI.vx, hI.vy, hI.pre, hI.ids⟩

theorem applyOp_inv [DecidableEq μ] (s : Collage μ) (op : Op) (hI : Inv s)
    (hV : ValidOp op) : Inv (applyOp s op).1 := by
  cases op with
  | setOrigin p inhibit =>
    cases inhibit with
    | true => exact inv_setOrigin_state s p hI
    | false => exact (checkBounds_spec _ (inv_setOrigin_state s p hI)).1
  | shiftOrigin d inhibit =>
    cases inhibit with
    | true => exact inv_setOrigin_state s _ hI
    | false => exact (checkBounds_spec _ (inv_setOrigin_state s _ hI)).1
  | setBlockSize sz inhibit =>
    cases inhibit with
    | true => exact inv_setBlockSize_state s sz hV hI
    | false => exact (checkBounds_spec _ (inv_setBlockSize_state s sz hV hI)).1

theorem runOps_inv [DecidableEq μ] : ∀ (ops : List Op) (s : Collage μ), Inv s →
    (∀ op ∈ ops, ValidOp op) → Inv (runOps s ops) := by
  intro ops
  induction ops with
  | nil => intro s hI _; exact hI
  | cons op ops ih =>
    intro s hI hV
    have e : runOps s (op :: ops) = runOps (applyOp s op).1 ops := rfl
    rw [e]
    exact ih _ (applyOp_inv s op hI (hV op (List.mem_cons_self op ops)))
      (fun o ho => hV o (List.mem_cons_of_mem op ho))

theorem runOps_append_single [DecidableEq μ] (s : Collage μ) (ops : List Op) (op : Op) :
    runOps s (ops ++ [op]) = (applyOp (runOps s ops) op).1 := by
  unfold runOps
  rw [List.foldl_append]
  rfl

theorem applyOp_coverage [DecidableEq μ] (s : Collage μ) (op : Op) (hI : Inv s)
    (hV : ValidOp op) (hc : opChecksBounds op = true) : Coverage (applyOp s op).1 := by
  cases op with
  | setOrigin p inhibit =>
    cases inhibit with
    | true => simp [opChecksBounds] at hc
    | false => exact (checkBounds_spec _ (inv_setOrigin_state s p hI)).2.1
  | shiftOrigin d inhibit =>
    cases inhibit with
    | true => simp [opChecksBounds] at hc
    | false => exact (checkBounds_spec _ (inv_setOrigin_state s _ hI)).2.1
  | setBlockSize sz inhibit =>
    cases inhibit with
    | true => simp [opChecksBounds] at hc
    | false => exact (checkBounds_spec _ (inv_setBlockSize_state s sz hV hI)).2.1

end Collage

namespace Collage

variable {μ : Type}

/-! ### Origin tracking through the bounds check -/

theorem checkBounds_origin [DecidableEq μ] (s : Collage μ) :
    (checkBounds s).1.origin = s.origin := by
  rw [checkBounds_fst, remove_origin, introduce_origin]

theorem setOrigin_false_origin [DecidableEq μ] (s : Collage μ) (p : Vec ℚ) :
    (setOrigin s p false).1.origin = p := by
  unfold setOrigin
  rw [if_neg Bool.false_ne_true]
  exact checkBounds_origin _

theorem shiftOrigin_false_origin [DecidableEq μ] (s : Collage μ) (d : Vec ℚ) :
    (shiftOrigin s d false).1.origin = Helpers.add s.origin d := by
  unfold shiftOrigin
  exact setOrigin_false_origin _ _

end Collage

namespace Downloader

/-! ### The refill loop under a supplier that never delivers -/

theorem refillLoop_none (supplier : ℕ → List PreviewItem)
    (hsup : ∀ n, supplier n = []) :
    ∀ (fuel need k : ℕ) (pool : List PreviewItem), pool.length < need →
      refillLoop supplier fuel need k pool = none := by
  intro fuel
  induction fuel with
  | zero => intro need k pool h; simp [refillLoop, h]
  | succ f ih =>
    intro need k pool h
    rw [refillLoop, if_pos h, hsup, List.append_nil]
    exact ih need (k + 1) pool h

theorem assignBlocks_starved (supplier : ℕ → List PreviewItem)
    (blocks : List (Block BasicBlockMetadata)) (pool : List PreviewItem) (k fuel : ℕ)
    (hsup : ∀ n, supplier n = []) (hne : blocks ≠ [])
    (hpool : pool.length < blocks.length) :
    assignBlocks supplier fuel blocks pool k = none := by
  unfold assignBlocks
  rw [if_neg (fun h => hne (List.length_eq_zero.mp h))]
  rw [refillLoop_none supplier hsup fuel blocks.length k pool hpool]

/-! ### Per-index independence of the download batch -/

theorem downloadBatch_get : ∀ (outcomes : List FetchOutcome)
    (blocks : List (Block BasicBlockMetadata)) (i : ℕ) (o : FetchOutcome)
    (bb : Block BasicBlockMetadata), outcomes[i]? = some o → blocks[i]? = some bb →
    (downloadBatch outcomes blocks)[i]? = some (downloadImage o bb) := by
  intro outcomes
  induction outcomes with
  | nil => intro blocks i o bb ho _; simp at ho
  | cons oc ocs ih =>
    intro blocks i o bb ho hb
    cases blocks with
    | nil => simp at hb
    | cons b bs =>
      cases i with
      | zero =>
        simp at ho hb
        simp [downloadBatch, ho, hb]
      | succ j =>
        simp at ho hb
        simpa [downloadBatch] using ih bs j o bb ho hb

end Downloader


namespace Collage

variable {μ : Type}

/-! ### Per-axis views of the exit predicates -/

theorem introExit_end (t : Collage μ) (h : IntroExit t) (a : Axis) :
    ¬ condIntroEnd t a := by
  cases a
  · exact h.1
  · exact h.2.2.1

theorem introExit_start (t : Collage μ) (h : IntroExit t) (a : Axis) :
    ¬ condIntroStart t a := by
  cases a
  · exact h.2.1
  · exact h.2.2.2

theorem remExit_end (t : Collage μ) (h : RemExit t) (a : Axis) :
    ¬ condRemEnd t a := by
  cases a
  · exact h.1
  · exact h.2.2.1

theorem remExit_start (t : Collage μ) (h : RemExit t) (a : Axis) :
    ¬ condRemStart t a := by
  cases a
  · exact h.2.1
  · exact h.2.2.2

/-! ### A full bounds check parks each edge in its stability window -/

theorem removeBody_stableEnd (a : Axis) (t : Collage μ) (acc : List (Block μ))
    (h : StableEnd t a) : StableEnd (removeBody t acc).1 a := by
  unfold StableEnd at h ⊢
  unfold condIntroEnd at h ⊢
  rw [removeBody_edgeA, removeBody_blockSize, removeBody_viewportSize,
    removeBody_preloadDistance]
  by_cases hc : condRemEnd t a
  · rw [if_pos hc]
    unfold condRemEnd at hc
    right
    linarith
  · rw [if_neg hc]
    exact h

theorem removeBody_stableStart (a : Axis) (t : Collage μ) (acc : List (Block μ))
    (h : StableStart t a) : StableStart (removeBody t acc).1 a := by
  unfold StableStart at h ⊢
  unfold condIntroStart at h ⊢
  rw [removeBody_gpoA, removeBody_blockSize, removeBody_preloadDistance]
  by_cases hc : condRemStart t a
  · rw [if_pos hc]
    unfold condRemStart at hc
    right
    linarith
  · rw [if_neg hc]
    exact h

theorem checkBounds_stable [DecidableEq μ] (s : Collage μ) (hI : Inv s) (a : Axis) :
    StableEnd (checkBounds s).1 a ∧ StableStart (checkBounds s).1 a := by
  have hIE := introduce_exit s hI.bs hI.vx hI.vy hI.pre hI.cx hI.cy
  rw [checkBounds_fst]
  constructor
  · refine removeLoop_pres (fun t => StableEnd t a) ?_ _ _ [] ?_
    · intro t acc ht
      exact removeBody_stableEnd a t acc ht
    · exact Or.inl (introExit_end _ hIE a)
  · refine removeLoop_pres (fun t => StableStart t a) ?_ _ _ [] ?_
    · intro t acc ht
      exact removeBody_stableStart a t acc ht
    · exact Or.inl (introExit_start _ hIE a)

end Collage


namespace Collage

variable {μ : Type}

/-! ### Through both loops, each edge moves on the one-block lattice of its
entry position, and only when the matching introduce test fired -/

theorem introduceLoop_lattice_end (u : Collage μ) (a : Axis) :
    ∀ (fuel : ℕ) (s0 : Collage μ) (acc : List (Block μ)),
      (s0.blockSize = u.blockSize ∧ s0.viewportSize = u.viewportSize ∧
        s0.preloadDistance = u.preloadDistance ∧
        ∃ k : ℕ, edgeA s0 a = edgeA u a + k * u.blockSize ∧
          (¬ condIntroEnd u a → k = 0)) →
      ((introduceLoop fuel s0 acc).1.blockSize = u.blockSize ∧
        (introduceLoop fuel s0 acc).1.viewportSize = u.viewportSize ∧
        (introduceLoop fuel s0 acc).1.preloadDistance = u.preloadDistance ∧
        ∃ k : ℕ, edgeA (introduceLoop fuel s0 acc).1 a = edgeA u a + k * u.blockSize ∧
          (¬ condIntroEnd u a → k = 0)) := by
  intro fuel s0 acc h0
  refine introduceLoop_pres (fun t => t.blockSize = u.blockSize ∧
    t.viewportSize = u.viewportSize ∧ t.preloadDistance = u.preloadDistance ∧
    ∃ k : ℕ, edgeA t a = edgeA u a + k * u.blockSize ∧
      (¬ condIntroEnd u a → k = 0)) ?_ fuel s0 acc h0
  intro t acc2 ht
  obtain ⟨hbs, hvs, hpre, k, hk, hk0⟩ := ht
  refine ⟨?_, ?_, ?_, ?_⟩
  · show (introduceBody t acc2).1.blockSize = u.blockSize
    rw [introduceBody_blockSize]; exact hbs
  · show (introduceBody t acc2).1.viewportSize = u.viewportSize
    rw [introduceBody_viewportSize]; exact hvs
  · show (introduceBody t acc2).1.preloadDistance = u.preloadDistance
    rw [introduceBody_preloadDistance]; exact hpre
  · show ∃ k : ℕ, edgeA (introduceBody t acc2).1 a = edgeA u a + k * u.blockSize ∧
      (¬ condIntroEnd u a → k = 0)
    rw [introduceBody_edgeA]
    by_cases hc : condIntroEnd t a
    · rw [if_pos hc]
      refine ⟨k + 1, ?_, ?_⟩
      · rw [hk, hbs]; push_cast; ring
      · intro hnc
        exfalso
        have hk0' := hk0 hnc
        subst hk0'
        unfold condIntroEnd at hc hnc
        rw [hvs, hpre] at hc
        push_neg at hnc
        simp at hk
        linarith
    · rw [if_neg hc]
      exact ⟨k, hk, hk0⟩

theorem introduceLoop_lattice_start (u : Collage μ) (a : Axis) :
    ∀ (fuel : ℕ) (s0 : Collage μ) (acc : List (Block μ)),
      (s0.blockSize = u.blockSize ∧ s0.preloadDistance = u.preloadDistance ∧
        ∃ k : ℕ, gpoA s0 a = gpoA u a - k * u.blockSize ∧
          (¬ condIntroStart u a → k = 0)) →
      ((introduceLoop fuel s0 acc).1.blockSize = u.blockSize ∧
        (introduceLoop fuel s0 acc).1.preloadDistance = u.preloadDistance ∧
        ∃ k : ℕ, gpoA (introduceLoop fuel s0 acc).1 a = gpoA u a - k * u.blockSize ∧
          (¬ condIntroStart u a → k = 0)) := by
  intro fuel s0 acc h0
  refine introduceLoop_pres (fun t => t.blockSize = u.blockSize ∧
    t.preloadDistance = u.preloadDistance ∧
    ∃ k : ℕ, gpoA t a = gpoA u a - k * u.blockSize ∧
      (¬ condIntroStart u a → k = 0)) ?_ fuel s0 acc h0
  intro t acc2 ht
  obtain ⟨hbs, hpre, k, hk, hk0⟩ := ht
  refine ⟨?_, ?_, ?_⟩
  · show (introduceBody t acc2).1.blockSize = u.blockSize
    rw [introduceBody_blockSize]; exact hbs
  · show (introduceBody t acc2).1.preloadDistance = u.preloadDistance
    rw [introduceBody_preloadDistance]; exact hpre
  · show ∃ k : ℕ, gpoA (introduceBody t acc2).1 a = gpoA u a - k * u.blockSize ∧
      (¬ condIntroStart u a → k = 0)
    rw [introduceBody_gpoA]
    by_cases hc : condIntroStart t a
    · rw [if_pos hc]
      refine ⟨k + 1, ?_, ?_⟩
      · rw [hk, hbs]; push_cast; ring
      · intro hnc
        exfalso
        have hk0' := hk0 hnc
        subst hk0'
        unfold condIntroStart at hc hnc
        rw [hpre] at hc
        push_neg at hnc
        simp at hk
        linarith
    · rw [if_neg hc]
      exact ⟨k, hk, hk0⟩

theorem removeLoop_lattice_end (u : Collage μ) (a : Axis)
    (hre : ¬ condRemEnd u a) :
    ∀ (fuel : ℕ) (s0 : Collage μ) (acc : List (Block μ)),
      (s0.blockSize = u.blockSize ∧ s0.viewportSize = u.viewportSize ∧
        ∃ k : ℕ, edgeA s0 a = edgeA u a + k * u.blockSize ∧
          (¬ condIntroEnd u a → k = 0)) →
      ((removeLoop fuel s0 acc).1.blockSize = u.blockSize ∧
        (removeLoop fuel s0 acc).1.viewportSize = u.viewportSize ∧
        ∃ k : ℕ, edgeA (removeLoop fuel s0 acc).1 a = edgeA u a + k * u.blockSize ∧
          (¬ condIntroEnd u a → k = 0)) := by
  intro fuel s0 acc h0
  refine removeLoop_pres (fun t => t.blockSize = u.blockSize ∧
    t.viewportSize = u.viewportSize ∧
    ∃ k : ℕ, edgeA t a = edgeA u a + k * u.blockSize ∧
      (¬ condIntroEnd u a → k = 0)) ?_ fuel s0 acc h0
  intro t acc2 ht
  obtain ⟨hbs, hvs, k, hk, hk0⟩ := ht
  refine ⟨?_, ?_, ?_⟩
  · show (removeBody t acc2).1.blockSize = u.blockSize
    rw [removeBody_blockSize]; exact hbs
  · show (removeBody t acc2).1.viewportSize = u.viewportSize
    rw [removeBody_viewportSize]; exact hvs
  · show ∃ k : ℕ, edgeA (removeBody t acc2).1 a = edgeA u a + k * u.blockSize ∧
      (¬ condIntroEnd u a → k = 0)
    rw [removeBody_edgeA]
    by_cases hc : condRemEnd t a
    · rw [if_pos hc]
      unfold condRemEnd at hc hre
      rw [hvs, hbs] at hc
      push_neg at hre
      cases k with
      | zero =>
        exfalso
        simp at hk
        linarith
      | succ j =>
        refine ⟨j, ?_, ?_⟩
        · rw [hk, hbs]; push_cast; ring
        · intro hnc
          exact absurd (hk0 hnc) (Nat.succ_ne_zero j)
    · rw [if_neg hc]
      exact ⟨k, hk, hk0⟩

theorem removeLoop_lattice_start (u : Collage μ) (a : Axis)
    (hrs : ¬ condRemStart u a) :
    ∀ (fuel : ℕ) (s0 : Collage μ) (acc : List (Block μ)),
      (s0.blockSize = u.blockSize ∧
        ∃ k : ℕ, gpoA s0 a = gpoA u a - k * u.blockSize ∧
          (¬ condIntroStart u a → k = 0)) →
      ((removeLoop fuel s0 acc).1.blockSize = u.blockSize ∧
        ∃ k : ℕ, gpoA (removeLoop fuel s0 acc).1 a = gpoA u a - k * u.blockSize ∧
          (¬ condIntroStart u a → k = 0)) := by
  intro fuel s0 acc h0
  refine removeLoop_pres (fun t => t.blockSize = u.blockSize ∧
    ∃ k : ℕ, gpoA t a = gpoA u a - k * u.blockSize ∧
      (¬ condIntroStart u a → k = 0)) ?_ fuel s0 acc h0
  intro t acc2 ht
  obtain ⟨hbs, k, hk, hk0⟩ := ht
  refine ⟨?_, ?_⟩
  · show (removeBody t acc2).1.blockSize = u.blockSize
    rw [removeBody_blockSize]; exact hbs
  · show ∃ k : ℕ, gpoA (removeBody t acc2).1 a = gpoA u a - k * u.blockSize ∧
      (¬ condIntroStart u a → k = 0)
    rw [removeBody_gpoA]
    by_cases hc : condRemStart t a
    · rw [if_pos hc]
      unfold condRemStart at hc hrs
      rw [hbs] at hc
      push_neg at hrs
      cases k with
      | zero =>
        exfalso
        simp at hk
        linarith
      | succ j =>
        refine ⟨j, ?_, ?_⟩
        · rw [hk, hbs]; push_cast; ring
        · intro hnc
          exact absurd (hk0 hnc) (Nat.succ_ne_zero j)
    · rw [if_neg hc]
      exact ⟨k, hk, hk0⟩

end Collage


namespace Collage

variable {μ : Type}

/-! ### A bounds check on a stable state returns to exactly the same
rectangle -/

theorem second_pass_edge (u : Collage μ) (hbs : 0 < u.blockSize) (a : Axis)
    (hre : ¬ condRemEnd u a) (hse : StableEnd u a)
    (hREw : ¬ condRemEnd (remove (introduce u).1).1 a) :
    edgeA (remove (introduce u).1).1 a = edgeA u a := by
  have h1 := introduceLoop_lattice_end u a (introduceFuel u) u []
    ⟨rfl, rfl, rfl, 0, by simp, fun _ => rfl⟩
  have h2 := removeLoop_lattice_end u a hre (removeFuel (introduce u).1)
    (introduce u).1 [] ⟨h1.1, h1.2.1, h1.2.2.2⟩
  obtain ⟨hbsw, hvsw, k, hk, hk0⟩ := h2
  cases k with
  | zero => simpa using hk
  | succ j =>
    exfalso
    have hcu : condIntroEnd u a := by
      by_contra hnc
      exact Nat.succ_ne_zero j (hk0 hnc)
    rcases hse with h | h
    · exact h hcu
    · apply hREw
      have hbsw2 : (remove (introduce u).1).1.blockSize = u.blockSize := hbsw
      have hvsw2 : (remove (introduce u).1).1.viewportSize = u.viewportSize := hvsw
      have hk2 : edgeA (remove (introduce u).1).1 a =
          edgeA u a + ((j + 1 : ℕ) : ℚ) * u.blockSize := hk
      unfold condRemEnd
      rw [hbsw2, hvsw2, hk2]
      have hj : (0 : ℚ) ≤ (j : ℚ) * u.blockSize :=
        mul_nonneg (Nat.cast_nonneg j) hbs.le
      push_cast
      linarith

theorem second_pass_gpo (u : Collage μ) (hbs : 0 < u.blockSize) (a : Axis)
    (hrs : ¬ condRemStart u a) (hss : StableStart u a)
    (hREw : ¬ condRemStart (remove (introduce u).1).1 a) :
    gpoA (remove (introduce u).1).1 a = gpoA u a := by
  have h1 := introduceLoop_lattice_start u a (introduceFuel u) u []
    ⟨rfl, rfl, 0, by simp, fun _ => rfl⟩
  have h2 := removeLoop_lattice_start u a hrs (removeFuel (introduce u).1)
    (introduce u).1 [] ⟨h1.1, h1.2.2⟩
  obtain ⟨hbsw, k, hk, hk0⟩ := h2
  cases k with
  | zero => simpa using hk
  | succ j =>
    exfalso
    have hcu : condIntroStart u a := by
      by_contra hnc
      exact Nat.succ_ne_zero j (hk0 hnc)
    rcases hss with h | h
    · exact h hcu
    · apply hREw
      have hbsw2 : (remove (introduce u).1).1.blockSize = u.blockSize := hbsw
      have hk2 : gpoA (remove (introduce u).1).1 a =
          gpoA u a - ((j + 1 : ℕ) : ℚ) * u.blockSize := hk
      unfold condRemStart
      rw [hbsw2, hk2]
      have hj : (0 : ℚ) ≤ (j : ℚ) * u.blockSize :=
        mul_nonneg (Nat.cast_nonneg j) hbs.le
      push_cast
      linarith

theorem second_pass_rect (u : Collage μ) (hI : Inv u) (hRE : RemExit u)
    (hst : ∀ a, StableEnd u a ∧ StableStart u a) :
    (remove (introduce u).1).1.blockOrigin = u.blockOrigin ∧
      (remove (introduce u).1).1.blockCounts = u.blockCounts := by
  have hIE := introduce_exit u hI.bs hI.vx hI.vy hI.pre hI.cx hI.cy
  have hpack := introduce_pack u ⟨hI.rect, hI.cx, hI.cy, hI.ids⟩
  have hbs1 : (introduce u).1.blockSize = u.blockSize := introduce_blockSize u
  have hJ := covA_of_introExit (introduce u).1
    (by rw [introduce_preloadDistance]; exact hI.pre) hIE
  have hREw : RemExit (remove (introduce u).1).1 :=
    remove_exit (introduce u).1 (by rw [hbs1]; exact hI.bs)
      (by rw [introduce_viewportSize]; exact hI.vx)
      (by rw [introduce_viewportSize]; exact hI.vy) hpack.1 hJ.1 hJ.2
  have hedge : ∀ a, edgeA (remove (introduce u).1).1 a = edgeA u a := fun a =>
    second_pass_edge u hI.bs a (remExit_end u hRE a) (hst a).1 (remExit_end _ hREw a)
  have hgpo : ∀ a, gpoA (remove (introduce u).1).1 a = gpoA u a := fun a =>
    second_pass_gpo u hI.bs a (remExit_start u hRE a) (hst a).2 (remExit_start _ hREw a)
  have horig : (remove (introduce u).1).1.origin = u.origin := by
    rw [remove_origin, introduce_origin]
  have hbsw : (remove (introduce u).1).1.blockSize = u.blockSize := by
    rw [remove_blockSize, hbs1]
  have hbo : ∀ a, (remove (introduce u).1).1.blockOrigin.get a =
      u.blockOrigin.get a := by
    intro a
    have h := hgpo a
    unfold gpoA at h
    rw [horig, hbsw] at h
    have h2 : (((remove (introduce u).1).1.blockOrigin.get a : ℚ)) * u.blockSize
        = ((u.blockOrigin.get a : ℚ)) * u.blockSize := by linarith
    exact_mod_cast mul_right_cancel₀ (ne_of_gt hI.bs) h2
  have hcnt : ∀ a, (remove (introduce u).1).1.blockCounts.get a =
      u.blockCounts.get a := by
    intro a
    have h := hedge a
    unfold edgeA szA at h
    rw [hgpo a, hbsw] at h
    have h2 : (((remove (introduce u).1).1.blockCounts.get a : ℚ)) * u.blockSize
        = ((u.blockCounts.get a : ℚ)) * u.blockSize := by linarith
    exact_mod_cast mul_right_cancel₀ (ne_of_gt hI.bs) h2
  exact ⟨Vec.ext_get _ _ .x (hbo .x) (hbo .y), Vec.ext_get _ _ .x (hcnt .x) (hcnt .y)⟩

end Collage


namespace Collage

variable {μ : Type}

/-! ### Ids of freshly introduced blocks sit at or above the entry counter -/

theorem extendBlocks_ids_ge (s : Collage μ) (a : Axis) (sd : Side) :
    ∀ b ∈ extendBlocks s a sd, s.blockId ≤ b.id := by
  intro b hb
  rw [extendBlocks, List.mem_map] at hb
  obtain ⟨p, hp, rfl⟩ := hb
  show s.blockId ≤ s.blockId + p
  omega

theorem introStep_ids_ge (c : Prop) [Decidable c] (a : Axis) (sd : Side)
    (r : Collage μ × List (Block μ)) (n : ℕ)
    (h1 : n ≤ r.1.blockId) (h2 : ∀ b ∈ r.2, n ≤ b.id) :
    n ≤ (introStep c a sd r).1.blockId ∧
      ∀ b ∈ (introStep c a sd r).2, n ≤ b.id := by
  constructor
  · rw [introStep_fst]
    split
    · rw [extend_blockId]
      omega
    · exact h1
  · rw [introStep_snd]
    split
    · intro b hb
      rcases List.mem_append.mp hb with hb | hb
      · exact h2 b hb
      · rw [extend_snd] at hb
        exact le_trans h1 (extendBlocks_ids_ge r.1 a sd b hb)
    · exact h2

theorem introduceBody_ids_ge (s : Collage μ) (acc : List (Block μ)) (n : ℕ)
    (h1 : n ≤ s.blockId) (h2 : ∀ b ∈ acc, n ≤ b.id) :
    n ≤ (introduceBody s acc).1.blockId ∧
      ∀ b ∈ (introduceBody s acc).2, n ≤ b.id := by
  rw [introduceBody_eq]
  have k1 := introStep_ids_ge (condIntroEnd s .x) .x .end_ (s, acc) n h1 h2
  have k2 := introStep_ids_ge (condIntroStart s .x) .x .start _ n k1.1 k1.2
  have k3 := introStep_ids_ge (condIntroEnd s .y) .y .end_ _ n k2.1 k2.2
  exact introStep_ids_ge (condIntroStart s .y) .y .start _ n k3.1 k3.2

theorem introduceLoop_ids_ge : ∀ (fuel : ℕ) (s : Collage μ) (acc : List (Block μ))
    (n : ℕ), n ≤ s.blockId → (∀ b ∈ acc, n ≤ b.id) →
    ∀ b ∈ (introduceLoop fuel s acc).2, n ≤ b.id := by
  intro fuel
  induction fuel with
  | zero => intro s acc n _ h2; exact h2
  | succ f ih =>
    intro s acc n h1 h2
    rw [introduceLoop]
    split
    · exact (introduceBody_ids_ge s acc n h1 h2).2
    · exact ih _ _ n (introduceBody_ids_ge s acc n h1 h2).1
        (introduceBody_ids_ge s acc n h1 h2).2

theorem introduce_snd_ids_ge (s : Collage μ) :
    ∀ b ∈ (introduce s).2, s.blockId ≤ b.id := by
  intro b hb
  exact introduceLoop_ids_ge (introduceFuel s) s [] s.blockId le_rfl
    (by intro x hx; cases hx) b hb

/-! ### The shrink pass conserves blocks: each entry block is kept or
collected, the collected ones come from the entry blocks, and no collected
block survives -/

theorem shrink_mem_or (s : Collage μ) (a : Axis) (sd : Side) (b : Block μ)
    (hb : b ∈ s.blocks) : b ∈ (shrink s a sd).1.blocks ∨ b ∈ (shrink s a sd).2 := by
  rw [shrink_blocks_eq, shrink_snd]
  by_cases hq : b.position.get a = shrinkIndex s a sd
  · right
    rw [List.mem_filter]
    exact ⟨hb, by simpa using hq⟩
  · left
    rw [List.mem_filter]
    exact ⟨hb, by simpa using hq⟩

theorem shrink_snd_subset (s : Collage μ) (a : Axis) (sd : Side) :
    ∀ b ∈ (shrink s a sd).2, b ∈ s.blocks := by
  rw [shrink_snd]
  intro b hb
  exact (List.mem_filter.mp hb).1

theorem shrink_snd_not_kept (s : Collage μ) (a : Axis) (sd : Side) :
    ∀ b ∈ (shrink s a sd).2, b ∉ (shrink s a sd).1.blocks := by
  rw [shrink_snd, shrink_blocks_eq]
  intro b hb hbk
  have h1 := (List.mem_filter.mp hb).2
  have h2 := (List.mem_filter.mp hbk).2
  simp at h1 h2
  exact h2 h1

theorem remStep_mem_or (c : Prop) [Decidable c] (a : Axis) (sd : Side)
    (r : Collage μ × List (Block μ)) (b : Block μ) (hb : b ∈ r.1.blocks) :
    b ∈ (remStep c a sd r).1.blocks ∨ b ∈ (remStep c a sd r).2 := by
  rw [remStep_fst, remStep_snd]
  split
  · rcases shrink_mem_or r.1 a sd b hb with h | h
    · exact Or.inl h
    · exact Or.inr (List.mem_append.mpr (Or.inr h))
  · exact Or.inl hb

theorem remStep_acc_mono (c : Prop) [Decidable c] (a : Axis) (sd : Side)
    (r : Collage μ × List (Block μ)) (b : Block μ) (hb : b ∈ r.2) :
    b ∈ (remStep c a sd r).2 := by
  rw [remStep_snd]
  split
  · exact List.mem_append.mpr (Or.inl hb)
  · exact hb

theorem remStep_snd_subset (c : Prop) [Decidable c] (a : Axis) (sd : Side)
    (r : Collage μ × List (Block μ)) (b : Block μ)
    (hb : b ∈ (remStep c a sd r).2) : b ∈ r.2 ∨ b ∈ r.1.blocks := by
  rw [remStep_snd] at hb
  revert hb
  split
  · intro hb
    rcases List.mem_append.mp hb with h | h
    · exact Or.inl h
    · exact Or.inr (shrink_snd_subset r.1 a sd b h)
  · intro hb
    exact Or.inl hb

theorem remStep_snd_not_kept (c : Prop) [Decidable c] (a : Axis) (sd : Side)
    (r : Collage μ × List (Block μ))
    (h : ∀ b ∈ r.2, b ∉ r.1.blocks) :
    ∀ b ∈ (remStep c a sd r).2, b ∉ (remStep c a sd r).1.blocks := by
  rw [remStep_fst, remStep_snd]
  split
  · intro b hb hbk
    rcases List.mem_append.mp hb with h1 | h1
    · exact h b h1 (shrink_blocks_subset r.1 a sd b hbk)
    · exact shrink_snd_not_kept r.1 a sd b h1 hbk
  · exact h

theorem removeBody_mem_or (s : Collage μ) (acc : List (Block μ)) (b : Block μ)
    (hb : b ∈ s.blocks) :
    b ∈ (removeBody s acc).1.blocks ∨ b ∈ (removeBody s acc).2 := by
  rw [removeBody_eq]
  rcases remStep_mem_or (condRemEnd s .y) .y .end_ (s, acc) b hb with h | h
  · rcases remStep_mem_or (condRemStart s .y) .y .start _ b h with h | h
    · rcases remStep_mem_or (condRemEnd s .x) .x .end_ _ b h with h | h
      · rcases remStep_mem_or (condRemStart s .x) .x .start _ b h with h | h
        · exact Or.inl h
        · exact Or.inr h
      · exact Or.inr (remStep_acc_mono _ _ _ _ b h)
    · exact Or.inr (remStep_acc_mono _ _ _ _ b (remStep_acc_mono _ _ _ _ b h))
  · exact Or.inr (remStep_acc_mono _ _ _ _ b
      (remStep_acc_mono _ _ _ _ b (remStep_acc_mono _ _ _ _ b h)))

theorem removeBody_acc_mono (s : Collage μ) (acc : List (Block μ)) (b : Block μ)
    (hb : b ∈ acc) : b ∈ (removeBody s acc).2 := by
  rw [removeBody_eq]
  exact remStep_acc_mono _ _ _ _ b (remStep_acc_mono _ _ _ _ b
    (remStep_acc_mono _ _ _ _ b (remStep_acc_mono _ _ _ _ b hb)))

theorem removeBody_snd_subset (s : Collage μ) (acc : List (Block μ)) (b : Block μ)
    (hb : b ∈ (removeBody s acc).2) : b ∈ acc ∨ b ∈ s.blocks := by
  rw [removeBody_eq] at hb
  rcases remStep_snd_subset _ _ _ _ b hb with h | h
  · rcases remStep_snd_subset _ _ _ _ b h with h | h
    · rcases remStep_snd_subset _ _ _ _ b h with h | h
      · rcases remStep_snd_subset _ _ _ _ b h with h | h
        · exact Or.inl h
        · exact Or.inr h
      · exact Or.inr (remStep_blocks_subset _ _ _ _ b h)
    · exact Or.inr (remStep_blocks_subset _ _ _ _ b
        (remStep_blocks_subset _ _ _ _ b h))
  · exact Or.inr (remStep_blocks_subset _ _ _ _ b (remStep_blocks_subset _ _ _ _ b
      (remStep_blocks_subset _ _ _ _ b h)))

theorem removeBody_snd_not_kept (s : Collage μ) (acc : List (Block μ))
    (h : ∀ b ∈ acc, b ∉ s.blocks) :
    ∀ b ∈ (removeBody s acc).2, b ∉ (removeBody s acc).1.blocks := by
  rw [removeBody_eq]
  refine remStep_snd_not_kept _ _ _ _ (remStep_snd_not_kept _ _ _ _
    (remStep_snd_not_kept _ _ _ _ (remStep_snd_not_kept _ _ _ _ h)))

theorem removeLoop_acc_mono : ∀ (fuel : ℕ) (s : Collage μ) (acc : List (Block μ))
    (b : Block μ), b ∈ acc → b ∈ (removeLoop fuel s acc).2 := by
  intro fuel
  induction fuel with
  | zero => intro s acc b hb; exact hb
  | succ f ih =>
    intro s acc b hb
    rw [removeLoop]
    split
    · exact removeBody_acc_mono s acc b hb
    · exact ih _ _ b (removeBody_acc_mono s acc b hb)

theorem removeLoop_mem_or : ∀ (fuel : ℕ) (s : Collage μ) (acc : List (Block μ))
    (b : Block μ), b ∈ s.blocks →
    b ∈ (removeLoop fuel s acc).1.blocks ∨ b ∈ (removeLoop fuel s acc).2 := by
  intro fuel
  induction fuel with
  | zero => intro s acc b hb; exact Or.inl hb
  | succ f ih =>
    intro s acc b hb
    rw [removeLoop]
    split
    · exact removeBody_mem_or s acc b hb
    · rcases removeBody_mem_or s acc b hb with h | h
      · exact ih _ _ b h
      · exact Or.inr (removeLoop_acc_mono f _ _ b h)

theorem removeLoop_snd_subset : ∀ (fuel : ℕ) (s : Collage μ) (acc : List (Block μ))
    (b : Block μ), b ∈ (removeLoop fuel s acc).2 → b ∈ acc ∨ b ∈ s.blocks := by
  intro fuel
  induction fuel with
  | zero => intro s acc b hb; exact Or.inl hb
  | succ f ih =>
    intro s acc b hb
    rw [removeLoop] at hb
    revert hb
    split
    · intro hb
      exact removeBody_snd_subset s acc b hb
    · intro hb
      rcases ih _ _ b hb with h | h
      · exact removeBody_snd_subset s acc b h
      · exact Or.inr (removeBody_blocks_subset s acc b h)

theorem removeLoop_snd_not_kept : ∀ (fuel : ℕ) (s : Collage μ)
    (acc : List (Block μ)), (∀ b ∈ acc, b ∉ s.blocks) →
    ∀ b ∈ (removeLoop fuel s acc).2, b ∉ (removeLoop fuel s acc).1.blocks := by
  intro fuel
  induction fuel with
  | zero => intro s acc h b hb; exact h b hb
  | succ f ih =>
    intro s acc h b hb
    rw [removeLoop] at hb ⊢
    revert hb
    split
    · intro hb
      exact removeBody_snd_not_kept s acc h b hb
    · intro hb
      exact ih _ _ (removeBody_snd_not_kept s acc h) b hb

theorem remove_mem_or (s : Collage μ) (b : Block μ) (hb : b ∈ s.blocks) :
    b ∈ (remove s).1.blocks ∨ b ∈ (remove s).2 :=
  removeLoop_mem_or _ s [] b hb

theorem remove_snd_subset (s : Collage μ) (b : Block μ) (hb : b ∈ (remove s).2) :
    b ∈ s.blocks := by
  rcases removeLoop_snd_subset _ s [] b hb with h | h
  · cases h
  · exact h

theorem remove_snd_not_kept (s : Collage μ) :
    ∀ b ∈ (remove s).2, b ∉ (remove s).1.blocks :=
  removeLoop_snd_not_kept _ s [] (by intro b hb; cases hb)

end Collage


namespace Collage

variable {μ : Type}

/-! ### On a stable state the bounds check adds exactly what it removes -/

theorem second_pass_added_eq_removed (u : Collage μ) (hI : Inv u)
    (hRE : RemExit u) (hst : ∀ a, StableEnd u a ∧ StableStart u a) :
    (∀ b ∈ (introduce u).2, b ∈ (remove (introduce u).1).2) ∧
      (∀ b ∈ (remove (introduce u).1).2, b ∈ (introduce u).2) := by
  have hpack := introduce_pack u ⟨hI.rect, hI.cx, hI.cy, hI.ids⟩
  have hrect := second_pass_rect u hI hRE hst
  have hvb : (introduce u).1.blocks = u.blocks ++ (introduce u).2 := introduce_blocks u
  have hRv : RectInv (introduce u).1 := hpack.1
  have hRw : RectInv (remove (introduce u).1).1 := remove_rectInv _ hpack.1
  constructor
  · intro a ha
    by_contra hna
    have hav : a ∈ (introduce u).1.blocks := by
      rw [hvb]; exact List.mem_append.mpr (Or.inr ha)
    rcases remove_mem_or (introduce u).1 a hav with haw | har
    · have hpos_w : inRect (remove (introduce u).1).1.blockOrigin
          (remove (introduce u).1).1.blockCounts a.position :=
        (hRw.1 a.position).1 ⟨a, haw, rfl⟩
      have hpos_u : inRect u.blockOrigin u.blockCounts a.position := by
        rw [← hrect.1, ← hrect.2]; exact hpos_w
      obtain ⟨b2, hb2u, hb2pos⟩ := (hI.rect.1 a.position).2 hpos_u
      have hb2v : b2 ∈ (introduce u).1.blocks := by
        rw [hvb]; exact List.mem_append.mpr (Or.inl hb2u)
      have heq : b2 = a := List.inj_on_of_nodup_map hRv.2 hb2v hav hb2pos
      have hid1 : b2.id < u.blockId := hI.ids b2 hb2u
      have hid2 : u.blockId ≤ a.id := introduce_snd_ids_ge u a ha
      rw [heq] at hid1
      omega
    · exact hna har
  · intro r hr
    have hrv : r ∈ (introduce u).1.blocks := remove_snd_subset _ r hr
    rw [hvb, List.mem_append] at hrv
    rcases hrv with hru | hra
    · exfalso
      have hpos_u : inRect u.blockOrigin u.blockCounts r.position :=
        (hI.rect.1 r.position).1 ⟨r, hru, rfl⟩
      have hpos_w : inRect (remove (introduce u).1).1.blockOrigin
          (remove (introduce u).1).1.blockCounts r.position := by
        rw [hrect.1, hrect.2]; exact hpos_u
      obtain ⟨b2, hb2w, hb2pos⟩ := (hRw.1 r.position).2 hpos_w
      have hb2v : b2 ∈ (introduce u).1.blocks := remove_blocks_subset _ b2 hb2w
      have hrv2 : r ∈ (introduce u).1.blocks := by
        rw [hvb]; exact List.mem_append.mpr (Or.inl hru)
      have heq : b2 = r := List.inj_on_of_nodup_map hRv.2 hb2v hrv2 hb2pos
      rw [heq] at hb2w
      exact remove_snd_not_kept _ r hr hb2w
    · exact hra

/-! ### Therefore a bounds check on a stable state emits nothing -/

theorem second_pass_no_events [DecidableEq μ] (u : Collage μ) (hI : Inv u)
    (hRE : RemExit u) (hst : ∀ a, StableEnd u a ∧ StableStart u a) :
    (checkBounds u).2 = [] := by
  obtain ⟨hAR, hRA⟩ := second_pass_added_eq_removed u hI hRE hst
  simp only [checkBounds]
  have hatr : (introduce u).2.filter
      (fun x => decide (x ∈ (remove (introduce u).1).2)) = (introduce u).2 :=
    List.filter_eq_self.mpr (fun a ha => decide_eq_true (hAR a ha))
  rw [hatr]
  by_cases hA : (introduce u).2 = []
  · have hR : (remove (introduce u).1).2 = [] := by
      rw [List.eq_nil_iff_forall_not_mem]
      intro r hr
      have := hRA r hr
      rw [hA] at this
      cases this
    rw [hA, hR]
    simp
  · have hlen : (introduce u).2.length > 0 := List.length_pos.mpr hA
    rw [if_pos hlen]
    have h1 : (introduce u).2.filter (fun b => decide (b ∉ (introduce u).2)) = [] := by
      rw [List.filter_eq_nil_iff]
      intro b hb
      simp [hb]
    have h2 : (remove (introduce u).1).2.filter
        (fun b => decide (b ∉ (introduce u).2)) = [] := by
      rw [List.filter_eq_nil_iff]
      intro b hb
      simp [hRA b hb]
    rw [h1, h2]
    simp

end Collage

/-! ## The claims -/

/-- C10: `divide` is total and guards its zero divisors: in each component a
zero divisor yields exactly `0`, and a nonzero divisor yields the exact
componentwise quotient (witnessed by multiplying back). -/
theorem C10_divide_total_guard (a b : Vec ℚ) :
    (b.x = 0 → (Helpers.divide a b).x = 0) ∧
    (b.x ≠ 0 → (Helpers.divide a b).x * b.x = a.x) ∧
    (b.y = 0 → (Helpers.divide a b).y = 0) ∧
    (b.y ≠ 0 → (Helpers.divide a b).y * b.y = a.y) := by
  refine ⟨fun h => ?_, fun h => ?_, fun h => ?_, fun h => ?_⟩
  · simp only [Helpers.divide, if_pos h]
  · simp only [Helpers.divide, if_neg h]
    exact div_mul_cancel₀ a.x h
  · simp only [Helpers.divide, if_pos h]
  · simp only [Helpers.divide, if_neg h]
    exact div_mul_cancel₀ a.y h

/-- C10 witness: the guarded quotient at the concrete vectors
`(6, 5) / (2, 0)`. -/
theorem C10_divide_total_guard_witness :
    ((2 : ℚ) ≠ 0) ∧ (Helpers.divide ⟨6, 5⟩ ⟨2, 0⟩).x * 2 = 6 ∧
      (Helpers.divide ⟨6, 5⟩ ⟨2, 0⟩).y = 0 :=
  ⟨by norm_num, (C10_divide_total_guard ⟨6, 5⟩ ⟨2, 0⟩).2.1 (by norm_num),
    (C10_divide_total_guard ⟨6, 5⟩ ⟨2, 0⟩).2.2.1 rfl⟩

/-- C8: with a URL present, `downloadImage` sets `Downloading` exactly when
its fetch starts, attaches the decoded image and sets `Ready` on success,
leaves the block `Downloading` on failure (never `Errored`, no retry), and
each batch entry depends only on its own outcome, so one failure cannot
change any other block. -/
theorem C8_download_lifecycle (b : Block Downloader.BasicBlockMetadata) (u : String)
    (hu : b.metadata.url = some u) :
    Downloader.downloadImageFetchRequest b =
        some (u, { b with state := .Downloading }) ∧
    (∀ img : ℕ, Downloader.downloadImage (.success img) b =
        { b with state := .Ready, sourceImage := some img }) ∧
    Downloader.downloadImage .failure b = { b with state := .Downloading } ∧
    (Downloader.downloadImage .failure b).state ≠ .Errored ∧
    (∀ (outcomes : List Downloader.FetchOutcome)
        (blocks : List (Block Downloader.BasicBlockMetadata)) (i : ℕ)
        (o : Downloader.FetchOutcome) (bb : Block Downloader.BasicBlockMetadata),
      outcomes[i]? = some o → blocks[i]? = some bb →
      (Downloader.downloadBatch outcomes blocks)[i]? =
        some (Downloader.downloadImage o bb)) := by
  refine ⟨?_, ?_, ?_, ?_, Downloader.downloadBatch_get⟩
  · simp [Downloader.downloadImageFetchRequest, hu]
  · intro img
    simp [Downloader.downloadImage, Downloader.downloadImageFetchRequest, hu,
      Downloader.downloadImageResume]
  · simp [Downloader.downloadImage, Downloader.downloadImageFetchRequest, hu,
      Downloader.downloadImageResume]
  · simp [Downloader.downloadImage, Downloader.downloadImageFetchRequest, hu,
      Downloader.downloadImageResume]

/-- C8 witness: the download lifecycle at the sample block. -/
theorem C8_download_lifecycle_witness :
    Downloader.sampleBlock.metadata.url = some Downloader.sampleUrl ∧
      Downloader.downloadImage (.success 7) Downloader.sampleBlock =
        { Downloader.sampleBlock with state := .Ready, sourceImage := some 7 } :=
  ⟨rfl,
    (C8_download_lifecycle Downloader.sampleBlock Downloader.sampleUrl rfl).2.1 7⟩

/-- C5 counterexample: with a supplier that always returns zero previews and
a five-block batch, `assignBlocks` never returns: no refill budget makes the
call terminate, so the claimed all-`Errored` return never happens. -/
theorem C5_counterexample_never_returns :
    ¬ Downloader.AssignTerminates (fun _ => []) Downloader.starvedBatch [] := by
  rintro ⟨fuel, r, h⟩
  rw [Downloader.assignBlocks_starved (fun _ => []) Downloader.starvedBatch [] 0 fuel
    (fun _ => rfl) (by with_unfolding_all decide) (by with_unfolding_all decide)] at h
  exact Option.noConfusion h

/-- C5 amended: when every refill returns zero entries and the pool starts
short of a non-empty batch, the refill loop of `assignBlocks` never exits:
the call diverges instead of returning, so no block is marked `Errored`, no
URL is assigned, and no fetch starts. -/
theorem C5_starved_pool_diverges (supplier : ℕ → List Downloader.PreviewItem)
    (blocks : List (Block Downloader.BasicBlockMetadata))
    (pool : List Downloader.PreviewItem) (k fuel : ℕ)
    (hsup : ∀ n, supplier n = []) (hne : blocks ≠ [])
    (hpool : pool.length < blocks.length) :
    Downloader.assignBlocks supplier fuel blocks pool k = none :=
  Downloader.assignBlocks_starved supplier blocks pool k fuel hsup hne hpool

/-- C5 witness: the starved five-block batch at refill budget 9. -/
theorem C5_starved_pool_diverges_witness :
    Downloader.starvedBatch ≠ [] ∧
      Downloader.assignBlocks (fun _ => []) 9 Downloader.starvedBatch [] 0 = none :=
  ⟨by with_unfolding_all decide,
    C5_starved_pool_diverges (fun _ => []) Downloader.starvedBatch [] 0 9
      (fun _ => rfl) (by with_unfolding_all decide) (by with_unfolding_all decide)⟩

/-- C6: a zoom to a level within `[minZoomLevel, maxZoomLevel]`, centred at
`p`, applies a suppressed block-size change plus exactly one origin shift,
and the collage point that was under `p` stays exactly under `p`: the
returned level is the requested one, and with `c0 = p - origin` the new
origin satisfies `origin' + c0 * (req / old) = p` componentwise. -/
theorem C6_zoom_focal_fixed {μ : Type} [DecidableEq μ] (zoomLevel req : ℚ)
    (c : Collage μ) (p : Vec ℚ) (_hz : 0 < zoomLevel)
    (hmin : ZoomCtl.minZoomLevel ≤ req) (hmax : req ≤ ZoomCtl.maxZoomLevel) :
    (ZoomCtl.zoom zoomLevel c req (some p)).1 = req ∧
    (ZoomCtl.zoom zoomLevel c req (some p)).2.1.origin.x +
        (p.x - c.origin.x) * (req / zoomLevel) = p.x ∧
    (ZoomCtl.zoom zoomLevel c req (some p)).2.1.origin.y +
        (p.y - c.origin.y) * (req / zoomLevel) = p.y := by
  have h1 : ¬ req < ZoomCtl.minZoomLevel := not_lt.mpr hmin
  have h2 : ¬ req > ZoomCtl.maxZoomLevel := not_lt.mpr hmax
  unfold ZoomCtl.zoom
  rw [if_neg h1, if_neg h2]
  simp only [ZoomCtl.viewToCollage, Helpers.subtract, Helpers.multiply,
    Helpers.vectorOf, Collage.shiftOrigin_false_origin, Helpers.add]
  have e : ∀ sz : ℚ, (Collage.setBlockSize c sz true).1.origin = c.origin :=
    fun _ => rfl
  rw [e]
  refine ⟨trivial, ?_, ?_⟩ <;> ring

set_option maxRecDepth 1000000

/-- C6 witness: zooming from level 1 to level 2 about the point
`(100, 40)` on the fresh engine state. -/
theorem C6_zoom_focal_fixed_witness :
    (0 : ℚ) < 1 ∧ ZoomCtl.minZoomLevel ≤ (2 : ℚ) ∧ (2 : ℚ) ≤ ZoomCtl.maxZoomLevel ∧
      ((ZoomCtl.zoom 1 (Collage.new ()) 2 (some ⟨100, 40⟩)).1 = 2 ∧
        (ZoomCtl.zoom 1 (Collage.new ()) 2 (some ⟨100, 40⟩)).2.1.origin.x +
            ((100 : ℚ) - (Collage.new ()).origin.x) * (2 / 1) = 100 ∧
        (ZoomCtl.zoom 1 (Collage.new ()) 2 (some ⟨100, 40⟩)).2.1.origin.y +
            ((40 : ℚ) - (Collage.new ()).origin.y) * (2 / 1) = 40) :=
  ⟨by with_unfolding_all decide, by with_unfolding_all decide,
    by with_unfolding_all decide,
    C6_zoom_focal_fixed 1 2 (Collage.new ()) ⟨100, 40⟩ (by with_unfolding_all decide)
      (by with_unfolding_all decide) (by with_unfolding_all decide)⟩

namespace Collage

/-- C1: every bounds check — the one `init` runs and the one each
non-suppressed `setOrigin`/`shiftOrigin`/`setBlockSize` runs — leaves every
point of the viewport rectangle inside the pixel rectangle of some live
block (corner `origin + position * blockSize`, side `blockSize`), given
strictly positive block sizes. -/
theorem C1_viewport_coverage {μ : Type} [DecidableEq μ] (s : Collage μ) (bs : ℚ)
    (vs : Vec ℚ) (ops : List Op) (op : Op) (hbs : 0 < bs) (hvx : 0 ≤ vs.x)
    (hvy : 0 ≤ vs.y) (hpre : 0 < s.preloadDistance) (hops : ∀ o ∈ ops, ValidOp o)
    (hop : ValidOp op) (hchk : opChecksBounds op = true) :
    Coverage (init s bs vs).1 ∧ Coverage (runOps (init s bs vs).1 (ops ++ [op])) := by
  obtain ⟨hI, hC, -, -, -, -⟩ := init_spec s bs vs hbs hvx hvy hpre
  refine ⟨hC, ?_⟩
  rw [runOps_append_single]
  exact applyOp_coverage _ op (runOps_inv ops _ hI hops) hop hchk

/-- C1 witness: coverage after `init(150, 800x600)` and after one further
bounds-checked `setOrigin`. -/
theorem C1_viewport_coverage_witness :
    (0 : ℚ) < 150 ∧
      (Coverage (init (new ()) 150 ⟨800, 600⟩).1 ∧
        Coverage (runOps (init (new ()) 150 ⟨800, 600⟩).1
          ([] ++ [Op.setOrigin ⟨10, 0⟩ false]))) :=
  ⟨by with_unfolding_all decide,
    C1_viewport_coverage (new ()) 150 ⟨800, 600⟩ [] (Op.setOrigin ⟨10, 0⟩ false)
      (by with_unfolding_all decide) (by with_unfolding_all decide)
      (by with_unfolding_all decide) (by with_unfolding_all decide)
      (by simp) trivial rfl⟩

/-- C2: at every observable instant — after `init` and after each further
mutation, bounds-checked or suppressed — the positions of the live blocks
are pairwise distinct. -/
theorem C2_positions_nodup {μ : Type} [DecidableEq μ] (s : Collage μ) (bs : ℚ)
    (vs : Vec ℚ) (ops : List Op) (hbs : 0 < bs) (hvx : 0 ≤ vs.x) (hvy : 0 ≤ vs.y)
    (hpre : 0 < s.preloadDistance) (hops : ∀ op ∈ ops, ValidOp op) :
    ((runOps (init s bs vs).1 ops).blocks.map (fun b => b.position)).Nodup :=
  (runOps_inv ops (init s bs vs).1 (init_spec s bs vs hbs hvx hvy hpre).1 hops).rect.2

/-- C2 witness: distinct positions after `init(150, 800x600)` followed by a
suppressed block-size change and a bounds-checked origin move. -/
theorem C2_positions_nodup_witness :
    (0 : ℚ) < 150 ∧
      ((runOps (init (new ()) 150 ⟨800, 600⟩).1
          [Op.setBlockSize 90 true, Op.setOrigin ⟨10, 0⟩ false]).blocks.map
        (fun b => b.position)).Nodup :=
  ⟨by with_unfolding_all decide,
    C2_positions_nodup (new ()) 150 ⟨800, 600⟩
      [Op.setBlockSize 90 true, Op.setOrigin ⟨10, 0⟩ false]
      (by with_unfolding_all decide) (by with_unfolding_all decide)
      (by with_unfolding_all decide) (by with_unfolding_all decide)
      (by intro op hop
          rcases List.mem_cons.mp hop with rfl | hop
          · exact (by with_unfolding_all decide : (0 : ℚ) < 90)
          · rcases List.mem_cons.mp hop with rfl | hop
            · trivial
            · cases hop)⟩

/-- C4 counterexample: in the jump scenario (block size 50, preload
distance 75, origin already at `(10, 0)`) a second `setOrigin` with the
unchanged origin still adds blocks and removes blocks — the transient
introduce batch is nonempty and the id counter moves — even though the
emitted event list is empty; the claim that the second run adds and removes
nothing is wrong. -/
theorem C4_counterexample_rechecks :
    scenarioJump.origin = (⟨10, 0⟩ : Vec ℚ) ∧
      (introduce scenarioJump).2 ≠ [] ∧
      (setOrigin scenarioJump ⟨10, 0⟩ false).1.blockId ≠ scenarioJump.blockId ∧
      (setOrigin scenarioJump ⟨10, 0⟩ false).2 = [] := by
  with_unfolding_all decide

/-- C4 amended: a second bounds check directly after a first one emits no
lifecycle events, for every state satisfying the structural invariant — the
transient additions are removed again and cancel exactly; and when the
preload distance is at most the block size the second run is moreover a
strict no-op, returning the state unchanged. -/
theorem C4_second_run_silent {μ : Type} [DecidableEq μ] (s : Collage μ)
    (hI : Inv s) :
    (checkBounds (checkBounds s).1).2 = [] ∧
      (s.preloadDistance ≤ s.blockSize →
        checkBounds (checkBounds s).1 = ((checkBounds s).1, [])) := by
  obtain ⟨hI2, -, hRE2, hIEf⟩ := checkBounds_spec s hI
  refine ⟨second_pass_no_events _ hI2 hRE2 (fun a => checkBounds_stable s hI a), ?_⟩
  intro hple
  exact checkBounds_of_exit _ (hIEf hple) hRE2

/-- C4 witness: the silent second run at the 50-pixel jump state — a state
whose preload distance 75 exceeds its block size 50, so the second run
re-adds blocks yet still emits nothing. -/
theorem C4_second_run_silent_witness :
    scenarioSmall.blockSize < scenarioSmall.preloadDistance ∧
      (checkBounds (checkBounds
        { scenarioSmall with origin := (⟨10, 0⟩ : Vec ℚ) }).1).2 = [] :=
  ⟨by with_unfolding_all decide,
    (C4_second_run_silent { scenarioSmall with origin := ⟨10, 0⟩ }
      (inv_setOrigin_state scenarioSmall ⟨10, 0⟩
        (init_spec (new ()) 50 ⟨50, 50⟩ (by with_unfolding_all decide)
          (by with_unfolding_all decide) (by with_unfolding_all decide)
          (by with_unfolding_all decide)).1)).1⟩

/-- C7: `init(150, 800x600)` computes `ceil(800/150) = 6` columns by
`ceil(600/150) = 4` rows, spawns those 24 blocks row-major with ids
`0..23` (block `i` at column `i % 6`, row `i / 6`), runs one extend pass
leaving at least 24 live blocks, and emits exactly one lifecycle event,
with state `New`, carrying the entire live set. -/
theorem C7_initial_fill :
    Int.ceil ((800 : ℚ) / 150) = 6 ∧ Int.ceil ((600 : ℚ) / 150) = 4 ∧
    ((init (new ()) 150 ⟨800, 600⟩).1.blocks.take 24).map
        (fun b => (b.position, b.id)) =
      (List.range 24).map
        (fun (i : ℕ) => ((⟨((i % 6 : ℕ) : ℤ), ((i / 6 : ℕ) : ℤ)⟩ : Vec ℤ), i)) ∧
    24 ≤ (init (new ()) 150 ⟨800, 600⟩).1.blocks.length ∧
    (init (new ()) 150 ⟨800, 600⟩).2 =
      [{ blocks := (init (new ()) 150 ⟨800, 600⟩).1.blocks,
         newState := BlockContentState.New }] := by
  with_unfolding_all decide

end Collage

namespace Collage

/-- C9: for every origin or block-size mutation, the extend loop and the
shrink loop of the ensuing bounds check terminate when the installed block
size is strictly positive (which the engine itself never validates): past
the computed fuel both loop results are unchanged, the extend result passes
all four of its exit tests, and the shrink result passes all four of its
exit tests. -/
theorem C9_loops_terminate {μ : Type} [DecidableEq μ] (s : Collage μ) (op : Op)
    (hI : Inv s) (hV : ValidOp op) :
    ∀ t : Collage μ,
      t = (match op with
        | .setOrigin p _ => { s with origin := p }
        | .shiftOrigin d _ => { s with origin := Helpers.add s.origin d }
        | .setBlockSize sz _ => { s with blockSize := sz }) →
      (∀ f, introduceFuel t ≤ f → introduceLoop f t [] = introduce t) ∧
      IntroExit (introduce t).1 ∧
      (∀ f, removeFuel (introduce t).1 ≤ f →
        removeLoop f (introduce t).1 [] = remove (introduce t).1) ∧
      RemExit (remove (introduce t).1).1 := by
  intro t ht
  have hIt : Inv t := by
    cases op with
    | setOrigin p i => rw [ht]; exact inv_setOrigin_state s p hI
    | shiftOrigin d i => rw [ht]; exact inv_setOrigin_state s _ hI
    | setBlockSize sz i => rw [ht]; exact inv_setBlockSize_state s sz hV hI
  have hint1 : ∀ f, introduceFuel t ≤ f → introduceLoop f t [] = introduce t := by
    intro f hf
    exact introduceLoop_fuel_irrel f (introduceFuel t) t [] hIt.bs
      (by unfold introduceFuel at hf; omega) (by unfold introduceFuel; omega)
  have hIE : IntroExit (introduce t).1 :=
    introduce_exit t hIt.bs hIt.vx hIt.vy hIt.pre hIt.cx hIt.cy
  have hpack := introduce_pack t ⟨hIt.rect, hIt.cx, hIt.cy, hIt.ids⟩
  have hbs1 : 0 < (introduce t).1.blockSize := by
    rw [introduce_blockSize]; exact hIt.bs
  have hvx1 : 0 ≤ (introduce t).1.viewportSize.x := by
    rw [introduce_viewportSize]; exact hIt.vx
  have hvy1 : 0 ≤ (introduce t).1.viewportSize.y := by
    rw [introduce_viewportSize]; exact hIt.vy
  have hJ := covA_of_introExit (introduce t).1
    (by rw [introduce_preloadDistance]; exact hIt.pre) hIE
  refine ⟨hint1, hIE, ?_,
    remove_exit (introduce t).1 hbs1 hvx1 hvy1 hpack.1 hJ.1 hJ.2⟩
  intro f hf
  exact removeLoop_fuel_irrel f (removeFuel (introduce t).1) (introduce t).1 [] hbs1
    (by unfold removeFuel at hf; omega) (by unfold removeFuel; omega)

/-- C9 witness: both loops of the bounds check of a `setOrigin((10, 0))` on
the `init(150, 800x600)` state reach their exit tests. -/
theorem C9_loops_terminate_witness :
    ValidOp (Op.setOrigin ⟨10, 0⟩ false) ∧
      (IntroExit (introduce
          { (init (new ()) 150 ⟨800, 600⟩).1 with origin := (⟨10, 0⟩ : Vec ℚ) }).1 ∧
        RemExit (remove (introduce
          { (init (new ()) 150 ⟨800, 600⟩).1 with origin := (⟨10, 0⟩ : Vec ℚ) }).1).1) := by
  refine ⟨trivial, ?_⟩
  have h := C9_loops_terminate (init (new ()) 150 ⟨800, 600⟩).1
    (Op.setOrigin ⟨10, 0⟩ false)
    (init_spec (new ()) 150 ⟨800, 600⟩ (by with_unfolding_all decide)
      (by with_unfolding_all decide) (by with_unfolding_all decide)
      (by with_unfolding_all decide)).1 trivial
    { (init (new ()) 150 ⟨800, 600⟩).1 with origin := ⟨10, 0⟩ } rfl
  exact ⟨h.2.1, h.2.2.2⟩

end Collage

namespace Collage

/-- C3: a block that one bounds-check call both introduces and then removes
is excluded from both the batched `New` event and the batched `Removed`
event of that call, and the call emits at most one event of each kind. -/
theorem C3_cancellation {μ : Type} [DecidableEq μ] (s : Collage μ) (b : Block μ)
    (h1 : b ∈ (introduce s).2) (h2 : b ∈ (remove (introduce s).1).2) :
    (∀ ev ∈ (checkBounds s).2, b ∉ ev.blocks) ∧
      (checkBounds s).2.countP (fun ev => ev.newState == BlockContentState.New) ≤ 1 ∧
      (checkBounds s).2.countP
        (fun ev => ev.newState == BlockContentState.Removed) ≤ 1 := by
  have hb_atr : b ∈ (introduce s).2.filter
      (fun x => decide (x ∈ (remove (introduce s).1).2)) := by
    rw [List.mem_filter]
    exact ⟨h1, by simpa using h2⟩
  have hc0 : ((introduce s).2.filter
      (fun x => decide (x ∈ (remove (introduce s).1).2))).length > 0 :=
    List.length_pos.mpr (List.ne_nil_of_mem hb_atr)
  simp only [checkBounds]
  rw [if_pos hc0]
  refine ⟨?_, ?_, ?_⟩
  · intro ev hev
    rcases List.mem_append.mp hev with h | h
    · split at h
      · rcases List.mem_singleton.mp h with rfl
        intro hbmem
        rcases List.mem_filter.mp hbmem with ⟨-, hnot⟩
        simp only [decide_not, Bool.not_eq_true', decide_eq_false_iff_not] at hnot
        exact hnot hb_atr
      · cases h
    · split at h
      · rcases List.mem_singleton.mp h with rfl
        intro hbmem
        rcases List.mem_filter.mp hbmem with ⟨-, hnot⟩
        simp only [decide_not, Bool.not_eq_true', decide_eq_false_iff_not] at hnot
        exact hnot hb_atr
      · cases h
  · rw [List.countP_append]
    split <;> split <;> simp [List.countP_cons, List.countP_nil]
  · rw [List.countP_append]
    split <;> split <;> simp [List.countP_cons, List.countP_nil]

end Collage

namespace Collage

/-- C3 witness: the cancelled block of the jump scenario lies in the
transient introduce batch and in the remove batch of one bounds check, and
appears in none of the emitted events. -/
theorem C3_cancellation_witness :
    scenarioCancelled ∈ (introduce scenarioJump).2 ∧
      ∀ ev ∈ (checkBounds scenarioJump).2, scenarioCancelled ∉ ev.blocks :=
  ⟨by with_unfolding_all decide,
    (C3_cancellation scenarioJump scenarioCancelled (by with_unfolding_all decide)
      (by with_unfolding_all decide)).1⟩

end Collage
